import Mathlib

/-!
Verification of the layered memory and drift engine of the agent-soul-kit
repository.  JS strings are modeled as lists of characters; the file system
is modeled as explicit state records.  Each engine method of the source
(VibeEngine, MemoryEngine, PersonalityDrift, SharedMemory) is translated to a
Lean function over that state.  The regular expressions of the source are
fixed patterns; each one is translated to a recursive matcher implementing
the backtracking semantics of the JS engine for that pattern, documented at
the matcher.
-/

set_option maxRecDepth 8000

abbrev Str := List Char

/-- JS whitespace class for trim and backslash-s: the ASCII part (space, tab,
LF, CR, VT, FF).  The non-ASCII whitespace code points of JS never occur in
any text handled here. -/
def jsWs (c : Char) : Bool :=
  c = ' ' || c = '\t' || c = '\n' || c = '\r' || c = '\x0b' || c = '\x0c'

/-- JS dot character class: anything but a line terminator. -/
def jsDot (c : Char) : Bool := !(c = '\n' || c = '\r')

/-- String.prototype.trim -/
def jsTrim (s : Str) : Str := (((s.dropWhile jsWs).reverse).dropWhile jsWs).reverse

/-- String.prototype.trimEnd -/
def jsTrimEnd (s : Str) : Str := ((s.reverse).dropWhile jsWs).reverse

/-- String.prototype.toLowerCase (simple case folding; identical on ASCII). -/
def toLowerStr (s : Str) : Str := s.map Char.toLower

/-- Index of the first occurrence of the pattern p in s; none if absent.
This is the leftmost-match position of a literal (regex-escaped) pattern. -/
def findSub (p : Str) : Str → Option Nat
  | [] => if p.isEmpty then some 0 else none
  | c :: cs => if p.isPrefixOf (c :: cs) then some 0 else (findSub p cs).map (· + 1)

def containsSub (p s : Str) : Bool := (findSub p s).isSome

/-- Bound on a found occurrence, needed by the termination argument of the
splitter below. -/
def findSubBound (p : Str) :
    ∀ s i, findSub p s = some i → i + p.length ≤ s.length := by
  intro s
  induction s with
  | nil =>
    intro i h
    by_cases hp : p.isEmpty
    · simp [findSub, hp] at h
      subst h
      simp [List.isEmpty_iff] at hp
      simp [hp]
    · simp [findSub, hp] at h
  | cons c cs ih =>
    intro i h
    by_cases hpre : p.isPrefixOf (c :: cs)
    · simp [findSub, hpre] at h
      subst h
      have := List.IsPrefix.length_le (List.isPrefixOf_iff_prefix.mp hpre)
      simpa using this
    · simp [findSub, hpre] at h
      obtain ⟨j, hj, rfl⟩ := h
      have := ih j hj
      simp only [List.length_cons]
      omega

/-- Fuel-driven splitter core; every recursion step consumes at least one
character when the separator is nonempty, so fuel equal to the length of the
input always suffices (structural recursion keeps the function kernel-
reducible). -/
def splitOnFuel (sep : Str) : Nat → Str → List Str
  | 0, s => [s]
  | fuel + 1, s =>
    match findSub sep s with
    | none => [s]
    | some i => s.take i :: splitOnFuel sep fuel (s.drop (i + sep.length))

/-- String.prototype.split with a literal separator (the nonempty case used by
the source: separators are the newline and the three-dash rule). -/
def splitOnStr (sep : Str) (s : Str) : List Str :=
  if sep.isEmpty then s.map (fun c => [c])
  else splitOnFuel sep s.length s

def splitNl (s : Str) : List Str := splitOnStr ("\n".toList) s

/-- String.prototype.replace with a literal pattern and a replacement free of
dollar escapes: replaces the first occurrence only. -/
def replaceFirst (pat rep s : Str) : Str :=
  match findSub pat s with
  | none => s
  | some i => s.take i ++ rep ++ s.drop (i + pat.length)

def startsWithChar (c : Char) : Str → Bool
  | [] => false
  | d :: _ => d = c

/-- Array.prototype.slice with a negative start index -n: the last n elements
(the whole array when n = 0, since -0 is 0, or when n exceeds the length). -/
def jsSliceLast (l : List α) (n : Nat) : List α :=
  if n = 0 then l else l.drop (l.length - n)

/-- JS truthiness of an optional string: undefined and the empty string are
falsy. -/
def optTruthy : Option Str → Bool
  | none => false
  | some s => !s.isEmpty

/-- Insert or replace a key in an association list, keeping first-insertion
order (JS object property assignment / one file per path). -/
def setAssoc {α : Type} : List (Str × α) → Str → α → List (Str × α)
  | [], k, v => [(k, v)]
  | (k0, v0) :: rest, k, v =>
    if k0 = k then (k, v) :: rest else (k0, v0) :: setAssoc rest k v

def natToStr (n : Nat) : Str := Nat.toDigits 10 n

def intToStr (n : Int) : Str :=
  if n < 0 then '-' :: natToStr n.natAbs else natToStr n.natAbs

/-- State of one file on disk.  ioFail models an I/O failure other than
file-not-found (the code argument standing for errno, e.g. EACCES). -/
inductive FileState where
  | present (content : Str)
  | absent
  | ioFail (code : Nat)
deriving Repr, DecidableEq

inductive ReadErr where
  | notFound
  | other (code : Nat)
deriving Repr, DecidableEq

/-- node:fs/promises readFile: content, or a thrown failure. -/
def readFileFS : FileState → Except ReadErr Str
  | .present s => .ok s
  | .absent => .error .notFound
  | .ioFail c => .error (.other c)

/-- The try/catch pattern of every read in the source: the bare catch swallows
every failure, not just ENOENT, and yields the empty string. -/
def tryReadOrEmpty (f : FileState) : Except ReadErr Str :=
  match readFileFS f with
  | .ok s => .ok s
  | .error _ => .ok []

/-- Content under the catch-all: file content, or empty on any failure. -/
def orEmpty (f : FileState) : Str :=
  match f with
  | .present s => s
  | _ => []

def lookupFile : List (Str × FileState) → Str → FileState
  | [], _ => .absent
  | (k0, v0) :: rest, k => if k = k0 then v0 else lookupFile rest k

/-- The file-system state of one base directory: the three fixed files plus
the two date-keyed directories (memory/ and memory/mind_diary/), keyed by the
date string. -/
structure FS where
  soul : FileState
  activeContext : FileState
  memory : FileState
  dailyLogs : List (Str × FileState)
  diary : List (Str × FileState)
deriving Repr, DecidableEq

def backquoteChar : Char := Char.ofNat 96

def singleQuoteChar : Char := Char.ofNat 39

/-- Expansion of a String.replace replacement template for a regex with one
capture group: handles the doubled dollar, dollar-ampersand (whole match),
dollar-backquote (text before the match), dollar-quote (text after the
match) and dollar-one (the group); any other dollar sequence stays literal,
as it does in JS when the group number does not exist. -/
def expandRepl (whole before after g1 : Str) : Str → Str
  | [] => []
  | c :: rest =>
    if c = '$' then
      match rest with
      | [] => ['$']
      | d :: r =>
        if d = '$' then '$' :: expandRepl whole before after g1 r
        else if d = '&' then whole ++ expandRepl whole before after g1 r
        else if d = backquoteChar then before ++ expandRepl whole before after g1 r
        else if d = singleQuoteChar then after ++ expandRepl whole before after g1 r
        else if d = '1' then g1 ++ expandRepl whole before after g1 r
        else '$' :: expandRepl whole before after g1 (d :: r)
    else c :: expandRepl whole before after g1 rest

/-- The section header text searched for by the section regexes.  escapeRegex
in the source makes the title a literal, so matching the built regex prefix
is a literal substring search for this text. -/
def sectionHeader (title : Str) : Str := ("## ".toList) ++ title ++ ("\n".toList)

namespace VibeEngine

structure VibeSnapshot where
  timestamp : Str
  vibe : Str
  summary : Str
  trigger : Option Str
deriving Repr, DecidableEq

def MAX_ACTIVE_VIBES : Nat := 10

def VIBE_SECTION : Str := "Vibe History".toList

/-- extractSection: first match of the section regex.  The lazy body with the
lookahead for a following header or the end of input runs from the header to
the first occurrence of a newline-sharp-sharp-space, or to the end. -/
def extractSection (content title : Str) : Option Str :=
  let header := sectionHeader title
  match findSub header content with
  | none => none
  | some i =>
    let rest := content.drop (i + header.length)
    let body :=
      match findSub ("\n## ".toList) rest with
      | none => rest
      | some j => rest.take j
    some (jsTrim body)

/-- replaceSection (VibeEngine): content.replace with the section regex (no
flags, first match only) and the template dollar-one, newline, the new
content, newline.  When the header is absent, replace is the identity. -/
def replaceSection (content title newContent : Str) : Str :=
  let header := sectionHeader title
  match findSub header content with
  | none => content
  | some i =>
    let pre := content.take i
    let rest := content.drop (i + header.length)
    let bodyLen :=
      match findSub ("\n## ".toList) rest with
      | none => rest.length
      | some j => j
    let whole := header ++ rest.take bodyLen
    let post := rest.drop bodyLen
    let tmpl := ("$1\n".toList) ++ newContent ++ ("\n".toList)
    pre ++ expandRepl whole pre post header tmpl ++ post

def upsertSection (content title newLine : Str) : Str :=
  match extractSection content title with
  | some existing => replaceSection content title (existing ++ ("\n".toList) ++ newLine)
  | none =>
    jsTrimEnd content ++ ("\n\n## ".toList) ++ title ++ ("\n\n".toList) ++ newLine ++ ("\n".toList)

def formatVibeLine (s : VibeSnapshot) : Str :=
  let time := replaceFirst ("T".toList) (" ".toList) (s.timestamp.take 16)
  let trig :=
    if optTruthy s.trigger then (" (trigger: ".toList) ++ s.trigger.getD [] ++ (")".toList)
    else []
  ("- ".toList) ++ s.vibe ++ (" [".toList) ++ time ++ ("] ".toList) ++ s.summary ++ trig

/-- Lazy group two of the vibe line regex followed by the literal bracket and
space: the shortest nonempty dot-class run after which the rest starts with
bracket-space. -/
def vibeTimeLoop (acc : Str) : Str → Option (Str × Str)
  | [] => none
  | c :: r =>
    if !jsDot c then none
    else
      let acc2 := c :: acc
      if ("] ".toList).isPrefixOf r then some (acc2.reverse, r.drop 2)
      else vibeTimeLoop acc2 r

/-- The optional trigger tail of the vibe line regex, matched against the
whole remaining suffix: greedy whitespace, the literal open-paren trigger
colon space, then the lazy group four whose closing paren must be the last
character of the line. -/
def matchTrigger (s : Str) : Option Str :=
  let s1 := s.dropWhile jsWs
  if ("(trigger: ".toList).isPrefixOf s1 then
    let t := s1.drop 10
    match t.getLast? with
    | some ')' =>
      let g4 := t.dropLast
      if g4.isEmpty then none
      else if g4.all jsDot then some g4 else none
    | _ => none
  else none

/-- Lazy group three of the vibe line regex: at each length, first try the
optional trigger tail, then the end of input, else extend by one dot-class
character. -/
def vibeTail (acc : Str) : Str → Option (Str × Option Str)
  | [] =>
    match matchTrigger [] with
    | some t => some (acc.reverse, some t)
    | none => some (acc.reverse, none)
  | c :: r =>
    match matchTrigger (c :: r) with
    | some t => some (acc.reverse, some t)
    | none => if jsDot c then vibeTail (c :: acc) r else none

/-- Matcher for the anchored vibe line regex: dash space, a nonempty
maximal non-whitespace run (group one), space, open bracket, group two up to
the first bracket-space, then group three with the optional trigger tail.
Returns the raw captured groups. -/
def vibeLineMatch (line : Str) : Option (Str × Str × Str × Option Str) :=
  match line with
  | c1 :: c2 :: rest =>
    if c1 = '-' && c2 = ' ' then
      let g1 := rest.takeWhile (fun c => !jsWs c)
      let r1 := rest.dropWhile (fun c => !jsWs c)
      if g1.isEmpty then none
      else
        match r1 with
        | b1 :: b2 :: r2 =>
          if b1 = ' ' && b2 = '[' then
            match vibeTimeLoop [] r2 with
            | none => none
            | some (g2, r3) =>
              match r3 with
              | [] => none
              | c :: r4 =>
                if jsDot c then (vibeTail [c] r4).map (fun p => (g1, g2, p.1, p.2))
                else none
          else none
        | _ => none
    else none
  | _ => none

def parseVibesFromContent (content : Str) : List VibeSnapshot :=
  match extractSection content VIBE_SECTION with
  | none => []
  | some sectionContent =>
    if sectionContent.isEmpty then []
    else
      (splitNl sectionContent).filterMap (fun l =>
        (vibeLineMatch (jsTrim l)).map (fun m =>
          { vibe := m.1
            timestamp := replaceFirst (" ".toList) ("T".toList) m.2.1 ++ (":00.000Z".toList)
            summary := jsTrim m.2.2.1
            trigger := m.2.2.2.map jsTrim }))

/-- archive: move the oldest vibes beyond the keep count into the diary file
of the given day; today is the process clock date string. -/
def archive (today : Str) (fs : FS) : Nat × FS :=
  match fs.activeContext with
  | .present content =>
    let vibes := parseVibesFromContent content
    let keepCount := MAX_ACTIVE_VIBES / 2
    if vibes.length ≤ keepCount then (0, fs)
    else
      let toArchive := vibes.take (vibes.length - keepCount)
      let toKeep := vibes.drop (vibes.length - keepCount)
      let diaryContent := List.intercalate ("\n".toList) (toArchive.map formatVibeLine)
      let existing := orEmpty (lookupFile fs.diary today)
      let header :=
        if existing.isEmpty then ("# 心智日记 ".toList) ++ today ++ ("\n\n".toList) else []
      let archiveBlock :=
        ("\n### Archived Vibes\n\n".toList) ++ diaryContent ++ ("\n\n---\n".toList)
      let fs2 := { fs with diary := setAssoc fs.diary today (.present (header ++ existing ++ archiveBlock)) }
      let keptLines := List.intercalate ("\n".toList) (toKeep.map formatVibeLine)
      let content2 := replaceSection content VIBE_SECTION keptLines
      (toArchive.length, { fs2 with activeContext := .present content2 })
  | _ => (0, fs)

/-- capture: append the formatted line into the Vibe History section, write,
then auto-archive when the parsed count exceeds the ceiling. -/
def capture (today : Str) (fs : FS) (snap : VibeSnapshot) : FS :=
  let content := orEmpty fs.activeContext
  let content2 := upsertSection content VIBE_SECTION (formatVibeLine snap)
  let fs2 := { fs with activeContext := .present content2 }
  let vibes := parseVibesFromContent content2
  if vibes.length > MAX_ACTIVE_VIBES then (archive today fs2).2 else fs2

structure VibeReadOptions where
  limit : Option Nat
  filter : Option Str
deriving Repr, DecidableEq

def readRecent (fs : FS) (opts : VibeReadOptions) : List VibeSnapshot :=
  let limit := opts.limit.getD 5
  match fs.activeContext with
  | .present content =>
    let vibes := parseVibesFromContent content
    let vibes2 :=
      if optTruthy opts.filter then vibes.filter (fun v => v.vibe = opts.filter.getD [])
      else vibes
    jsSliceLast vibes2 limit
  | _ => []

/-- The snapshot as it comes back out of a capture/readRecent round trip for
a parse-safe snapshot: the timestamp is truncated to minute precision with
seconds and milliseconds zeroed. -/
def rt (s : VibeSnapshot) : VibeSnapshot :=
  { vibe := s.vibe
    timestamp := s.timestamp.take 16 ++ (":00.000Z".toList)
    summary := s.summary
    trigger := s.trigger }

/-- Decimal digit character. -/
def digitChar (c : Char) : Bool :=
  c = '0' || c = '1' || c = '2' || c = '3' || c = '4' ||
  c = '5' || c = '6' || c = '7' || c = '8' || c = '9'

/-- Shape of the first sixteen characters of an ISO timestamp: digits with
dashes, the T separator at index ten and the colon at index thirteen. -/
def isoPrefixShape (ts : Str) : Bool :=
  match ts.take 16 with
  | [y1, y2, y3, y4, s1, m1, m2, s2, d1, d2, tc, h1, h2, cc, n1, n2] =>
    digitChar y1 && digitChar y2 && digitChar y3 && digitChar y4 && s1 = '-' &&
    digitChar m1 && digitChar m2 && s2 = '-' && digitChar d1 && digitChar d2 &&
    tc = 'T' && digitChar h1 && digitChar h2 && cc = ':' && digitChar n1 && digitChar n2
  | _ => false

/-- Parse-safety of a snapshot: the vibe tag is a nonempty non-whitespace
token, the timestamp has the ISO shape, the summary is a nonempty
trim-invariant single line without the trigger marker, and the trigger, when
present, is a nonempty trim-invariant single line; no field contains a
dollar sign (which String.replace would expand) or a line terminator. -/
def wfVibe (s : VibeSnapshot) : Bool :=
  (!s.vibe.isEmpty) && s.vibe.all (fun c => !jsWs c && !(c = '$')) &&
  isoPrefixShape s.timestamp &&
  (!s.summary.isEmpty) && (jsTrim s.summary == s.summary) &&
  s.summary.all (fun c => jsDot c && !(c = '$')) &&
  (findSub ("(trigger:".toList) s.summary).isNone &&
  (match s.trigger with
   | none => true
   | some t => (!t.isEmpty) && (jsTrim t == t) && t.all (fun c => jsDot c && !(c = '$')))

end VibeEngine

inductive Layer where
  | L1
  | L2
  | L3
deriving Repr, DecidableEq

namespace MemoryEngine

def readSoul (fs : FS) : Except ReadErr Str := tryReadOrEmpty fs.soul

def readActiveContext (fs : FS) : Except ReadErr Str := tryReadOrEmpty fs.activeContext

def readMemory (fs : FS) : Except ReadErr Str := tryReadOrEmpty fs.memory

/-- readDailyLog: the optional date argument defaults to today (the process
clock date, passed explicitly). -/
def readDailyLog (today : Str) (fs : FS) (date : Option Str) : Except ReadErr Str :=
  tryReadOrEmpty (lookupFile fs.dailyLogs (date.getD today))

def readDiary (today : Str) (fs : FS) (date : Option Str) : Except ReadErr Str :=
  tryReadOrEmpty (lookupFile fs.diary (date.getD today))

/-- Body matched by the section regex of updateActiveContextSection.  That
regex carries the m flag, which makes the dollar anchor inside the lookahead
match at every end of line; the lazily matched body therefore stops at the
first line terminator after the header (the other lookahead alternative also
begins with one), or at the end of the document. -/
def mFlagBody (rest : Str) : Str := rest.takeWhile jsDot

def updateActiveContextSection (fs : FS) (title content : Str) : FS :=
  let current := orEmpty fs.activeContext
  let header := sectionHeader title
  let updated :=
    match findSub header current with
    | some i =>
      let pre := current.take i
      let rest := current.drop (i + header.length)
      let body := mFlagBody rest
      let whole := header ++ body
      let post := rest.drop body.length
      let tmpl := ("$1".toList) ++ content ++ ("\n".toList)
      pre ++ expandRepl whole pre post header tmpl ++ post
    | none =>
      jsTrimEnd current ++ ("\n\n## ".toList) ++ title ++ ("\n".toList) ++ content ++ ("\n".toList)
  { fs with activeContext := .present updated }

structure DailyLogEntry where
  timestamp : Str
  content : Str
  tags : Option (List Str)
deriving Repr, DecidableEq

/-- appendDailyLog.  The file is always the one for today (dailyLogPath is
called with no argument); the localHHMM parameter abstracts the locale- and
timezone-dependent toLocaleTimeString formatting of the entry timestamp. -/
def appendDailyLog (localHHMM : Str → Str) (today : Str) (fs : FS) (e : DailyLogEntry) : FS :=
  let current := orEmpty (lookupFile fs.dailyLogs today)
  let header := if current.isEmpty then ("# ".toList) ++ today ++ ("\n\n".toList) else []
  let time := localHHMM e.timestamp
  let tags :=
    match e.tags with
    | some ts => if ts.length ≠ 0 then (" [".toList) ++ List.intercalate (", ".toList) ts ++ ("]".toList) else []
    | none => []
  let block := ("### ".toList) ++ time ++ tags ++ ("\n\n".toList) ++ jsTrim e.content ++ ("\n\n---\n".toList)
  { fs with dailyLogs := setAssoc fs.dailyLogs today (.present (header ++ current ++ block)) }

def strLtChars : Str → Str → Bool
  | [], [] => false
  | [], _ :: _ => true
  | _ :: _, [] => false
  | a :: as, b :: bs => if a.val < b.val then true else if b.val < a.val then false else strLtChars as bs

def insertAsc (x : Str) : List Str → List Str
  | [] => [x]
  | y :: ys => if !strLtChars x y then y :: insertAsc x ys else x :: y :: ys

/-- Default Array.prototype.sort: stable, lexicographic by code unit (the
date names here are ASCII, where code units and code points agree). -/
def sortStrAsc (l : List Str) : List Str := l.foldl (fun acc x => insertAsc x acc) []

def isDateName (d : Str) : Bool :=
  match d with
  | [y1, y2, y3, y4, s1, m1, m2, s2, d1, d2] =>
    y1.isDigit && y2.isDigit && y3.isDigit && y4.isDigit && s1 = '-' &&
    m1.isDigit && m2.isDigit && s2 = '-' && d1.isDigit && d2.isDigit
  | _ => false

/-- listDailyLogs: directory entries matching the strict date-dot-md pattern,
with the extension stripped, sorted descending.  The daily-log map is keyed
by the stripped date string, and a key matches the filename pattern exactly
when it matches the date pattern. -/
def listDailyLogs (fs : FS) : List Str :=
  (sortStrAsc ((fs.dailyLogs.map Prod.fst).filter isDateName)).reverse

structure SearchResult where
  layer : Layer
  path : Str
  line : Nat
  content : Str
  score : Rat
deriving Repr, DecidableEq

structure SearchOptions where
  layers : Option (List Layer)
  maxResults : Option Nat
  minScore : Option Rat
deriving Repr, DecidableEq

/-- String.prototype.split on the whitespace-run regex: segments between
maximal whitespace runs, including an empty leading or trailing segment when
the string starts or ends with whitespace.  In the recursive case the head
of the remainder is the first whitespace character; that character plus the
following whitespace prefix forms the maximal separator run. -/
def wsSegsFuel : Nat → Str → List Str
  | 0, s => [s]
  | fuel + 1, s =>
    let tok := s.takeWhile (fun c => !jsWs c)
    match s.dropWhile (fun c => !jsWs c) with
    | [] => [tok]
    | _ :: rest2 => tok :: wsSegsFuel fuel (rest2.dropWhile jsWs)

def wsSegs (s : Str) : List Str := wsSegsFuel s.length s

def scoreText (terms : List Str) (text : Str) : Rat :=
  let lower := toLowerStr text
  let matched := (terms.filter (fun t => containsSub t lower)).length
  (matched : Rat) / (terms.length : Rat)

/-- The paragraph-accumulating loop of searchFile, one step per line.  The
source iterates the line index up to and including the line count with an
empty fallback line, so a final sentinel blank line reproduces the closing
flush. -/
def searchFileLoop (terms : List Str) (minScore : Rat) (layer : Layer) (path : Str) :
    List Str → Nat → Nat → Str → List SearchResult
  | [], _, _, _ => []
  | line :: rest, i, paraStart, currentPara =>
    if (jsTrim line).isEmpty then
      (if !(jsTrim currentPara).isEmpty then
        let score := scoreText terms currentPara
        if score ≥ minScore then
          [{ layer := layer, path := path, line := paraStart + 1,
             content := (jsTrim currentPara).take 500, score := score }]
        else []
      else []) ++ searchFileLoop terms minScore layer path rest (i + 1) (i + 1) []
    else
      searchFileLoop terms minScore layer path rest (i + 1) paraStart (currentPara ++ line ++ ("\n".toList))

def searchFile (terms : List Str) (minScore : Rat) (layer : Layer) (path : Str)
    (f : FileState) : List SearchResult :=
  match f with
  | .present content => searchFileLoop terms minScore layer path (splitNl content ++ [[]]) 0 0 []
  | _ => []

def insertScored (x : SearchResult) : List SearchResult → List SearchResult
  | [] => [x]
  | y :: ys => if x.score ≤ y.score then y :: insertScored x ys else x :: y :: ys

/-- Stable sort by score descending (Array.prototype.sort is stable; the
comparator is the score difference). -/
def sortScoreDesc (l : List SearchResult) : List SearchResult :=
  l.foldl (fun acc x => insertScored x acc) []

def acPath : Str := "active_context.md".toList

def memPath : Str := "MEMORY.md".toList

def logPath (d : Str) : Str := ("memory/".toList) ++ d ++ (".md".toList)

def search (fs : FS) (query : Str) (opts : SearchOptions) : List SearchResult :=
  let layers := opts.layers.getD [Layer.L1, Layer.L2, Layer.L3]
  let maxResults := opts.maxResults.getD 10
  let minScore := opts.minScore.getD (1 / 10 : Rat)
  let terms := (wsSegs (toLowerStr query)).filter (fun t => 1 < t.length)
  if terms.isEmpty then []
  else
    let r1 := if layers.contains Layer.L1 then searchFile terms minScore Layer.L1 acPath fs.activeContext else []
    let r2 := if layers.contains Layer.L2 then searchFile terms minScore Layer.L2 memPath fs.memory else []
    let r3 :=
      if layers.contains Layer.L3 then
        (((listDailyLogs fs).take 30).map
          (fun d => searchFile terms minScore Layer.L3 (logPath d) (lookupFile fs.dailyLogs d))).flatten
      else []
    (sortScoreDesc (r1 ++ r2 ++ r3)).take maxResults

end MemoryEngine

namespace PersonalityDrift

structure PersonalitySnapshot where
  timestamp : Str
  soulHash : Str
  memorySize : Int
  diaryCount : Int
  vibeDistribution : List (Str × Int)
  topThemes : List Str
deriving Repr, DecidableEq

structure DriftReport where
  fromSnap : PersonalitySnapshot
  toSnap : PersonalitySnapshot
  soulChanged : Bool
  memoryGrowth : Int
  newDiaryEntries : Int
  vibeTrend : Str
  summary : Str
deriving Repr, DecidableEq

def toneMap : List (Str × Str) :=
  [("🔥".toList, "energetic".toList), ("💭".toList, "reflective".toList),
   ("😴".toList, "calm".toList), ("❤️".toList, "warm".toList),
   ("🌟".toList, "inspired".toList)]

def lookupTone (t : Str) : Str := (toneMap.lookup t).getD t

/-- Object.entries of the histogram sorted by count descending, first key.
The sort is stable, so among maximal counts the first-inserted key wins;
equivalently, the fold keeping the earliest strict maximum. -/
def dominantKey (record : List (Str × Int)) : Option Str :=
  match record with
  | [] => none
  | e :: rest => some ((rest.foldl (fun best x => if x.2 > best.2 then x else best) e).1)

def analyzeVibeTrend (fromDist toDist : List (Str × Int)) : Str :=
  match dominantKey fromDist, dominantKey toDist with
  | none, none => []
  | none, some d => ("becoming ".toList) ++ lookupTone d
  | some _, none => "emotional data fading".toList
  | some f, some t =>
    if f = t then ("consistently ".toList) ++ lookupTone f
    else ("shifting from ".toList) ++ lookupTone f ++ (" to ".toList) ++ lookupTone t

/-- Decimal rendering with one fractional digit of the byte delta over 1024,
used only inside the positive-growth clause; the toFixed float formatting is
modeled arithmetically as rounding to the nearest tenth.  No claim inspects
the digits of this string. -/
def kbStr (g : Int) : Str :=
  let tenths : Int := (g * 10 + 512) / 1024
  intToStr (tenths / 10) ++ (".".toList) ++ intToStr (tenths % 10)

def compare (f t : PersonalitySnapshot) : DriftReport :=
  let soulChanged := f.soulHash != t.soulHash
  let memoryGrowth := t.memorySize - f.memorySize
  let newDiaryEntries := t.diaryCount - f.diaryCount
  let vibeTrend := analyzeVibeTrend f.vibeDistribution t.vibeDistribution
  let newThemes := t.topThemes.filter (fun th => !f.topThemes.contains th)
  let lostThemes := f.topThemes.filter (fun th => !t.topThemes.contains th)
  let parts : List Str :=
    (if soulChanged then ["Soul definition has changed — identity is evolving.".toList] else []) ++
    (if memoryGrowth > 0 then [("Memory grew by ".toList) ++ kbStr memoryGrowth ++ (" KB.".toList)]
     else if memoryGrowth = 0 then ["Memory size unchanged.".toList] else []) ++
    (if newDiaryEntries > 0 then [intToStr newDiaryEntries ++ (" new diary entries written.".toList)] else []) ++
    (if !vibeTrend.isEmpty then [("Emotional trend: ".toList) ++ vibeTrend ++ (".".toList)] else []) ++
    (if !newThemes.isEmpty then
      [("New interests: ".toList) ++ List.intercalate (", ".toList) newThemes ++ (".".toList)] else []) ++
    (if !lostThemes.isEmpty then
      [("Fading interests: ".toList) ++ List.intercalate (", ".toList) lostThemes ++ (".".toList)] else [])
  let joined := List.intercalate (" ".toList) parts
  { fromSnap := f
    toSnap := t
    soulChanged := soulChanged
    memoryGrowth := memoryGrowth
    newDiaryEntries := newDiaryEntries
    vibeTrend := if vibeTrend.isEmpty then "stable".toList else vibeTrend
    summary := if joined.isEmpty then "No significant drift detected.".toList else joined }

end PersonalityDrift

namespace SharedMemory

structure SharedMessage where
  agent : Str
  topic : Str
  timestamp : Str
  content : Str
  metadata : Option (List (Str × Str))
deriving Repr, DecidableEq

/-- publish: compute the new content of the topic file (keyed by the topic
name) and the returned message.  now is the process clock ISO timestamp. -/
def publish (agentName now : Str) (file : FileState) (topic content : Str)
    (metadata : Option (List (Str × Str))) : Str × SharedMessage :=
  let message : SharedMessage :=
    { agent := agentName, topic := topic, timestamp := now, content := content, metadata := metadata }
  let existing :=
    match readFileFS file with
    | .ok s => s
    | .error _ => ("# ".toList) ++ topic ++ ("\n\n".toList)
  let time := replaceFirst ("T".toList) (" ".toList) (now.take 16)
  let meta :=
    match metadata with
    | some m => List.intercalate (" | ".toList) (m.map (fun kv => kv.1 ++ (": ".toList) ++ kv.2))
    | none => []
  let metaLine := if meta.isEmpty then [] else ("\n> ".toList) ++ meta
  let entry :=
    ("### [".toList) ++ time ++ ("] ".toList) ++ agentName ++ metaLine ++ ("\n\n".toList) ++
    jsTrim content ++ ("\n\n---\n".toList)
  (existing ++ entry, message)

/-- Group two of the per-line header regex after the closing bracket: greedy
whitespace then a greedy nonempty dot-class run.  When everything after the
bracket is whitespace, the whitespace star backtracks until its last
character is in the dot class (a plain space or tab qualifies). -/
def hdrWsBack : Str → Str → Option Str
  | [], _ => none
  | c :: ws, acc => if jsDot c then some ((c :: acc).takeWhile jsDot) else hdrWsBack ws (c :: acc)

def hdrTail (s : Str) : Option Str :=
  match s.dropWhile jsWs with
  | c :: rest => some ((c :: rest).takeWhile jsDot)
  | [] => hdrWsBack (s.takeWhile jsWs).reverse []

/-- Lazy group one of the header regex followed by the closing bracket and
the agent tail; on a failing tail the lazy group extends past the bracket. -/
def hdrG1 (acc : Str) : Str → Option (Str × Str)
  | [] => none
  | c :: r =>
    if !jsDot c then none
    else
      let acc2 := c :: acc
      match r with
      | b :: r2 =>
        if b = ']' then
          (match hdrTail r2 with
           | some g2 => some (acc2.reverse, g2)
           | none => hdrG1 acc2 (b :: r2))
        else hdrG1 acc2 (b :: r2)
      | [] => none

/-- The header regex (three sharps, whitespace, bracketed time, agent) tried
at one position. -/
def headerAt (s : Str) : Option (Str × Str) :=
  if ("###".toList).isPrefixOf s then
    match (s.drop 3).dropWhile jsWs with
    | '[' :: r3 => hdrG1 [] r3
    | _ => none
  else none

/-- Leftmost match of the unanchored header regex within a line. -/
def headerScan : Str → Option (Str × Str)
  | [] => none
  | c :: r =>
    match headerAt (c :: r) with
    | some m => some m
    | none => headerScan r

def parseMessages (topic content : Str) : List SharedMessage :=
  let blocks := (splitOnStr ("---".toList) content).filter (fun b => !(jsTrim b).isEmpty)
  blocks.filterMap (fun block =>
    let lines := splitNl (jsTrim block)
    match lines.find? (fun l => (headerScan l).isSome) with
    | none => none
    | some headerLine =>
      match headerScan headerLine with
      | none => none
      | some (g1, g2) =>
        let timestamp := replaceFirst (" ".toList) ("T".toList) (jsTrim g1) ++ (":00.000Z".toList)
        let agent := jsTrim g2
        let metaLines := lines.filter (startsWithChar '>')
        let pairs := (metaLines.map (fun ml =>
          splitOnStr (" | ".toList) ((ml.drop 1).dropWhile jsWs))).flatten
        let metadata := pairs.foldl (fun m pair =>
          match splitOnStr (": ".toList) pair with
          | k :: v :: _ => if !k.isEmpty && !v.isEmpty then setAssoc m (jsTrim k) (jsTrim v) else m
          | _ => m) []
        let contentLines := lines.filter (fun l =>
          !(headerScan l).isSome && !startsWithChar '>' l &&
          !(("# ".toList).isPrefixOf l) && !(jsTrim l).isEmpty)
        some { agent := agent
               topic := topic
               timestamp := timestamp
               content := jsTrim (List.intercalate ("\n".toList) contentLines)
               metadata := if metadata.isEmpty then none else some metadata })

/-- read: parse all messages of the topic file; an unreadable file yields the
empty list. -/
def readTopic (topic : Str) (file : FileState) : List SharedMessage :=
  match readFileFS file with
  | .ok content => parseMessages topic content
  | .error _ => []

end SharedMemory

/-! Concrete inputs used by witnesses and counterexamples. -/

namespace Examples

def emptyFS : FS :=
  { soul := .absent, activeContext := .absent, memory := .absent, dailyLogs := [], diary := [] }

def dToday : Str := "2026-10-12".toList

def cSnap (i : Nat) : VibeEngine.VibeSnapshot :=
  { timestamp := "2026-10-12T08:30:45.123Z".toList
    vibe := "💭".toList
    summary := ("note".toList) ++ natToStr i
    trigger := none }

def cList : List VibeEngine.VibeSnapshot := (List.range 12).map cSnap

def fsAfter12 : FS := cList.foldl (VibeEngine.capture dToday) emptyFS

def fsAfter3 : FS := (cList.take 3).foldl (VibeEngine.capture dToday) emptyFS

def defaultVibeRead : VibeEngine.VibeReadOptions := { limit := none, filter := none }

def snapTrim : VibeEngine.VibeSnapshot :=
  { timestamp := "2026-10-12T08:30:45.123Z".toList
    vibe := "❤️".toList
    summary := "hi ".toList
    trigger := none }

def snapGood : VibeEngine.VibeSnapshot :=
  { timestamp := "2026-10-12T08:30:45.123Z".toList
    vibe := "🌟".toList
    summary := "a breakthrough (big) step".toList
    trigger := some ("tests passed".toList) }

def noonClock : Str → Str := fun _ => "12:00".toList

def logEntryOld : MemoryEngine.DailyLogEntry :=
  { timestamp := "2020-01-01T00:00:00.000Z".toList
    content := "old day note".toList
    tags := none }

def secDoc : FS :=
  { emptyFS with activeContext := .present ("## A\nline1\nline2\n\n## B\nkeep\n".toList) }

def driftBase : PersonalityDrift.PersonalitySnapshot :=
  { timestamp := "2026-10-12".toList, soulHash := "abcd".toList, memorySize := 100,
    diaryCount := 1, vibeDistribution := [], topThemes := ["patience".toList] }

def driftSmaller : PersonalityDrift.PersonalitySnapshot := { driftBase with memorySize := 90 }

def errFS : FS := { emptyFS with soul := .ioFail 13 }

def searchFS : FS :=
  { emptyFS with activeContext := .present ("intro text\n\nfoo bar here\n\nonly foo here\n".toList) }

def dupFS : FS := { emptyFS with activeContext := .present ("aa\n".toList) }

def defaultSearch : MemoryEngine.SearchOptions := { layers := none, maxResults := none, minScore := none }

def pubFresh : Str × SharedMemory.SharedMessage :=
  SharedMemory.publish ("Sia".toList) ("2026-10-12T08:30:45.123Z".toList) .absent
    ("t".toList) ("> hi".toList) none

end Examples

def dateChar (c : Char) : Bool := VibeEngine.digitChar c || c = '-'

def clockChar (c : Char) : Bool := VibeEngine.digitChar c || c = ':'

/-- Joined block of formatted vibe lines, one per snapshot. -/
def canonLines (ss : List VibeEngine.VibeSnapshot) : Str :=
  List.intercalate ("\n".toList) (ss.map VibeEngine.formatVibeLine)

/-- Canonical shape of the Active Context document produced by the capture
and archive cycle: blank lead, the section header, a blank line, the block
of vibe lines, a final newline. -/
def canonAC (ss : List VibeEngine.VibeSnapshot) : Str :=
  ("\n\n## Vibe History\n\n".toList) ++ canonLines ss ++ ("\n".toList)

/-- Parse-safety of every snapshot of a list. -/
def wfList (ss : List VibeEngine.VibeSnapshot) : Bool :=
  ss.all VibeEngine.wfVibe

/-- Sequential capture of a list of snapshots, oldest first. -/
def captureAll (today : Str) (fs : FS) (snaps : List VibeEngine.VibeSnapshot) : FS :=
  snaps.foldl (VibeEngine.capture today) fs

/-- Lines of a document made of single-line paragraphs separated by one
blank line each: the paragraphs interleaved with empty lines. -/
def blankSep : List Str → List Str
  | [] => []
  | [p] => [p]
  | p :: rest => p :: [] :: blankSep rest

/-- Spec-side search scoring of one file, following the specification text:
each paragraph is scored as matched terms over total terms and kept when the
score reaches the floor; paragraphs here are single lines two apart, so the
k-th paragraph begins on source line startLine + 2k (one-based in the
record). -/
def specSearchFile (terms : List Str) (minScore : Rat) (layer : Layer) (path : Str) :
    List Str → Nat → List MemoryEngine.SearchResult
  | [], _ => []
  | p :: rest, startLine =>
    (if MemoryEngine.scoreText terms p ≥ minScore then
      [{ layer := layer, path := path, line := startLine + 1,
         content := (jsTrim p).take 500, score := MemoryEngine.scoreText terms p }]
     else []) ++ specSearchFile terms minScore layer path rest (startLine + 2)

/-- The claimed distinct-count score: the number of distinct query terms
occurring in the text over the number of query terms. -/
def specScoreDistinct (terms : List Str) (text : Str) : Rat :=
  (((terms.dedup).filter (fun t => containsSub t (toLowerStr text))).length : Rat)
    / (terms.length : Rat)

/-! Helper lemmas. -/

theorem lookup_setAssoc_self (l : List (Str × FileState)) (k : Str) (v : FileState) :
    lookupFile (setAssoc l k v) k = v := by
  induction l with
  | nil => simp [setAssoc, lookupFile]
  | cons e rest ih =>
    obtain ⟨k0, v0⟩ := e
    by_cases h : k0 = k
    · subst h
      simp [setAssoc, lookupFile]
    · simp only [setAssoc, if_neg h]
      simpa [lookupFile, Ne.symm h] using ih

theorem lookup_setAssoc_ne (l : List (Str × FileState)) (k d : Str) (v : FileState)
    (hne : d ≠ k) : lookupFile (setAssoc l k v) d = lookupFile l d := by
  induction l with
  | nil => simp [setAssoc, lookupFile, hne]
  | cons e rest ih =>
    obtain ⟨k0, v0⟩ := e
    by_cases h : k0 = k
    · subst h
      simp [setAssoc, lookupFile, hne]
    · simp only [setAssoc, if_neg h]
      by_cases h2 : d = k0
      · subst h2
        simp [lookupFile]
      · simpa [lookupFile, h2] using ih

theorem intercalate_singleton (sep x : Str) : List.intercalate sep [x] = x := by
  simp [List.intercalate]

theorem intercalate_nil_right (sep : Str) : List.intercalate sep [] = [] := by
  simp [List.intercalate]

/-- C10: whenever the number of vibe lines parsed from Active Context is at
most the keep count (5), archive returns 0 and performs no write: the file
system, in particular the Active Context file and every Diary file, is left
byte-for-byte unchanged. -/
theorem claim_C10 (today : Str) (fs : FS)
    (h : (VibeEngine.parseVibesFromContent (orEmpty fs.activeContext)).length ≤ 5) :
    VibeEngine.archive today fs = (0, fs) := by
  unfold VibeEngine.archive
  cases hac : fs.activeContext with
  | present content =>
    rw [hac] at h
    simp only [orEmpty] at h
    simp [VibeEngine.MAX_ACTIVE_VIBES, h]
  | absent => rfl
  | ioFail c => rfl

/-- Witness for C10 at a concrete state holding three captured vibes. -/
theorem claim_C10_witness :
    (VibeEngine.parseVibesFromContent (orEmpty Examples.fsAfter3.activeContext)).length ≤ 5 ∧
    VibeEngine.archive Examples.dToday Examples.fsAfter3 = (0, Examples.fsAfter3) :=
  ⟨by decide, claim_C10 Examples.dToday Examples.fsAfter3 (by decide)⟩

theorem tryReadOrEmpty_eq (f : FileState) : tryReadOrEmpty f = .ok (orEmpty f) := by
  cases f <;> rfl

theorem isEmpty_append_left (a b : Str) (h : a.isEmpty = false) : (a ++ b).isEmpty = false := by
  cases a with
  | nil => simp [List.isEmpty] at h
  | cons c cs => rfl

/-- C6 (amended): each read operation (readSoul, readActiveContext,
readMemory, readDailyLog, readDiary) returns normally in every file state —
the file content when the file is present and the empty string otherwise.
The bare catch of the source swallows every failure, not just
file-not-found, so no I/O failure propagates either. -/
theorem claim_C6 (today : Str) (fs : FS) (date : Option Str) :
    MemoryEngine.readSoul fs = .ok (orEmpty fs.soul) ∧
    MemoryEngine.readActiveContext fs = .ok (orEmpty fs.activeContext) ∧
    MemoryEngine.readMemory fs = .ok (orEmpty fs.memory) ∧
    MemoryEngine.readDailyLog today fs date
      = .ok (orEmpty (lookupFile fs.dailyLogs (date.getD today))) ∧
    MemoryEngine.readDiary today fs date
      = .ok (orEmpty (lookupFile fs.diary (date.getD today))) := by
  exact ⟨tryReadOrEmpty_eq _, tryReadOrEmpty_eq _, tryReadOrEmpty_eq _,
    tryReadOrEmpty_eq _, tryReadOrEmpty_eq _⟩

/-- Counterexample to C6 as stated: a permission-style failure (errno 13) on
the Soul file does not propagate to the caller; readSoul returns the empty
string normally instead of rethrowing. -/
theorem claim_C6_counterexample :
    MemoryEngine.readSoul Examples.errFS = .ok [] ∧
    MemoryEngine.readSoul Examples.errFS ≠ .error (.other 13) :=
  ⟨rfl, fun h => nomatch h⟩

/-- C2: evaluation of updateActiveContextSection at the failing input.  The
m flag on the section regex makes the dollar anchor of the lookahead match
at every line end, so the lazily matched body stops after the first body
line: updating section A of a document whose A body has two lines keeps the
second line inside section A instead of substituting the entire body. -/
theorem claim_C2_eval :
    orEmpty (MemoryEngine.updateActiveContextSection Examples.secDoc
        ("A".toList) ("new".toList)).activeContext
      = "## A\nnew\n\nline2\n\n## B\nkeep\n".toList ∧
    containsSub ("line2".toList)
      (orEmpty (MemoryEngine.updateActiveContextSection Examples.secDoc
        ("A".toList) ("new".toList)).activeContext) = true := by
  decide

/-- C3 (amended): the summary of a drift report is the literal no-drift text
exactly when no clause fires, and the zero-delta case fires the memory-size-
unchanged clause: equal snapshots with no dominant vibe yield soulChanged
false, memoryGrowth zero and the summary Memory size unchanged. -/
theorem claim_C3 :
    (∀ f t : PersonalityDrift.PersonalitySnapshot,
      f.soulHash = t.soulHash →
      t.memorySize - f.memorySize < 0 →
      t.diaryCount - f.diaryCount ≤ 0 →
      PersonalityDrift.analyzeVibeTrend f.vibeDistribution t.vibeDistribution = [] →
      (∀ th ∈ t.topThemes, th ∈ f.topThemes) →
      (∀ th ∈ f.topThemes, th ∈ t.topThemes) →
      (PersonalityDrift.compare f t).summary = "No significant drift detected.".toList) ∧
    (∀ s : PersonalityDrift.PersonalitySnapshot,
      PersonalityDrift.dominantKey s.vibeDistribution = none →
      (PersonalityDrift.compare s s).soulChanged = false ∧
      (PersonalityDrift.compare s s).memoryGrowth = 0 ∧
      (PersonalityDrift.compare s s).summary = "Memory size unchanged.".toList) := by
  constructor
  · intro f t hs hm hd hv hn hl
    have hgt : ¬ (t.memorySize - f.memorySize > 0) := by omega
    have heq : ¬ (t.memorySize - f.memorySize = 0) := by omega
    have hdd : ¬ (t.diaryCount - f.diaryCount > 0) := by omega
    have hne : ¬ ∃ x ∈ t.topThemes, x ∉ f.topThemes := by
      rintro ⟨x, hx, hnot⟩
      exact hnot (hn x hx)
    have hle : ¬ ∃ x ∈ f.topThemes, x ∉ t.topThemes := by
      rintro ⟨x, hx, hnot⟩
      exact hnot (hl x hx)
    simp [PersonalityDrift.compare, hs, hv, hgt, heq, hdd, hne, hle, intercalate_nil_right]
  · intro s hdom
    have hv : PersonalityDrift.analyzeVibeTrend s.vibeDistribution s.vibeDistribution = [] := by
      simp [PersonalityDrift.analyzeVibeTrend, hdom]
    have hself : ¬ ∃ x ∈ s.topThemes, x ∉ s.topThemes := by
      rintro ⟨x, hx, hnot⟩
      exact hnot hx
    have hone : (("Memory size unchanged.".toList) : Str).isEmpty = false := by decide
    refine ⟨?_, ?_, ?_⟩
    · simp [PersonalityDrift.compare]
    · simp [PersonalityDrift.compare]
    · simp [PersonalityDrift.compare, hv, hself, intercalate_singleton, hone]

/-- Counterexample to C3 as stated: two identical snapshots (back-to-back,
no intervening mutation) produce the summary Memory size unchanged, not the
claimed no-drift literal, because the zero-delta clause always fires. -/
theorem claim_C3_counterexample :
    (PersonalityDrift.compare Examples.driftBase Examples.driftBase).soulChanged = false ∧
    (PersonalityDrift.compare Examples.driftBase Examples.driftBase).memoryGrowth = 0 ∧
    (PersonalityDrift.compare Examples.driftBase Examples.driftBase).summary
      = "Memory size unchanged.".toList ∧
    (PersonalityDrift.compare Examples.driftBase Examples.driftBase).summary
      ≠ "No significant drift detected.".toList := by decide

/-- Witness for C3 at concrete snapshots: a strictly shrinking memory with
no other clause yields the no-drift literal, and the identical pair yields
the zero-delta clause. -/
theorem claim_C3_witness :
    (Examples.driftBase.soulHash = Examples.driftSmaller.soulHash ∧
     Examples.driftSmaller.memorySize - Examples.driftBase.memorySize < 0 ∧
     PersonalityDrift.dominantKey Examples.driftBase.vibeDistribution = none) ∧
    (PersonalityDrift.compare Examples.driftBase Examples.driftSmaller).summary
      = "No significant drift detected.".toList ∧
    (PersonalityDrift.compare Examples.driftBase Examples.driftBase).summary
      = "Memory size unchanged.".toList :=
  ⟨by decide,
   claim_C3.1 Examples.driftBase Examples.driftSmaller (by decide) (by decide) (by decide)
     (by decide) (by intro th h; exact h) (by intro th h; exact h),
   (claim_C3.2 Examples.driftBase (by decide)).2.2⟩

/-- C4 (amended): the vibeTrend field of a drift report is computed from the
dominant tag of each histogram: the string stable when neither snapshot has
a dominant tag (the empty trend is replaced by stable in compare), becoming
the tone when only the target snapshot has one, emotional data fading when
only the source had one, consistently the tone when both agree, and
shifting from one tone to the other when they differ. -/
theorem claim_C4 (f t : PersonalityDrift.PersonalitySnapshot) :
    (PersonalityDrift.compare f t).vibeTrend =
      (match PersonalityDrift.dominantKey f.vibeDistribution,
             PersonalityDrift.dominantKey t.vibeDistribution with
       | none, none => "stable".toList
       | none, some d => ("becoming ".toList) ++ PersonalityDrift.lookupTone d
       | some _, none => "emotional data fading".toList
       | some a, some b =>
         if a = b then ("consistently ".toList) ++ PersonalityDrift.lookupTone a
         else ("shifting from ".toList) ++ PersonalityDrift.lookupTone a ++ (" to ".toList) ++
           PersonalityDrift.lookupTone b) := by
  cases hf : PersonalityDrift.dominantKey f.vibeDistribution with
  | none =>
    cases ht : PersonalityDrift.dominantKey t.vibeDistribution with
    | none => simp [PersonalityDrift.compare, PersonalityDrift.analyzeVibeTrend, hf, ht]
    | some d => simp [PersonalityDrift.compare, PersonalityDrift.analyzeVibeTrend, hf, ht]
  | some a =>
    cases ht : PersonalityDrift.dominantKey t.vibeDistribution with
    | none => simp [PersonalityDrift.compare, PersonalityDrift.analyzeVibeTrend, hf, ht]
    | some b =>
      by_cases hab : a = b
      · simp [PersonalityDrift.compare, PersonalityDrift.analyzeVibeTrend, hf, ht, hab]
      · simp [PersonalityDrift.compare, PersonalityDrift.analyzeVibeTrend, hf, ht, hab]

/-- Counterexample to C4 as stated: with no dominant tag on either side the
report field is the string stable, not the empty string. -/
theorem claim_C4_counterexample :
    (PersonalityDrift.compare Examples.driftBase Examples.driftBase).vibeTrend
      = "stable".toList ∧
    (PersonalityDrift.compare Examples.driftBase Examples.driftBase).vibeTrend ≠ [] := by
  decide

/-- C5 (amended): appendDailyLog writes only to the file of the current
process date, regardless of the entry timestamp: that file gains (after a
title line when it was empty or missing) the previous content unchanged,
followed by the heading block with the locale time, the optional tag list,
the trimmed content and the rule; every other daily-log file and every other
part of the state is untouched. -/
theorem claim_C5 (localHHMM : Str → Str) (today : Str) (fs : FS) (e : MemoryEngine.DailyLogEntry) :
    lookupFile (MemoryEngine.appendDailyLog localHHMM today fs e).dailyLogs today =
      .present
        ((if (orEmpty (lookupFile fs.dailyLogs today)).isEmpty
          then ("# ".toList) ++ today ++ ("\n\n".toList) else []) ++
         orEmpty (lookupFile fs.dailyLogs today) ++
         (("### ".toList) ++ localHHMM e.timestamp ++
          (match e.tags with
           | some ts =>
             if ts.length ≠ 0 then (" [".toList) ++ List.intercalate (", ".toList) ts ++ ("]".toList)
             else []
           | none => []) ++
          ("\n\n".toList) ++ jsTrim e.content ++ ("\n\n---\n".toList))) ∧
    (∀ d, d ≠ today →
      lookupFile (MemoryEngine.appendDailyLog localHHMM today fs e).dailyLogs d =
        lookupFile fs.dailyLogs d) ∧
    (MemoryEngine.appendDailyLog localHHMM today fs e).soul = fs.soul ∧
    (MemoryEngine.appendDailyLog localHHMM today fs e).activeContext = fs.activeContext ∧
    (MemoryEngine.appendDailyLog localHHMM today fs e).memory = fs.memory ∧
    (MemoryEngine.appendDailyLog localHHMM today fs e).diary = fs.diary := by
  refine ⟨?_, ?_, rfl, rfl, rfl, rfl⟩
  · simp only [MemoryEngine.appendDailyLog]
    rw [lookup_setAssoc_self]
  · intro d hd
    simp only [MemoryEngine.appendDailyLog]
    exact lookup_setAssoc_ne _ _ _ _ hd

/-- Counterexample to C5 as stated: an entry whose calendar date is
2020-01-01, appended while the process date is 2026-10-12, leaves the
2020-01-01 log file untouched (absent) and writes a file of a different
date. -/
theorem claim_C5_counterexample :
    lookupFile (MemoryEngine.appendDailyLog Examples.noonClock Examples.dToday Examples.emptyFS
      Examples.logEntryOld).dailyLogs ("2020-01-01".toList) = .absent ∧
    lookupFile (MemoryEngine.appendDailyLog Examples.noonClock Examples.dToday Examples.emptyFS
      Examples.logEntryOld).dailyLogs Examples.dToday ≠ .absent := by decide

/-- Witness for C5: the frame part applied at the concrete entry and the
foreign date. -/
theorem claim_C5_witness :
    (("2020-01-01".toList) ≠ Examples.dToday) ∧
    lookupFile (MemoryEngine.appendDailyLog Examples.noonClock Examples.dToday Examples.emptyFS
      Examples.logEntryOld).dailyLogs ("2020-01-01".toList) =
      lookupFile Examples.emptyFS.dailyLogs ("2020-01-01".toList) :=
  ⟨by decide,
   (claim_C5 Examples.noonClock Examples.dToday Examples.emptyFS Examples.logEntryOld).2.1
     ("2020-01-01".toList) (by decide)⟩

/-! Generic string lemmas used by the round-trip and scenario proofs. -/

theorem takeWhile_append_all (p : Char → Bool) (a b : Str) (h : ∀ c ∈ a, p c = true) :
    (a ++ b).takeWhile p = a ++ b.takeWhile p := by
  induction a with
  | nil => simp
  | cons c a ih =>
    have hc := h c (by simp)
    simp only [List.cons_append, List.takeWhile_cons, hc, if_true]
    simp [ih (fun d hd => h d (by simp [hd]))]

theorem dropWhile_append_all (p : Char → Bool) (a b : Str) (h : ∀ c ∈ a, p c = true) :
    (a ++ b).dropWhile p = b.dropWhile p := by
  induction a with
  | nil => simp
  | cons c a ih =>
    have hc := h c (by simp)
    simp only [List.cons_append, List.dropWhile_cons, hc, if_true]
    exact ih (fun d hd => h d (by simp [hd]))

theorem dropWhile_append_of_ne_nil (p : Char → Bool) (a b : Str)
    (h : a.dropWhile p ≠ []) : (a ++ b).dropWhile p = a.dropWhile p ++ b := by
  induction a with
  | nil => simp at h
  | cons c a ih =>
    by_cases hc : p c
    · simp only [List.dropWhile_cons, hc, if_true] at h ⊢
      simp only [List.cons_append, List.dropWhile_cons, hc, if_true]
      exact ih h
    · simp only [List.cons_append, List.dropWhile_cons, hc]
      simp

theorem isPrefixOf_append_self (p x : Str) : p.isPrefixOf (p ++ x) = true :=
  List.isPrefixOf_iff_prefix.mpr (List.prefix_append p x)

theorem findSub_none_suffix (p : Str) :
    ∀ s, findSub p s = none → ∀ t, t <:+ s → p.isPrefixOf t = false := by
  intro s
  induction s with
  | nil =>
    intro h t ht
    rw [List.suffix_nil.mp ht]
    cases p with
    | nil => simp [findSub] at h
    | cons c cs => rfl
  | cons c cs ih =>
    intro h t ht
    have h1 : p.isPrefixOf (c :: cs) = false := by
      by_contra hx
      simp only [Bool.not_eq_false] at hx
      simp [findSub, hx] at h
    have h2 : findSub p cs = none := by
      rcases hf : findSub p cs with _ | i
      · rfl
      · rw [findSub, h1] at h
        simp [hf] at h
    rcases List.suffix_cons_iff.mp ht with rfl | ht2
    · exact h1
    · exact ih h2 t ht2

theorem findSub_none_of_suffix (p : Str) :
    ∀ s, (∀ t, t <:+ s → p.isPrefixOf t = false) → findSub p s = none := by
  intro s
  induction s with
  | nil =>
    intro h
    have := h [] List.nil_suffix
    cases p with
    | nil => simp [List.isPrefixOf] at this
    | cons c cs => simp [findSub, List.isEmpty]
  | cons c cs ih =>
    intro h
    rw [findSub, h (c :: cs) (List.suffix_refl _)]
    simp only [Bool.false_eq_true, if_false]
    rw [ih (fun t ht => h t (ht.trans (List.suffix_cons c cs)))]
    rfl

theorem findSub_append_none (p a b : Str)
    (h1 : ∀ t, t <:+ a → t ≠ [] → p.isPrefixOf (t ++ b) = false)
    (h2 : findSub p b = none) : findSub p (a ++ b) = none := by
  induction a with
  | nil => simpa using h2
  | cons c a ih =>
    have hp : p.isPrefixOf (c :: (a ++ b)) = false := by
      have := h1 (c :: a) (List.suffix_refl _) (by simp)
      simpa using this
    rw [List.cons_append, findSub, hp]
    simp only [Bool.false_eq_true, if_false]
    rw [ih (fun t ht hne => h1 t (ht.trans (List.suffix_cons c a)) hne)]
    rfl

theorem findSub_single_sep (ch : Char) (d rest : Str) (h : ch ∉ d) :
    findSub [ch] (d ++ ch :: rest) = some d.length := by
  induction d with
  | nil =>
    simp [findSub, List.isPrefixOf]
  | cons c d ih =>
    have hc : c ≠ ch := fun he => h (by simp [he])
    have hp : ([ch]).isPrefixOf (c :: (d ++ ch :: rest)) = false := by
      simp [List.isPrefixOf, Ne.symm hc]
    rw [List.cons_append, findSub, hp]
    simp only [Bool.false_eq_true, if_false]
    rw [ih (fun hm => h (by simp [hm]))]
    rfl

theorem findSub_single_none (ch : Char) (s : Str) (h : ch ∉ s) : findSub [ch] s = none := by
  induction s with
  | nil => simp [findSub, List.isEmpty]
  | cons c cs ih =>
    have hc : c ≠ ch := fun he => h (by simp [he])
    have hp : ([ch]).isPrefixOf (c :: cs) = false := by
      simp [List.isPrefixOf, Ne.symm hc]
    rw [findSub, hp]
    simp only [Bool.false_eq_true, if_false]
    rw [ih (fun hm => h (by simp [hm]))]
    rfl

theorem expandRepl_no_dollar (whole before after g1 : Str) :
    ∀ t : Str, '$' ∉ t → expandRepl whole before after g1 t = t := by
  intro t
  induction t with
  | nil => intro _; rfl
  | cons c rest ih =>
    intro h
    have hc : ¬ (c = '$') := fun he => h (by simp [he])
    rw [expandRepl.eq_def]
    simp only [hc, if_false]
    rw [ih (fun hm => h (by simp [hm]))]

theorem jsTrim_eq_self (s : Str) (h1 : ∀ c, s.head? = some c → jsWs c = false)
    (h2 : ∀ c, s.getLast? = some c → jsWs c = false) : jsTrim s = s := by
  cases hs : s with
  | nil => rfl
  | cons c cs =>
    have hhead : jsWs c = false := h1 c (by rw [hs]; rfl)
    have hd : (c :: cs).dropWhile jsWs = c :: cs := by
      simp [List.dropWhile_cons, hhead]
    unfold jsTrim
    rw [hd]
    cases hr : (c :: cs).reverse with
    | nil => simp at hr
    | cons d ds =>
      have hdl : (c :: cs).getLast? = some d := by
        rw [← List.head?_reverse, hr]
        rfl
      have hdw : jsWs d = false := h2 d (by rw [hs]; exact hdl)
      simp only [List.dropWhile_cons, hdw, Bool.false_eq_true, if_false]
      rw [← hr, List.reverse_reverse]

theorem trim_length_le (s : Str) : (jsTrim s).length ≤ (s.dropWhile jsWs).length := by
  unfold jsTrim
  have := (List.dropWhile_suffix (l := (s.dropWhile jsWs).reverse) jsWs).length_le
  simpa using this

theorem head_not_ws_of_trim (s : Str) (h : jsTrim s = s) :
    ∀ c, s.head? = some c → jsWs c = false := by
  intro c hc
  by_contra hws
  simp only [Bool.not_eq_false] at hws
  cases hs : s with
  | nil => rw [hs] at hc; simp at hc
  | cons d ds =>
    have hdc : d = c := by
      rw [hs] at hc
      simpa using hc
    subst hdc
    have h1 : (jsTrim (d :: ds)).length ≤ ds.length := by
      have h2 := trim_length_le (d :: ds)
      rw [List.dropWhile_cons, if_pos hws] at h2
      exact h2.trans (List.dropWhile_suffix jsWs).length_le
    rw [hs] at h
    rw [h] at h1
    simp at h1

theorem getLast_not_ws_of_trim (s : Str) (h : jsTrim s = s) :
    ∀ c, s.getLast? = some c → jsWs c = false := by
  intro c hc
  by_contra hws
  simp only [Bool.not_eq_false] at hws
  have hne : s ≠ [] := by
    intro he
    rw [he] at hc
    simp at hc
  rcases hd : s.dropWhile jsWs with _ | ⟨u, us⟩
  · have h0 : (jsTrim s).length ≤ 0 := by
      have := trim_length_le s
      rw [hd] at this
      simpa using this
    rw [h] at h0
    have := List.length_pos.mpr hne
    omega
  · have hsub : s.dropWhile jsWs <:+ s := List.dropWhile_suffix jsWs
    have hul : (u :: us).getLast? = some c := by
      obtain ⟨w, hw⟩ := hsub
      rw [hd] at hw
      rw [← hc, ← hw]
      exact (List.getLast?_append_of_ne_nil w (by simp)).symm
    cases hr : (u :: us).reverse with
    | nil => simp at hr
    | cons d ds =>
      have hdc : d = c := by
        have hx : (u :: us).getLast? = some d := by
          rw [← List.head?_reverse, hr]
          rfl
        rw [hul] at hx
        simpa using hx.symm
      subst hdc
      have hlen : (jsTrim s).length ≤ ds.length := by
        unfold jsTrim
        rw [hd, hr]
        simp only [List.dropWhile_cons, hws, if_true]
        simpa using (List.dropWhile_suffix jsWs).length_le
      have hlds : ds.length + 1 = (u :: us).length := by
        have hx : (d :: ds).length = (u :: us).length := by rw [← hr]; simp
        simpa using hx
      have hus : (u :: us).length ≤ s.length := by
        rw [← hd]
        exact (List.dropWhile_suffix jsWs).length_le
      rw [h] at hlen
      omega

theorem splitOnFuel_mono (sep : Str) (hsep : sep ≠ []) :
    ∀ f1 f2 s, s.length ≤ f1 → s.length ≤ f2 → splitOnFuel sep f1 s = splitOnFuel sep f2 s := by
  intro f1
  induction f1 with
  | zero =>
    intro f2 s h1 h2
    have hs : s = [] := List.length_eq_zero.mp (Nat.le_zero.mp h1)
    subst hs
    cases f2 with
    | zero => rfl
    | succ f2 =>
      have hf : findSub sep [] = none := by
        cases sep with
        | nil => exact absurd rfl hsep
        | cons a l => simp [findSub, List.isEmpty]
      simp [splitOnFuel, hf]
  | succ f1 ih =>
    intro f2 s h1 h2
    cases f2 with
    | zero =>
      have hs : s = [] := List.length_eq_zero.mp (Nat.le_zero.mp h2)
      subst hs
      have hf : findSub sep [] = none := by
        cases sep with
        | nil => exact absurd rfl hsep
        | cons a l => simp [findSub, List.isEmpty]
      simp [splitOnFuel, hf]
    | succ f2 =>
      rcases hf : findSub sep s with _ | i
      · simp [splitOnFuel, hf]
      · simp only [splitOnFuel, hf]
        have hb := findSubBound sep s i hf
        have hsl : 0 < sep.length := List.length_pos.mpr hsep
        have hd : (s.drop (i + sep.length)).length ≤ f1 := by
          simp only [List.length_drop]
          omega
        have hd2 : (s.drop (i + sep.length)).length ≤ f2 := by
          simp only [List.length_drop]
          omega
        rw [ih f2 _ hd hd2]

theorem splitOnStr_eq (sep : Str) (hsep : sep ≠ []) (s : Str) :
    splitOnStr sep s =
      match findSub sep s with
      | none => [s]
      | some i => s.take i :: splitOnStr sep (s.drop (i + sep.length)) := by
  have hne : sep.isEmpty = false := by
    cases sep with
    | nil => exact absurd rfl hsep
    | cons a l => rfl
  rcases hf : findSub sep s with _ | i
  · cases hs : s.length with
    | zero =>
      have : s = [] := List.length_eq_zero.mp hs
      subst this
      simp [splitOnStr, hne, splitOnFuel, hf]
    | succ n =>
      simp only [splitOnStr, hne, Bool.false_eq_true, if_false, hs]
      simp [splitOnFuel, hf]
  · have hb := findSubBound sep s i hf
    have hsl : 0 < sep.length := List.length_pos.mpr hsep
    have hslen : 0 < s.length := by omega
    cases hs : s.length with
    | zero => omega
    | succ n =>
      simp only [splitOnStr, hne, Bool.false_eq_true, if_false, hs]
      simp only [splitOnFuel, hf]
      congr 1
      apply splitOnFuel_mono sep hsep
      · simp only [List.length_drop]
        omega
      · simp only [List.length_drop]
        omega

theorem intercalate_cons (sep l : Str) (ls : List Str) (h : ls ≠ []) :
    List.intercalate sep (l :: ls) = l ++ sep ++ List.intercalate sep ls := by
  cases ls with
  | nil => exact absurd rfl h
  | cons x xs => simp [List.intercalate, List.intersperse]

theorem splitNl_line (l rest : Str) (h : '\n' ∉ l) :
    splitNl (l ++ '\n' :: rest) = l :: splitNl rest := by
  unfold splitNl
  rw [splitOnStr_eq _ (by decide)]
  have hf : findSub ("\n".toList) (l ++ '\n' :: rest) = some l.length := by
    have := findSub_single_sep '\n' l rest h
    simpa using this
  simp only [hf]
  congr 1
  · rw [List.take_left]
  · have hlen : ("\n".toList).length = 1 := rfl
    rw [hlen]
    rw [show l.length + 1 = (l ++ ['\n']).length by simp]
    rw [show l ++ '\n' :: rest = (l ++ ['\n']) ++ rest by simp]
    rw [List.drop_left]

theorem splitNl_single (l : Str) (h : '\n' ∉ l) : splitNl l = [l] := by
  unfold splitNl
  rw [splitOnStr_eq _ (by decide)]
  have hf : findSub ['\n'] l = none := findSub_single_none '\n' l h
  simp [hf]

theorem splitNl_intercalate (ls : List Str) (hne : ls ≠ []) (h : ∀ l ∈ ls, '\n' ∉ l) :
    splitNl (List.intercalate ("\n".toList) ls) = ls := by
  induction ls with
  | nil => exact absurd rfl hne
  | cons l ls ih =>
    cases ls with
    | nil =>
      have h1 := h l (by simp)
      simp only [List.intercalate, List.intersperse]
      simpa using splitNl_single l h1
    | cons x xs =>
      rw [intercalate_cons _ _ _ (by simp)]
      have h1 := h l (by simp)
      have hstep : l ++ ("\n".toList) ++ List.intercalate ("\n".toList) (x :: xs)
          = l ++ '\n' :: List.intercalate ("\n".toList) (x :: xs) := by simp
      rw [hstep, splitNl_line _ _ h1]
      rw [ih (by simp) (fun l2 hl2 => h l2 (by simp [hl2]))]

theorem dateChar_facts (c : Char) (h : dateChar c = true) :
    jsWs c = false ∧ jsDot c = true ∧ c ≠ 'T' ∧ c ≠ ' ' ∧ c ≠ ']' ∧ c ≠ '$' := by
  simp only [dateChar, VibeEngine.digitChar, Bool.or_eq_true, decide_eq_true_eq] at h
  rcases h with ((((((((((rfl | rfl) | rfl) | rfl) | rfl) | rfl) | rfl) | rfl) | rfl) | rfl) | rfl) <;>
    refine ⟨by decide, by decide, by decide, by decide, by decide, by decide⟩

theorem clockChar_facts (c : Char) (h : clockChar c = true) :
    jsWs c = false ∧ jsDot c = true ∧ c ≠ ' ' ∧ c ≠ ']' ∧ c ≠ '$' := by
  simp only [clockChar, VibeEngine.digitChar, Bool.or_eq_true, decide_eq_true_eq] at h
  rcases h with ((((((((((rfl | rfl) | rfl) | rfl) | rfl) | rfl) | rfl) | rfl) | rfl) | rfl) | rfl) <;>
    refine ⟨by decide, by decide, by decide, by decide, by decide⟩

theorem iso_destruct (ts : Str) (h : VibeEngine.isoPrefixShape ts = true) :
    ∃ d hm : Str, ts.take 16 = d ++ 'T' :: hm ∧ d.length = 10 ∧ hm.length = 5 ∧
      (∀ c ∈ d, dateChar c = true) ∧ (∀ c ∈ hm, clockChar c = true) := by
  unfold VibeEngine.isoPrefixShape at h
  split at h
  case _ y1 y2 y3 y4 s1 m1 m2 s2 d1 d2 tc h1 h2 cc n1 n2 heq =>
    simp only [Bool.and_eq_true, decide_eq_true_eq] at h
    obtain ⟨⟨⟨⟨⟨⟨⟨⟨⟨⟨⟨⟨⟨⟨⟨hy1, hy2⟩, hy3⟩, hy4⟩, hs1⟩, hm1⟩, hm2⟩, hs2⟩, hd1⟩, hd2⟩, htc⟩, hh1⟩, hh2⟩, hcc⟩, hn1⟩, hn2⟩ := h
    subst hs1 hs2 htc hcc
    refine ⟨[y1, y2, y3, y4, '-', m1, m2, '-', d1, d2], [h1, h2, ':', n1, n2], ?_, rfl, rfl, ?_, ?_⟩
    · simpa using heq
    · intro c hc
      simp only [List.mem_cons, List.not_mem_nil, or_false] at hc
      rcases hc with rfl | rfl | rfl | rfl | rfl | rfl | rfl | rfl | rfl | rfl <;>
        simp [dateChar, hy1, hy2, hy3, hy4, hm1, hm2, hd1, hd2]
    · intro c hc
      simp only [List.mem_cons, List.not_mem_nil, or_false] at hc
      rcases hc with rfl | rfl | rfl | rfl | rfl <;>
        simp [clockChar, hh1, hh2, hn1, hn2]
  case _ => simp at h

theorem replaceFirst_single_sep (ch : Char) (rep d rest : Str) (h : ch ∉ d) :
    replaceFirst [ch] rep (d ++ ch :: rest) = d ++ rep ++ rest := by
  unfold replaceFirst
  rw [findSub_single_sep ch d rest h]
  show List.take d.length (d ++ ch :: rest) ++ rep ++
      List.drop (d.length + ([ch] : Str).length) (d ++ ch :: rest) = d ++ rep ++ rest
  congr 1
  · rw [List.take_left]
  · congr 1
    have hl : ([ch] : Str).length = 1 := rfl
    rw [hl]
    rw [show d.length + 1 = (d ++ [ch]).length by simp]
    rw [show d ++ ch :: rest = (d ++ [ch]) ++ rest by simp]
    rw [List.drop_left]

theorem not_ws_dot (c : Char) (h : jsWs c = false) : jsDot c = true := by
  have h1 : c ≠ '\n' := by intro he; subst he; simp [jsWs] at h
  have h2 : c ≠ '\r' := by intro he; subst he; simp [jsWs] at h
  simp [jsDot, h1, h2]

theorem ne_nil_of_isEmpty_false (l : Str) (h : l.isEmpty = false) : l ≠ [] := by
  cases l with
  | nil => simp [List.isEmpty] at h
  | cons c cs => simp

theorem split_notand (a b : Bool) (h : (!a && !b) = true) : a = false ∧ b = false := by
  simp only [Bool.and_eq_true, Bool.not_eq_true'] at h
  exact h

theorem split_anddot (a b : Bool) (h : (a && !b) = true) : a = true ∧ b = false := by
  simp only [Bool.and_eq_true, Bool.not_eq_true'] at h
  exact h

theorem wfVibe_spec (s : VibeEngine.VibeSnapshot) (h : VibeEngine.wfVibe s = true) :
    s.vibe ≠ [] ∧ (∀ c ∈ s.vibe, jsWs c = false ∧ c ≠ '$') ∧
    VibeEngine.isoPrefixShape s.timestamp = true ∧
    s.summary ≠ [] ∧ jsTrim s.summary = s.summary ∧
    (∀ c ∈ s.summary, jsDot c = true ∧ c ≠ '$') ∧
    findSub ("(trigger:".toList) s.summary = none ∧
    (∀ t, s.trigger = some t →
      t ≠ [] ∧ jsTrim t = t ∧ ∀ c ∈ t, jsDot c = true ∧ c ≠ '$') := by
  unfold VibeEngine.wfVibe at h
  simp only [Bool.and_eq_true] at h
  obtain ⟨⟨⟨⟨⟨⟨⟨hv, hvc⟩, hts⟩, hsne⟩, hst⟩, hsc⟩, hnt⟩, htr⟩ := h
  refine ⟨?_, ?_, hts, ?_, ?_, ?_, ?_, ?_⟩
  · exact ne_nil_of_isEmpty_false _ (by simpa using hv)
  · intro c hc
    have hx := List.all_eq_true.mp hvc c hc
    have := split_notand _ _ hx
    exact ⟨this.1, of_decide_eq_false this.2⟩
  · exact ne_nil_of_isEmpty_false _ (by simpa using hsne)
  · simpa using hst
  · intro c hc
    have hx := List.all_eq_true.mp hsc c hc
    have := split_anddot _ _ hx
    exact ⟨this.1, of_decide_eq_false this.2⟩
  · simpa using hnt
  · intro t ht
    rw [ht] at htr
    simp only [Bool.and_eq_true] at htr
    obtain ⟨⟨h1, h2⟩, h3⟩ := htr
    refine ⟨ne_nil_of_isEmpty_false _ (by simpa using h1), by simpa using h2, ?_⟩
    intro c hc
    have hx := List.all_eq_true.mp h3 c hc
    have := split_anddot _ _ hx
    exact ⟨this.1, of_decide_eq_false this.2⟩

theorem vibeTimeLoop_clean :
    ∀ (pre rest acc : Str), pre ≠ [] → (∀ c ∈ pre, jsDot c = true) → (']' ∉ pre) →
      VibeEngine.vibeTimeLoop acc (pre ++ ']' :: ' ' :: rest) = some (acc.reverse ++ pre, rest) := by
  intro pre
  induction pre with
  | nil => intro rest acc hne _ _; exact absurd rfl hne
  | cons c pre ih =>
    intro rest acc _ hdot hnb
    have hcdot : jsDot c = true := hdot c (by simp)
    cases pre with
    | nil =>
      unfold VibeEngine.vibeTimeLoop
      simp only [List.cons_append, List.nil_append, hcdot, Bool.not_true, Bool.false_eq_true,
        if_false]
      have hpre : ("] ".toList).isPrefixOf (']' :: ' ' :: rest) = true := by
        simp [List.isPrefixOf]
      rw [hpre]
      simp
    | cons d pre2 =>
      have hd : d ≠ ']' := by
        intro he
        exact hnb (by simp [he])
      unfold VibeEngine.vibeTimeLoop
      simp only [List.cons_append, hcdot, Bool.not_true, Bool.false_eq_true, if_false]
      have hpre : ("] ".toList).isPrefixOf (d :: (pre2 ++ ']' :: ' ' :: rest)) = false := by
        simp [List.isPrefixOf, Ne.symm hd]
      rw [hpre]
      simp only [Bool.false_eq_true, if_false]
      rw [show d :: (pre2 ++ ']' :: ' ' :: rest) = (d :: pre2) ++ ']' :: ' ' :: rest from rfl]
      rw [ih rest (c :: acc) (by simp) (fun x hx => hdot x (by simp [hx]))
        (fun hm => hnb (by simp at hm ⊢; tauto))]
      simp

theorem matchTrigger_none_of_suffix (summary : Str)
    (hnt : findSub ("(trigger:".toList) summary = none) :
    ∀ t, t <:+ summary → VibeEngine.matchTrigger t = none := by
  intro t ht
  unfold VibeEngine.matchTrigger
  have hsuf : t.dropWhile jsWs <:+ summary := (List.dropWhile_suffix jsWs).trans ht
  have hnp := findSub_none_suffix _ summary hnt _ hsuf
  have hfalse : ("(trigger: ".toList).isPrefixOf (t.dropWhile jsWs) = false := by
    by_contra hx
    simp only [Bool.not_eq_false] at hx
    have h1 : ("(trigger:".toList) <+: ("(trigger: ".toList) := by decide
    have h2 := List.isPrefixOf_iff_prefix.mp hx
    have h3 := List.isPrefixOf_iff_prefix.mpr (h1.trans h2)
    rw [hnp] at h3
    cases h3
  simp only [hfalse, Bool.false_eq_true, if_false]

theorem matchTrigger_at (tr : Str) (hne : tr ≠ []) (hdot : ∀ c ∈ tr, jsDot c = true) :
    VibeEngine.matchTrigger ((" (trigger: ".toList) ++ tr ++ [')']) = some tr := by
  unfold VibeEngine.matchTrigger
  have hsplit : (" (trigger: ".toList) ++ tr ++ [')']
      = ' ' :: (("(trigger: ".toList) ++ (tr ++ [')'])) := by simp
  rw [hsplit]
  have hdw : (' ' :: (("(trigger: ".toList) ++ (tr ++ [')']))).dropWhile jsWs
      = ("(trigger: ".toList) ++ (tr ++ [')']) := by
    rw [List.dropWhile_cons]
    simp only [show jsWs ' ' = true from rfl, if_true]
    rw [show ("(trigger: ".toList) ++ (tr ++ [')'])
        = '(' :: (("trigger: ".toList) ++ (tr ++ [')'])) from rfl]
    rw [List.dropWhile_cons]
    simp [show jsWs '(' = false from rfl]
  rw [hdw]
  have hdrop : (("(trigger: ".toList) ++ (tr ++ [')'])).drop 10 = tr ++ [')'] := by
    rw [show (10 : Nat) = ("(trigger: ".toList).length from rfl]
    exact List.drop_left _ _
  have h1 : tr.isEmpty = false := by
    cases tr with
    | nil => exact absurd rfl hne
    | cons a l => rfl
  have h2 : tr.all jsDot = true := List.all_eq_true.mpr (fun c hc => hdot c hc)
  simp only [isPrefixOf_append_self, if_true, hdrop, List.getLast?_concat,
    List.dropLast_concat, h1, h2, Bool.false_eq_true, if_false]

theorem prefix_of_prefix_le (l1 l2 l3 : Str) (h1 : l1 <+: l3) (h2 : l2 <+: l3)
    (h : l1.length ≤ l2.length) : l1 <+: l2 := by
  have e1 := List.prefix_iff_eq_take.mp h1
  have e2 := List.prefix_iff_eq_take.mp h2
  rw [List.prefix_iff_eq_take]
  conv_rhs => rw [e2]
  rw [List.take_take, Nat.min_eq_left h, ← e1]

theorem dropWhile_head_false (p : Char → Bool) :
    ∀ (l : Str) (c : Char) (cs : Str), l.dropWhile p = c :: cs → p c = false := by
  intro l
  induction l with
  | nil => intro c cs h; simp at h
  | cons a l ih =>
    intro c cs h
    rw [List.dropWhile_cons] at h
    by_cases ha : p a
    · rw [if_pos ha] at h
      exact ih c cs h
    · rw [if_neg ha] at h
      cases h
      simpa using ha

theorem getLast?_of_suffix (t s : Str) (h : t <:+ s) (hne : t ≠ []) :
    s.getLast? = t.getLast? := by
  obtain ⟨w, hw⟩ := h
  rw [← hw]
  exact List.getLast?_append_of_ne_nil w hne

theorem mem_of_getLast?_eq (l : Str) (c : Char) (h : l.getLast? = some c) : c ∈ l := by
  have hx : c ∈ l.getLast? := by rw [h]; rfl
  obtain ⟨hne, rfl⟩ := List.mem_getLast?_eq_getLast hx
  exact List.getLast_mem hne

theorem matchTrigger_mid (summary tr : Str)
    (hnt : findSub ("(trigger:".toList) summary = none)
    (hst : jsTrim summary = summary) (hsne : summary ≠ [])
    (σ : Str) (hσ : σ <:+ summary) (hσne : σ ≠ []) :
    VibeEngine.matchTrigger (σ ++ (" (trigger: ".toList) ++ tr ++ [')']) = none := by
  have hassoc : σ ++ (" (trigger: ".toList) ++ tr ++ [')']
      = σ ++ (' ' :: (("(trigger: ".toList) ++ (tr ++ [')']))) := by simp
  have hlast : ∀ c, σ.getLast? = some c → jsWs c = false := by
    intro c hc
    have := getLast?_of_suffix σ summary hσ hσne
    exact getLast_not_ws_of_trim summary hst c (by rw [this, hc])
  have hσdw : σ.dropWhile jsWs ≠ [] := by
    intro hnil
    have hall := List.dropWhile_eq_nil_iff.mp hnil
    cases hgl : σ.getLast? with
    | none => exact hσne (List.getLast?_eq_none_iff.mp hgl)
    | some c =>
      have hmem := mem_of_getLast?_eq σ c hgl
      have := hall c hmem
      rw [hlast c hgl] at this
      cases this
  rw [hassoc]
  unfold VibeEngine.matchTrigger
  rw [dropWhile_append_of_ne_nil _ _ _ hσdw]
  have hσ2 : σ.dropWhile jsWs <:+ summary := (List.dropWhile_suffix jsWs).trans hσ
  have hplen : ("(trigger: ".toList).length = 10 := rfl
  have hpre : ("(trigger: ".toList).isPrefixOf
      (σ.dropWhile jsWs ++ ' ' :: (("(trigger: ".toList) ++ (tr ++ [')']))) = false := by
    by_contra hx
    simp only [Bool.not_eq_false] at hx
    have hxp := List.isPrefixOf_iff_prefix.mp hx
    by_cases hlen : 10 ≤ (σ.dropWhile jsWs).length
    · have h1 : ("(trigger: ".toList) <+: σ.dropWhile jsWs := by
        apply prefix_of_prefix_le _ _ _ hxp (List.prefix_append _ _)
        omega
      have h2 : ("(trigger:".toList) <+: σ.dropWhile jsWs :=
        (show ("(trigger:".toList) <+: ("(trigger: ".toList) by decide).trans h1
      have h3 := findSub_none_suffix _ summary hnt _ hσ2
      rw [List.isPrefixOf_iff_prefix.mpr h2] at h3
      cases h3
    · push_neg at hlen
      have h1 : σ.dropWhile jsWs <+: ("(trigger: ".toList) := by
        apply prefix_of_prefix_le _ _ _ (List.prefix_append _ _) hxp
        omega
      obtain ⟨p2, hp2⟩ := h1
      obtain ⟨u, hu⟩ := hxp
      rw [← hp2, List.append_assoc] at hu
      have hpu := List.append_cancel_left hu
      have hdropeq : ("(trigger: ".toList).drop (σ.dropWhile jsWs).length = p2 := by
        have := congrArg (List.drop (σ.dropWhile jsWs).length) hp2
        rw [List.drop_left] at this
        exact this.symm
      have hp2ne : p2 ≠ [] := by
        intro he
        have hlen2 := congrArg List.length hdropeq
        rw [he] at hlen2
        simp only [List.length_drop, hplen, List.length_nil] at hlen2
        omega
      have hp2head : p2.head? = some ' ' := by
        have hc := congrArg List.head? hpu
        simp at hc
        rcases hc with h | ⟨he, _⟩
        · exact h
        · exact absurd he hp2ne
      have hhead : (("(trigger: ".toList).drop (σ.dropWhile jsWs).length).head? = some ' ' := by
        rw [hdropeq, hp2head]
      have hpos : 0 < (σ.dropWhile jsWs).length := List.length_pos.mpr hσdw
      have htake : σ.dropWhile jsWs = ("(trigger: ".toList).take (σ.dropWhile jsWs).length :=
        List.prefix_iff_eq_take.mp ⟨p2, hp2⟩
      interval_cases hn : (σ.dropWhile jsWs).length
      · exact absurd hhead (by decide)
      · exact absurd hhead (by decide)
      · exact absurd hhead (by decide)
      · exact absurd hhead (by decide)
      · exact absurd hhead (by decide)
      · exact absurd hhead (by decide)
      · exact absurd hhead (by decide)
      · exact absurd hhead (by decide)
      · have h9 : σ.dropWhile jsWs = ("(trigger:".toList) := by
          rw [htake]
          rfl
        have h3 := findSub_none_suffix _ summary hnt _ hσ2
        have hself : ("(trigger:".toList).isPrefixOf (σ.dropWhile jsWs) = true := by
          rw [h9]
          decide
        rw [h3] at hself
        cases hself
  simp only [hpre, Bool.false_eq_true, if_false]

theorem vibeTail_no_trigger (summary : Str)
    (hnt : findSub ("(trigger:".toList) summary = none)
    (hdot : ∀ c ∈ summary, jsDot c = true) :
    ∀ σ, σ <:+ summary → ∀ acc, VibeEngine.vibeTail acc σ = some (acc.reverse ++ σ, none) := by
  intro σ
  induction σ with
  | nil =>
    intro _ acc
    simp [VibeEngine.vibeTail, VibeEngine.matchTrigger, List.isPrefixOf]
  | cons c r ih =>
    intro hσ acc
    have hmt := matchTrigger_none_of_suffix summary hnt (c :: r) hσ
    have hcd : jsDot c = true := hdot c (hσ.subset (by simp))
    unfold VibeEngine.vibeTail
    rw [hmt]
    simp only [hcd, if_true]
    rw [ih (((List.suffix_cons c r)).trans hσ) (c :: acc)]
    simp

theorem vibeTail_trigger (summary tr : Str)
    (hnt : findSub ("(trigger:".toList) summary = none)
    (hst : jsTrim summary = summary) (hsne : summary ≠ [])
    (htne : tr ≠ []) (htdot : ∀ c ∈ tr, jsDot c = true)
    (hdot : ∀ c ∈ summary, jsDot c = true) :
    ∀ σ, σ <:+ summary → ∀ acc,
      VibeEngine.vibeTail acc (σ ++ (" (trigger: ".toList) ++ tr ++ [')'])
        = some (acc.reverse ++ σ, some tr) := by
  intro σ
  induction σ with
  | nil =>
    intro _ acc
    have hshape : ([] : Str) ++ (" (trigger: ".toList) ++ tr ++ [')']
        = ' ' :: (("(trigger: ".toList) ++ tr ++ [')']) := by simp
    rw [hshape]
    unfold VibeEngine.vibeTail
    have hmt := matchTrigger_at tr htne htdot
    rw [show (" (trigger: ".toList) ++ tr ++ [')']
        = ' ' :: (("(trigger: ".toList) ++ tr ++ [')']) from by simp] at hmt
    rw [hmt]
    simp
  | cons c r ih =>
    intro hσ acc
    have hmt := matchTrigger_mid summary tr hnt hst hsne (c :: r) hσ (by simp)
    have hcd : jsDot c = true := hdot c (hσ.subset (by simp))
    have hshape : (c :: r) ++ (" (trigger: ".toList) ++ tr ++ [')']
        = c :: (r ++ (" (trigger: ".toList) ++ tr ++ [')']) := by simp
    rw [hshape] at hmt
    show (match VibeEngine.matchTrigger (c :: (r ++ (" (trigger: ".toList) ++ tr ++ [')'])) with
      | some t => some (acc.reverse, some t)
      | none =>
        if jsDot c = true then
          VibeEngine.vibeTail (c :: acc) (r ++ (" (trigger: ".toList) ++ tr ++ [')'])
        else none) = some (acc.reverse ++ c :: r, some tr)
    rw [hmt]
    simp only [hcd, if_true]
    rw [ih ((List.suffix_cons c r).trans hσ) (c :: acc)]
    simp

theorem fmtTime_spec (ts : Str) (hts : VibeEngine.isoPrefixShape ts = true) :
    ∃ d hm : Str, replaceFirst ("T".toList) (" ".toList) (ts.take 16) = d ++ ' ' :: hm ∧
      ts.take 16 = d ++ 'T' :: hm ∧ d ≠ [] ∧
      (∀ c ∈ d, dateChar c = true) ∧ (∀ c ∈ hm, clockChar c = true) := by
  obtain ⟨d, hm, h16, hd10, _, hdc, hhc⟩ := iso_destruct ts hts
  refine ⟨d, hm, ?_, h16, ?_, hdc, hhc⟩
  · rw [h16]
    have hT : 'T' ∉ d := by
      intro hmem
      exact (dateChar_facts _ (hdc _ hmem)).2.2.1 rfl
    have := replaceFirst_single_sep 'T' ([' ']) d hm hT
    simpa using this
  · intro hnil
    rw [hnil] at hd10
    simp at hd10

theorem time_restore (ts : Str) (hts : VibeEngine.isoPrefixShape ts = true) :
    replaceFirst (" ".toList) ("T".toList)
      (replaceFirst ("T".toList) (" ".toList) (ts.take 16)) = ts.take 16 := by
  obtain ⟨d, hm, htime, h16, _, hdc, _⟩ := fmtTime_spec ts hts
  rw [htime, h16]
  have hsp : ' ' ∉ d := by
    intro hmem
    exact (dateChar_facts _ (hdc _ hmem)).2.2.2.1 rfl
  have := replaceFirst_single_sep ' ' (['T']) d hm hsp
  simpa using this

theorem time_facts (ts : Str) (hts : VibeEngine.isoPrefixShape ts = true) :
    replaceFirst ("T".toList) (" ".toList) (ts.take 16) ≠ [] ∧
    (∀ c ∈ replaceFirst ("T".toList) (" ".toList) (ts.take 16),
      jsDot c = true ∧ c ≠ '$' ∧ jsWs c = false ∨ c = ' ') ∧
    (']' ∉ replaceFirst ("T".toList) (" ".toList) (ts.take 16)) := by
  obtain ⟨d, hm, htime, _, hdne, hdc, hhc⟩ := fmtTime_spec ts hts
  rw [htime]
  refine ⟨by simp [hdne], ?_, ?_⟩
  · intro c hc
    simp only [List.mem_append, List.mem_cons] at hc
    rcases hc with hc | rfl | hc
    · have := dateChar_facts c (hdc c hc)
      exact Or.inl ⟨this.2.1, this.2.2.2.2.2, this.1⟩
    · exact Or.inr rfl
    · have := clockChar_facts c (hhc c hc)
      exact Or.inl ⟨this.2.1, this.2.2.2.2, this.1⟩
  · intro hmem
    simp only [List.mem_append, List.mem_cons] at hmem
    rcases hmem with hc | hc | hc
    · exact (dateChar_facts _ (hdc _ hc)).2.2.2.2.1 rfl
    · cases hc
    · exact (clockChar_facts _ (hhc _ hc)).2.2.2.1 rfl

theorem vibeLineMatch_format (s : VibeEngine.VibeSnapshot) (h : VibeEngine.wfVibe s = true) :
    VibeEngine.vibeLineMatch (VibeEngine.formatVibeLine s)
      = some (s.vibe, replaceFirst ("T".toList) (" ".toList) (s.timestamp.take 16),
          s.summary, s.trigger) := by
  obtain ⟨hvne, hvc, hts, hsne, hst, hsc, hnt, htrig⟩ := wfVibe_spec s h
  obtain ⟨htne2, hdotT, hnb⟩ := time_facts s.timestamp hts
  have hsdot : ∀ c ∈ s.summary, jsDot c = true := fun c hc => (hsc c hc).1
  obtain ⟨c0, s0, hsum⟩ : ∃ c0 s0, s.summary = c0 :: s0 := by
    cases hx : s.summary with
    | nil => exact absurd hx hsne
    | cons a l => exact ⟨a, l, rfl⟩
  have hc0 : jsDot c0 = true := hsdot c0 (by rw [hsum]; simp)
  have hs0suf : s0 <:+ s.summary := by rw [hsum]; exact List.suffix_cons c0 s0
  have e1 : ("- ".toList) = ['-', ' '] := rfl
  have e2 : (" [".toList) = [' ', '['] := rfl
  have e3 : ("] ".toList) = [']', ' '] := rfl
  have htdot : ∀ c ∈ replaceFirst ("T".toList) (" ".toList) (s.timestamp.take 16),
      jsDot c = true := by
    intro c hc
    rcases hdotT c hc with ⟨hd, _, _⟩ | rfl
    · exact hd
    · rfl
  have hstep : ∀ rest2 : Str,
      VibeEngine.vibeLineMatch ('-' :: ' ' ::
        (s.vibe ++ ' ' :: '[' ::
          (replaceFirst ("T".toList) (" ".toList) (s.timestamp.take 16) ++
            ']' :: ' ' :: (c0 :: rest2))))
        = (VibeEngine.vibeTail [c0] rest2).map
            (fun p => (s.vibe, replaceFirst ("T".toList) (" ".toList) (s.timestamp.take 16),
              p.1, p.2)) := by
    intro rest2
    unfold VibeEngine.vibeLineMatch
    simp only [decide_True, Bool.and_self, if_true]
    have htk : (s.vibe ++ ' ' :: '[' ::
        (replaceFirst ("T".toList) (" ".toList) (s.timestamp.take 16) ++
          ']' :: ' ' :: (c0 :: rest2))).takeWhile (fun c => !jsWs c) = s.vibe := by
      rw [takeWhile_append_all _ _ _ (fun c hc => by simp [(hvc c hc).1])]
      simp [List.takeWhile_cons, jsWs]
    have hdr : (s.vibe ++ ' ' :: '[' ::
        (replaceFirst ("T".toList) (" ".toList) (s.timestamp.take 16) ++
          ']' :: ' ' :: (c0 :: rest2))).dropWhile (fun c => !jsWs c)
        = ' ' :: '[' ::
          (replaceFirst ("T".toList) (" ".toList) (s.timestamp.take 16) ++
            ']' :: ' ' :: (c0 :: rest2)) := by
      rw [dropWhile_append_all _ _ _ (fun c hc => by simp [(hvc c hc).1])]
      simp [List.dropWhile_cons, jsWs]
    have hvee : s.vibe.isEmpty = false := by
      cases hv : s.vibe with
      | nil => exact absurd hv hvne
      | cons a l => rfl
    rw [htk, hdr]
    have hloop := vibeTimeLoop_clean
      (replaceFirst ("T".toList) (" ".toList) (s.timestamp.take 16))
      (c0 :: rest2) [] htne2 htdot hnb
    simp only [hvee, Bool.false_eq_true, if_false, decide_True, Bool.and_self, if_true, hloop,
      List.reverse_nil, List.nil_append, hc0]
  cases htr : s.trigger with
  | none =>
    have hline : VibeEngine.formatVibeLine s
        = '-' :: ' ' :: (s.vibe ++ ' ' :: '[' ::
          (replaceFirst ("T".toList) (" ".toList) (s.timestamp.take 16) ++
            ']' :: ' ' :: (c0 :: s0))) := by
      simp only [VibeEngine.formatVibeLine, htr, optTruthy]
      simp [e1, e2, e3, hsum]
    rw [hline, hstep s0]
    rw [vibeTail_no_trigger s.summary hnt hsdot s0 hs0suf [c0]]
    simp only [Option.map_some, List.reverse_cons, List.reverse_nil, List.nil_append,
      List.singleton_append]
    rw [← hsum]
    rfl
  | some t =>
    obtain ⟨htne, htt, htcd⟩ := htrig t htr
    have hline : VibeEngine.formatVibeLine s
        = '-' :: ' ' :: (s.vibe ++ ' ' :: '[' ::
          (replaceFirst ("T".toList) (" ".toList) (s.timestamp.take 16) ++
            ']' :: ' ' :: (c0 :: (s0 ++ ((" (trigger: ".toList) ++ (t ++ [')'])))))) := by
      have hto : optTruthy (some t) = true := by
        cases ht2 : t with
        | nil => exact absurd ht2 htne
        | cons a l => rfl
      simp only [VibeEngine.formatVibeLine, htr, hto, if_true, Option.getD_some]
      have e4 : (")".toList) = [')'] := rfl
      simp [e1, e2, e3, e4, hsum]
    rw [hline, hstep (s0 ++ ((" (trigger: ".toList) ++ (t ++ [')'])))]
    have htail := vibeTail_trigger s.summary t hnt hst hsne htne
      (fun c hc => (htcd c hc).1) hsdot s0 hs0suf [c0]
    rw [show s0 ++ ((" (trigger: ".toList) ++ (t ++ [')']))
        = s0 ++ (" (trigger: ".toList) ++ t ++ [')'] from by simp] at *
    rw [htail]
    simp only [Option.map_some, List.reverse_cons, List.reverse_nil, List.nil_append,
      List.singleton_append]
    rw [← hsum]
    rfl

/-! Lemmas about the canonical Active Context document. -/

theorem findSub_at_zero (p x : Str) (hp : p ≠ []) : findSub p (p ++ x) = some 0 := by
  cases p with
  | nil => exact absurd rfl hp
  | cons a as =>
    rw [List.cons_append, findSub, ← List.cons_append, isPrefixOf_append_self]
    rfl

theorem findSub_cons_skip (p : Str) (c : Char) (cs : Str)
    (h : p.isPrefixOf (c :: cs) = false) :
    findSub p (c :: cs) = (findSub p cs).map (· + 1) := by
  rw [findSub, h]
  rfl

theorem prefix_sharp_false (l b : Str) (hl : l.head? = some '-') :
    (("## ".toList)).isPrefixOf (l ++ b) = false := by
  cases l with
  | nil => simp at hl
  | cons c cs =>
    have hc : c = '-' := by simpa using hl
    subst hc
    rw [List.cons_append]
    simp [List.isPrefixOf]

theorem prefix_nl_false (t b : Str) (c : Char) (h : t.head? = some c) (hc : c ≠ '\n') :
    (("\n## ".toList)).isPrefixOf (t ++ b) = false := by
  cases t with
  | nil => simp at h
  | cons d ds =>
    have hd : d = c := by simpa using h
    subst hd
    rw [List.cons_append]
    simp [List.isPrefixOf, Ne.symm hc]

theorem findSub_nlsharp (ls : List Str)
    (h : ∀ l ∈ ls, l.head? = some '-' ∧ ('\n' : Char) ∉ l) :
    findSub ("\n## ".toList) ('\n' :: (List.intercalate ("\n".toList) ls ++ ("\n".toList)))
      = none := by
  induction ls with
  | nil => decide
  | cons l ls ih =>
    have hhead := (h l (by simp)).1
    have hnl := (h l (by simp)).2
    have hskip : ∀ t, t <:+ ('\n' :: l) → t ≠ [] →
        ∀ b : Str, (("\n## ".toList)).isPrefixOf (t ++ b) = false := by
      intro t ht htne b
      rcases List.suffix_cons_iff.mp ht with rfl | ht2
      · rw [List.cons_append]
        have hppf : (("## ".toList)).isPrefixOf (l ++ b) = false := prefix_sharp_false l b hhead
        simp only [List.isPrefixOf]
        simpa using hppf
      · cases t with
        | nil => exact absurd rfl htne
        | cons d ds =>
          have hdl : d ∈ l := ht2.subset (by simp)
          exact prefix_nl_false (d :: ds) b d rfl (fun he => hnl (he ▸ hdl))
    cases ls with
    | nil =>
      rw [intercalate_singleton]
      have := findSub_append_none ("\n## ".toList) ('\n' :: l) ("\n".toList)
        (fun t ht htne => hskip t ht htne _) (by decide)
      simpa using this
    | cons l2 ls2 =>
      rw [intercalate_cons _ _ _ (by simp)]
      have hb := ih (fun x hx => h x (by simp [hx]))
      have := findSub_append_none ("\n## ".toList) ('\n' :: l)
        ('\n' :: (List.intercalate ("\n".toList) (l2 :: ls2) ++ ("\n".toList)))
        (fun t ht htne => hskip t ht htne _) hb
      simp only [List.cons_append, List.append_assoc] at this ⊢
      simpa using this

theorem jsDot_ne_nl (c : Char) (h : jsDot c = true) : c ≠ '\n' := by
  intro he
  subst he
  simp [jsDot] at h

theorem fmt_line_facts (s : VibeEngine.VibeSnapshot) (h : VibeEngine.wfVibe s = true) :
    VibeEngine.formatVibeLine s ≠ [] ∧
    (VibeEngine.formatVibeLine s).head? = some '-' ∧
    ('\n' : Char) ∉ VibeEngine.formatVibeLine s ∧
    ('$' : Char) ∉ VibeEngine.formatVibeLine s ∧
    jsTrim (VibeEngine.formatVibeLine s) = VibeEngine.formatVibeLine s := by
  obtain ⟨hvne, hvc, hts, hsne, hst, hsc, hnt, htrig⟩ := wfVibe_spec s h
  obtain ⟨htne2, hdotT, hnb⟩ := time_facts s.timestamp hts
  have hnl_v : ('\n' : Char) ∉ s.vibe := fun hm => absurd (hvc _ hm).1 (by decide)
  have hdl_v : ('$' : Char) ∉ s.vibe := fun hm => (hvc _ hm).2 rfl
  have hnl_t : ('\n' : Char) ∉ replaceFirst ("T".toList) (" ".toList) (s.timestamp.take 16) := by
    intro hm
    rcases hdotT _ hm with ⟨hd, _, _⟩ | he
    · exact absurd hd (by decide)
    · exact absurd he (by decide)
  have hdl_t : ('$' : Char) ∉ replaceFirst ("T".toList) (" ".toList) (s.timestamp.take 16) := by
    intro hm
    rcases hdotT _ hm with ⟨_, hd, _⟩ | he
    · exact hd rfl
    · exact absurd he (by decide)
  have hnl_s : ('\n' : Char) ∉ s.summary := fun hm => jsDot_ne_nl _ (hsc _ hm).1 rfl
  have hdl_s : ('$' : Char) ∉ s.summary := fun hm => (hsc _ hm).2 rfl
  cases htr : s.trigger with
  | none =>
    have hline : VibeEngine.formatVibeLine s
        = ("- ".toList) ++ s.vibe ++ (" [".toList) ++
          replaceFirst ("T".toList) (" ".toList) (s.timestamp.take 16) ++ ("] ".toList) ++
          s.summary := by
      simp [VibeEngine.formatVibeLine, htr, optTruthy]
    refine ⟨?_, ?_, ?_, ?_, ?_⟩
    · rw [hline]; simp
    · rw [hline]; rfl
    · rw [hline]
      simp only [List.mem_append, not_or]
      exact ⟨⟨⟨⟨⟨by decide, hnl_v⟩, by decide⟩, hnl_t⟩, by decide⟩, hnl_s⟩
    · rw [hline]
      simp only [List.mem_append, not_or]
      exact ⟨⟨⟨⟨⟨by decide, hdl_v⟩, by decide⟩, hdl_t⟩, by decide⟩, hdl_s⟩
    · apply jsTrim_eq_self
      · intro c hc
        rw [hline] at hc
        have hcc : '-' = c := by simpa using hc
        subst hcc
        decide
      · intro c hc
        rw [hline] at hc
        rw [List.getLast?_append_of_ne_nil _ hsne] at hc
        exact getLast_not_ws_of_trim s.summary hst c hc
  | some t =>
    obtain ⟨htne, htt, htcd⟩ := htrig t htr
    have hnl_tr : ('\n' : Char) ∉ t := fun hm => jsDot_ne_nl _ (htcd _ hm).1 rfl
    have hdl_tr : ('$' : Char) ∉ t := fun hm => (htcd _ hm).2 rfl
    have hline : VibeEngine.formatVibeLine s
        = ("- ".toList) ++ s.vibe ++ (" [".toList) ++
          replaceFirst ("T".toList) (" ".toList) (s.timestamp.take 16) ++ ("] ".toList) ++
          s.summary ++ ((" (trigger: ".toList) ++ t ++ (")".toList)) := by
      simp [VibeEngine.formatVibeLine, htr, optTruthy, htne]
    refine ⟨?_, ?_, ?_, ?_, ?_⟩
    · rw [hline]; simp
    · rw [hline]; rfl
    · rw [hline]
      simp only [List.mem_append, not_or]
      exact ⟨⟨⟨⟨⟨⟨by decide, hnl_v⟩, by decide⟩, hnl_t⟩, by decide⟩, hnl_s⟩,
        ⟨by decide, hnl_tr⟩, by decide⟩
    · rw [hline]
      simp only [List.mem_append, not_or]
      exact ⟨⟨⟨⟨⟨⟨by decide, hdl_v⟩, by decide⟩, hdl_t⟩, by decide⟩, hdl_s⟩,
        ⟨by decide, hdl_tr⟩, by decide⟩
    · apply jsTrim_eq_self
      · intro c hc
        rw [hline] at hc
        have hcc : '-' = c := by simpa using hc
        subst hcc
        decide
      · intro c hc
        rw [hline] at hc
        rw [List.getLast?_append_of_ne_nil _ (by simp)] at hc
        have hcc : ')' = c := by
          rw [List.getLast?_append_of_ne_nil _ (by simp)] at hc
          simpa using hc
        subst hcc
        decide

theorem isPrefixOf_cons_ne (a b : Char) (as bs : Str) (h : a ≠ b) :
    (a :: as).isPrefixOf (b :: bs) = false := by
  simp [List.isPrefixOf, h]

theorem canonAC_decomp (ss : List VibeEngine.VibeSnapshot) :
    canonAC ss = ("\n\n".toList) ++ (sectionHeader VibeEngine.VIBE_SECTION) ++
      ('\n' :: (canonLines ss ++ ("\n".toList))) := rfl

theorem expandRepl_dollar1 (whole before after g1 rest : Str) :
    expandRepl whole before after g1 ('$' :: '1' :: rest)
      = g1 ++ expandRepl whole before after g1 rest := by
  rw [expandRepl.eq_def]
  simp [backquoteChar, singleQuoteChar]

theorem canonLines_cons_cons (s s2 : VibeEngine.VibeSnapshot)
    (ss : List VibeEngine.VibeSnapshot) :
    canonLines (s :: s2 :: ss)
      = VibeEngine.formatVibeLine s ++ ("\n".toList) ++ canonLines (s2 :: ss) := by
  unfold canonLines
  rw [List.map_cons]
  exact intercalate_cons _ _ _ (by simp)

theorem canonLines_single (s : VibeEngine.VibeSnapshot) :
    canonLines [s] = VibeEngine.formatVibeLine s := by
  unfold canonLines
  rw [List.map_cons, List.map_nil]
  exact intercalate_singleton _ _

theorem canonLines_append_one (s : VibeEngine.VibeSnapshot) :
    ∀ ss : List VibeEngine.VibeSnapshot, ss ≠ [] →
    canonLines (ss ++ [s]) = canonLines ss ++ ("\n".toList) ++ VibeEngine.formatVibeLine s := by
  intro ss
  induction ss with
  | nil => intro hne; exact absurd rfl hne
  | cons a as ih =>
    intro _
    cases as with
    | nil =>
      rw [show (([a] : List VibeEngine.VibeSnapshot) ++ [s]) = [a, s] from rfl,
        canonLines_cons_cons, canonLines_single, canonLines_single]
    | cons b bs =>
      have ih2 := ih (by simp)
      rw [List.cons_append, List.cons_append, canonLines_cons_cons]
      rw [show (b :: (bs ++ [s])) = (b :: bs) ++ [s] from rfl, ih2, canonLines_cons_cons]
      simp [List.append_assoc]

theorem canonLines_ne_nil (ss : List VibeEngine.VibeSnapshot) (hne : ss ≠ [])
    (hwf : wfList ss = true) : canonLines ss ≠ [] := by
  cases ss with
  | nil => exact absurd rfl hne
  | cons s as =>
    have hs : VibeEngine.wfVibe s = true := by
      have := List.all_eq_true.mp hwf s (by simp)
      exact this
    have hfmt := (fmt_line_facts s hs).1
    cases as with
    | nil => rw [canonLines_single]; exact hfmt
    | cons b bs =>
      rw [canonLines_cons_cons]
      intro he
      have hlen := congrArg List.length he
      simp at hlen

theorem canonLines_head (ss : List VibeEngine.VibeSnapshot) (hne : ss ≠ [])
    (hwf : wfList ss = true) : (canonLines ss).head? = some '-' := by
  cases ss with
  | nil => exact absurd rfl hne
  | cons s as =>
    have hs : VibeEngine.wfVibe s = true := List.all_eq_true.mp hwf s (by simp)
    obtain ⟨hfne, hfh, _, _, _⟩ := fmt_line_facts s hs
    cases as with
    | nil => rw [canonLines_single]; exact hfh
    | cons b bs =>
      rw [canonLines_cons_cons, List.append_assoc,
        List.head?_append_of_ne_nil _ hfne]
      exact hfh

theorem canonLines_getLast (ss : List VibeEngine.VibeSnapshot) (hne : ss ≠ [])
    (hwf : wfList ss = true) :
    ∀ c, (canonLines ss).getLast? = some c → jsWs c = false := by
  induction ss with
  | nil => exact absurd rfl hne
  | cons s as ih =>
    have hs : VibeEngine.wfVibe s = true := List.all_eq_true.mp hwf s (by simp)
    obtain ⟨hfne, _, _, _, hftrim⟩ := fmt_line_facts s hs
    cases as with
    | nil =>
      rw [canonLines_single]
      exact getLast_not_ws_of_trim _ hftrim
    | cons b bs =>
      have hwf2 : wfList (b :: bs) = true := by
        apply List.all_eq_true.mpr
        intro x hx
        exact List.all_eq_true.mp hwf x (by simp [hx])
      rw [canonLines_cons_cons]
      intro c hc
      rw [List.getLast?_append_of_ne_nil _ (canonLines_ne_nil _ (by simp) hwf2)] at hc
      exact ih (by simp) hwf2 c hc

theorem jsTrim_wrap (x : Str) (hne : x ≠ [])
    (hh : ∀ c, x.head? = some c → jsWs c = false)
    (hl : ∀ c, x.getLast? = some c → jsWs c = false) :
    jsTrim ('\n' :: (x ++ ("\n".toList))) = x := by
  cases x with
  | nil => exact absurd rfl hne
  | cons a as =>
    have ha : jsWs a = false := hh a rfl
    unfold jsTrim
    have h1 : List.dropWhile jsWs ('\n' :: ((a :: as) ++ ("\n".toList))) =
        (a :: as) ++ ("\n".toList) := by
      rw [List.dropWhile_cons]
      simp only [show jsWs '\n' = true from rfl, if_true]
      rw [List.cons_append, List.dropWhile_cons, ha]
      simp
    rw [h1, show ("\n".toList) = ['\n'] from rfl, List.reverse_append]
    rw [show (['\n'] : Str).reverse = ['\n'] from rfl, List.singleton_append]
    rw [List.dropWhile_cons]
    simp only [show jsWs '\n' = true from rfl, if_true]
    cases hr : (a :: as).reverse with
    | nil => simp at hr
    | cons d ds =>
      have hdl : (a :: as).getLast? = some d := by
        rw [← List.head?_reverse, hr]
        rfl
      have hdw : jsWs d = false := hl d hdl
      rw [List.dropWhile_cons, hdw]
      simp only [Bool.false_eq_true, if_false]
      rw [← hr, List.reverse_reverse]

theorem findSub_canonAC (ss : List VibeEngine.VibeSnapshot) :
    findSub (sectionHeader VibeEngine.VIBE_SECTION) (canonAC ss) = some 2 := by
  rw [canonAC_decomp]
  show findSub (sectionHeader VibeEngine.VIBE_SECTION)
    ('\n' :: ('\n' :: (sectionHeader VibeEngine.VIBE_SECTION ++
      ('\n' :: (canonLines ss ++ ("\n".toList)))))) = some 2
  have hp : ∀ x : Str, (sectionHeader VibeEngine.VIBE_SECTION).isPrefixOf ('\n' :: x) = false :=
    fun x => isPrefixOf_cons_ne '#' '\n' ("# Vibe History\n".toList) x (by decide)
  rw [findSub_cons_skip _ _ _ (hp _), findSub_cons_skip _ _ _ (hp _),
    findSub_at_zero _ _ (by decide)]
  rfl

theorem findSub_nlsharp_canon (ss : List VibeEngine.VibeSnapshot) (hwf : wfList ss = true) :
    findSub ("\n## ".toList) ('\n' :: (canonLines ss ++ ("\n".toList))) = none := by
  unfold canonLines
  apply findSub_nlsharp
  intro l hl
  obtain ⟨s, hs, rfl⟩ := List.mem_map.mp hl
  have hsw := List.all_eq_true.mp hwf s hs
  obtain ⟨_, hh, hnl, _, _⟩ := fmt_line_facts s hsw
  exact ⟨hh, hnl⟩

theorem jsTrim_canon_body (ss : List VibeEngine.VibeSnapshot) (hne : ss ≠ [])
    (hwf : wfList ss = true) :
    jsTrim ('\n' :: (canonLines ss ++ ("\n".toList))) = canonLines ss := by
  apply jsTrim_wrap _ (canonLines_ne_nil ss hne hwf)
  · intro c hc
    rw [canonLines_head ss hne hwf] at hc
    have : '-' = c := by simpa using hc
    subst this
    decide
  · exact canonLines_getLast ss hne hwf

theorem extract_canon (ss : List VibeEngine.VibeSnapshot) (hne : ss ≠ [])
    (hwf : wfList ss = true) :
    VibeEngine.extractSection (canonAC ss) VibeEngine.VIBE_SECTION = some (canonLines ss) := by
  have hdrop : (canonAC ss).drop (2 + (sectionHeader VibeEngine.VIBE_SECTION).length)
      = '\n' :: (canonLines ss ++ ("\n".toList)) := by
    rw [canonAC_decomp]
    exact List.drop_left' (by decide)
  unfold VibeEngine.extractSection
  simp only [findSub_canonAC, hdrop, findSub_nlsharp_canon ss hwf,
    jsTrim_canon_body ss hne hwf]

theorem canonAC_drop (ss : List VibeEngine.VibeSnapshot) :
    (canonAC ss).drop (2 + (sectionHeader VibeEngine.VIBE_SECTION).length)
      = '\n' :: (canonLines ss ++ ("\n".toList)) := by
  rw [canonAC_decomp]
  exact List.drop_left' (by decide)

theorem canonAC_take (ss : List VibeEngine.VibeSnapshot) :
    (canonAC ss).take 2 = ("\n\n".toList) := by
  rw [canonAC_decomp, List.append_assoc]
  exact List.take_left' (by decide)

theorem replace_canon (ss : List VibeEngine.VibeSnapshot) (hne : ss ≠ [])
    (hwf : wfList ss = true) (nw : Str) (hnd : ('$' : Char) ∉ nw) :
    VibeEngine.replaceSection (canonAC ss) VibeEngine.VIBE_SECTION nw
      = ("\n\n".toList) ++ sectionHeader VibeEngine.VIBE_SECTION ++
        ('\n' :: (nw ++ ("\n".toList))) := by
  unfold VibeEngine.replaceSection
  simp only [findSub_canonAC, canonAC_drop, findSub_nlsharp_canon ss hwf, canonAC_take,
    List.take_length, List.drop_length]
  rw [show (("$1\n".toList) ++ nw ++ ("\n".toList))
      = '$' :: '1' :: ('\n' :: (nw ++ ("\n".toList))) from rfl]
  rw [expandRepl_dollar1]
  rw [expandRepl_no_dollar _ _ _ _ _ (by
    intro hm
    rcases List.mem_cons.mp hm with he | hm2
    · exact absurd he (by decide)
    · rcases List.mem_append.mp hm2 with h3 | h3
      · exact hnd h3
      · exact absurd h3 (by decide))]
  simp [List.append_assoc]

theorem canonLines_no_dollar (ss : List VibeEngine.VibeSnapshot) (hwf : wfList ss = true) :
    ('$' : Char) ∉ canonLines ss := by
  induction ss with
  | nil =>
    unfold canonLines
    rw [List.map_nil, intercalate_nil_right]
    simp
  | cons s as ih =>
    have hs : VibeEngine.wfVibe s = true := List.all_eq_true.mp hwf s (by simp)
    obtain ⟨_, _, _, hfd, _⟩ := fmt_line_facts s hs
    cases as with
    | nil => rw [canonLines_single]; exact hfd
    | cons b bs =>
      have hwf2 : wfList (b :: bs) = true := by
        apply List.all_eq_true.mpr
        intro x hx
        exact List.all_eq_true.mp hwf x (by simp [hx])
      rw [canonLines_cons_cons]
      intro hm
      rcases List.mem_append.mp hm with h1 | h1
      · rcases List.mem_append.mp h1 with h2 | h2
        · exact hfd h2
        · exact absurd h2 (by decide)
      · exact ih hwf2 h1

theorem upsert_empty (s : VibeEngine.VibeSnapshot) :
    VibeEngine.upsertSection [] VibeEngine.VIBE_SECTION (VibeEngine.formatVibeLine s)
      = canonAC [s] := by
  unfold VibeEngine.upsertSection
  rw [show VibeEngine.extractSection [] VibeEngine.VIBE_SECTION = none from rfl]
  show jsTrimEnd [] ++ ("\n\n## ".toList) ++ VibeEngine.VIBE_SECTION ++ ("\n\n".toList) ++
      VibeEngine.formatVibeLine s ++ ("\n".toList) = canonAC [s]
  rw [canonAC_decomp, canonLines_single]
  simp [jsTrimEnd, sectionHeader, VibeEngine.VIBE_SECTION]

theorem upsert_canon (ss : List VibeEngine.VibeSnapshot) (hne : ss ≠ [])
    (hwf : wfList ss = true) (s : VibeEngine.VibeSnapshot)
    (hs : VibeEngine.wfVibe s = true) :
    VibeEngine.upsertSection (canonAC ss) VibeEngine.VIBE_SECTION (VibeEngine.formatVibeLine s)
      = canonAC (ss ++ [s]) := by
  have hfd : ('$' : Char) ∉ VibeEngine.formatVibeLine s := (fmt_line_facts s hs).2.2.2.1
  have hnd : ('$' : Char) ∉ canonLines ss ++ ("\n".toList) ++ VibeEngine.formatVibeLine s := by
    intro hm
    rcases List.mem_append.mp hm with h1 | h1
    · rcases List.mem_append.mp h1 with h2 | h2
      · exact canonLines_no_dollar ss hwf h2
      · exact absurd h2 (by decide)
    · exact hfd h1
  unfold VibeEngine.upsertSection
  rw [extract_canon ss hne hwf]
  show VibeEngine.replaceSection (canonAC ss) VibeEngine.VIBE_SECTION
      (canonLines ss ++ ("\n".toList) ++ VibeEngine.formatVibeLine s) = _
  rw [replace_canon ss hne hwf _ hnd, canonAC_decomp, canonLines_append_one s ss hne]

theorem parse_elt (s : VibeEngine.VibeSnapshot) (hs : VibeEngine.wfVibe s = true) :
    (VibeEngine.vibeLineMatch (jsTrim (VibeEngine.formatVibeLine s))).map
      (fun m => ({ vibe := m.1,
                   timestamp := replaceFirst (" ".toList) ("T".toList) m.2.1 ++ (":00.000Z".toList),
                   summary := jsTrim m.2.2.1,
                   trigger := m.2.2.2.map jsTrim } : VibeEngine.VibeSnapshot))
      = some (VibeEngine.rt s) := by
  rw [(fmt_line_facts s hs).2.2.2.2, vibeLineMatch_format s hs]
  obtain ⟨_, _, hts, _, hst, _, _, htrig⟩ := wfVibe_spec s hs
  have h1 := time_restore s.timestamp hts
  have h3 : s.trigger.map jsTrim = s.trigger := by
    cases htr : s.trigger with
    | none => rfl
    | some t => simp [(htrig t htr).2.1]
  simp [VibeEngine.rt, hst, h3]
  exact h1

theorem filterMap_fmt_map_rt :
    ∀ ts : List VibeEngine.VibeSnapshot, wfList ts = true →
    List.filterMap (fun l =>
        (VibeEngine.vibeLineMatch (jsTrim l)).map (fun m =>
          ({ vibe := m.1,
             timestamp := replaceFirst (" ".toList) ("T".toList) m.2.1 ++ (":00.000Z".toList),
             summary := jsTrim m.2.2.1,
             trigger := m.2.2.2.map jsTrim } : VibeEngine.VibeSnapshot)))
      (ts.map VibeEngine.formatVibeLine) = ts.map VibeEngine.rt := by
  intro ts
  induction ts with
  | nil => intro _; rfl
  | cons s as ih =>
    intro hwf
    have hs := List.all_eq_true.mp hwf s (by simp)
    have hwf2 : wfList as = true := by
      apply List.all_eq_true.mpr
      intro x hx
      exact List.all_eq_true.mp hwf x (by simp [hx])
    rw [List.map_cons, List.filterMap_cons, parse_elt s hs, ih hwf2, List.map_cons]

theorem parse_canon (ss : List VibeEngine.VibeSnapshot) (hne : ss ≠ [])
    (hwf : wfList ss = true) :
    VibeEngine.parseVibesFromContent (canonAC ss) = ss.map VibeEngine.rt := by
  have hnil : (canonLines ss).isEmpty = false := by
    cases hcl : canonLines ss with
    | nil => exact absurd hcl (canonLines_ne_nil ss hne hwf)
    | cons a l => rfl
  have hsplit : splitNl (canonLines ss) = ss.map VibeEngine.formatVibeLine := by
    unfold canonLines
    apply splitNl_intercalate
    · simpa using hne
    · intro l hl
      obtain ⟨s, hs, rfl⟩ := List.mem_map.mp hl
      exact (fmt_line_facts s (List.all_eq_true.mp hwf s hs)).2.2.1
  unfold VibeEngine.parseVibesFromContent
  rw [extract_canon ss hne hwf]
  simp only [hnil, Bool.false_eq_true, if_false, hsplit]
  exact filterMap_fmt_map_rt ss hwf

theorem iso_take16_len (ts : Str) (h : VibeEngine.isoPrefixShape ts = true) :
    (ts.take 16).length = 16 := by
  obtain ⟨d, hm, h16, hd, hh, _, _⟩ := iso_destruct ts h
  rw [h16]
  simp [hd, hh]

theorem wf_rt (s : VibeEngine.VibeSnapshot) (hs : VibeEngine.wfVibe s = true) :
    VibeEngine.wfVibe (VibeEngine.rt s) = true := by
  have hts : VibeEngine.isoPrefixShape s.timestamp = true := (wfVibe_spec s hs).2.2.1
  have hlen : (s.timestamp.take 16).length = 16 := iso_take16_len s.timestamp hts
  have hiso : VibeEngine.isoPrefixShape (s.timestamp.take 16 ++ (":00.000Z".toList)) = true := by
    unfold VibeEngine.isoPrefixShape at hts ⊢
    rw [List.take_left' hlen]
    exact hts
  unfold VibeEngine.wfVibe at hs ⊢
  simp only [VibeEngine.rt, Bool.and_eq_true] at hs ⊢
  obtain ⟨⟨⟨⟨⟨⟨⟨h1, h2⟩, h3⟩, h4⟩, h5⟩, h6⟩, h7⟩, h8⟩ := hs
  exact ⟨⟨⟨⟨⟨⟨⟨h1, h2⟩, hiso⟩, h4⟩, h5⟩, h6⟩, h7⟩, h8⟩

theorem rt_rt (s : VibeEngine.VibeSnapshot) (hs : VibeEngine.wfVibe s = true) :
    VibeEngine.rt (VibeEngine.rt s) = VibeEngine.rt s := by
  have hts : VibeEngine.isoPrefixShape s.timestamp = true := (wfVibe_spec s hs).2.2.1
  have hlen : (s.timestamp.take 16).length = 16 := iso_take16_len s.timestamp hts
  simp only [VibeEngine.rt]
  rw [List.take_left' hlen]

theorem fmt_rt (s : VibeEngine.VibeSnapshot) (hs : VibeEngine.wfVibe s = true) :
    VibeEngine.formatVibeLine (VibeEngine.rt s) = VibeEngine.formatVibeLine s := by
  have hts : VibeEngine.isoPrefixShape s.timestamp = true := (wfVibe_spec s hs).2.2.1
  have hlen : (s.timestamp.take 16).length = 16 := iso_take16_len s.timestamp hts
  unfold VibeEngine.formatVibeLine
  simp only [VibeEngine.rt]
  rw [List.take_left' hlen]

theorem wfList_sub (ss ts : List VibeEngine.VibeSnapshot) (hwf : wfList ss = true)
    (hsub : ∀ x ∈ ts, x ∈ ss) : wfList ts = true := by
  apply List.all_eq_true.mpr
  intro x hx
  exact List.all_eq_true.mp hwf x (hsub x hx)

theorem wfList_map_rt (ss : List VibeEngine.VibeSnapshot) (hwf : wfList ss = true) :
    wfList (ss.map VibeEngine.rt) = true := by
  apply List.all_eq_true.mpr
  intro x hx
  obtain ⟨s, hs, rfl⟩ := List.mem_map.mp hx
  exact wf_rt s (List.all_eq_true.mp hwf s hs)

theorem canonLines_map_rt (ss : List VibeEngine.VibeSnapshot) (hwf : wfList ss = true) :
    canonLines (ss.map VibeEngine.rt) = canonLines ss := by
  unfold canonLines
  rw [List.map_map]
  congr 1
  apply List.map_congr_left
  intro s hs
  exact fmt_rt s (List.all_eq_true.mp hwf s hs)

theorem map_rt_rt (ss : List VibeEngine.VibeSnapshot) (hwf : wfList ss = true) :
    (ss.map VibeEngine.rt).map VibeEngine.rt = ss.map VibeEngine.rt := by
  rw [List.map_map]
  apply List.map_congr_left
  intro s hs
  exact rt_rt s (List.all_eq_true.mp hwf s hs)

theorem capture_start (today : Str) (fs : FS) (s : VibeEngine.VibeSnapshot)
    (hs : VibeEngine.wfVibe s = true) (hemp : orEmpty fs.activeContext = []) :
    VibeEngine.capture today fs s = { fs with activeContext := .present (canonAC [s]) } := by
  unfold VibeEngine.capture
  rw [hemp]
  simp only [upsert_empty s, parse_canon [s] (by simp) (by simpa [wfList] using hs)]
  simp [VibeEngine.MAX_ACTIVE_VIBES]

theorem capture_canon (today : Str) (fs : FS) (ss : List VibeEngine.VibeSnapshot)
    (hac : fs.activeContext = .present (canonAC ss)) (hne : ss ≠ [])
    (hwf : wfList ss = true) (s : VibeEngine.VibeSnapshot)
    (hs : VibeEngine.wfVibe s = true) (hlen : ss.length + 1 ≤ 10) :
    VibeEngine.capture today fs s
      = { fs with activeContext := .present (canonAC (ss ++ [s])) } := by
  have hwf2 : wfList (ss ++ [s]) = true := by
    apply List.all_eq_true.mpr
    intro x hx
    rcases List.mem_append.mp hx with h1 | h1
    · exact List.all_eq_true.mp hwf x h1
    · rw [List.mem_singleton.mp h1]
      exact hs
  unfold VibeEngine.capture
  rw [hac]
  simp only [orEmpty, upsert_canon ss hne hwf s hs, parse_canon (ss ++ [s]) (by simp) hwf2]
  have hnogt : ¬ (((ss ++ [s]).map VibeEngine.rt).length > VibeEngine.MAX_ACTIVE_VIBES) := by
    simp only [List.length_map, List.length_append, List.length_singleton,
      VibeEngine.MAX_ACTIVE_VIBES]
    omega
  rw [if_neg hnogt]

theorem archive_canon (today : Str) (fs : FS) (us : List VibeEngine.VibeSnapshot)
    (hac : fs.activeContext = .present (canonAC us)) (hwf : wfList us = true)
    (hlen : us.length = 11) (hdi : lookupFile fs.diary today = .absent) :
    VibeEngine.archive today fs
      = (6,
         { fs with
             activeContext := .present (canonAC ((us.map VibeEngine.rt).drop 6)),
             diary := setAssoc fs.diary today (.present
               ((("# 心智日记 ".toList) ++ today ++ ("\n\n".toList)) ++
                (("\n### Archived Vibes\n\n".toList) ++
                 canonLines ((us.map VibeEngine.rt).take 6) ++
                 ("\n\n---\n".toList)))) }) := by
  have hne : us ≠ [] := by
    intro he
    rw [he] at hlen
    simp at hlen
  have hwfd : wfList ((us.map VibeEngine.rt).drop 6) = true :=
    wfList_sub (us.map VibeEngine.rt) _ (wfList_map_rt us hwf)
      (fun x hx => List.mem_of_mem_drop hx)
  have hnd : ('$' : Char) ∉ canonLines ((us.map VibeEngine.rt).drop 6) :=
    canonLines_no_dollar _ hwfd
  have hno : ¬ ((us.map VibeEngine.rt).length ≤ VibeEngine.MAX_ACTIVE_VIBES / 2) := by
    rw [List.length_map, hlen]
    simp [VibeEngine.MAX_ACTIVE_VIBES]
  unfold VibeEngine.archive
  rw [hac]
  simp only [parse_canon us hne hwf, hdi]
  rw [if_neg hno]
  have hsub : (us.map VibeEngine.rt).length - VibeEngine.MAX_ACTIVE_VIBES / 2 = 6 := by
    rw [List.length_map, hlen]
    rfl
  rw [hsub]
  rw [show VibeEngine.replaceSection (canonAC us) VibeEngine.VIBE_SECTION
        (List.intercalate ("\n".toList)
          (((us.map VibeEngine.rt).drop 6).map VibeEngine.formatVibeLine))
      = VibeEngine.replaceSection (canonAC us) VibeEngine.VIBE_SECTION
        (canonLines ((us.map VibeEngine.rt).drop 6)) from rfl]
  rw [replace_canon us hne hwf _ hnd]
  have hlen6 : ((us.map VibeEngine.rt).take 6).length = 6 := by
    rw [List.length_take, List.length_map, hlen]
    omega
  rw [canonAC_decomp]
  simp only [orEmpty, List.isEmpty_nil, if_true, List.append_nil, hlen6]
  rfl

theorem capture_overflow (today : Str) (fs : FS) (ss : List VibeEngine.VibeSnapshot)
    (hac : fs.activeContext = .present (canonAC ss)) (hne : ss ≠ [])
    (hwf : wfList ss = true) (s : VibeEngine.VibeSnapshot)
    (hs : VibeEngine.wfVibe s = true) (hlen : ss.length = 10)
    (hdi : lookupFile fs.diary today = .absent) :
    VibeEngine.capture today fs s
      = { fs with
          activeContext := .present (canonAC ((((ss ++ [s]).map VibeEngine.rt)).drop 6)),
          diary := setAssoc fs.diary today (.present
            ((("# 心智日记 ".toList) ++ today ++ ("\n\n".toList)) ++
             (("\n### Archived Vibes\n\n".toList) ++
              canonLines (((ss ++ [s]).map VibeEngine.rt).take 6) ++
              ("\n\n---\n".toList)))) } := by
  have hwf2 : wfList (ss ++ [s]) = true := by
    apply List.all_eq_true.mpr
    intro x hx
    rcases List.mem_append.mp hx with h1 | h1
    · exact List.all_eq_true.mp hwf x h1
    · rw [List.mem_singleton.mp h1]
      exact hs
  have hlen2 : (ss ++ [s]).length = 11 := by
    simp [hlen]
  unfold VibeEngine.capture
  rw [hac]
  simp only [orEmpty, upsert_canon ss hne hwf s hs, parse_canon (ss ++ [s]) (by simp) hwf2]
  have hgt : ((ss ++ [s]).map VibeEngine.rt).length > VibeEngine.MAX_ACTIVE_VIBES := by
    rw [List.length_map, hlen2]
    simp [VibeEngine.MAX_ACTIVE_VIBES]
  rw [if_pos hgt]
  rw [archive_canon today { fs with activeContext := .present (canonAC (ss ++ [s])) }
    (ss ++ [s]) rfl hwf2 hlen2 hdi]

theorem captureAll_snoc (today : Str) (fs : FS) (ts : List VibeEngine.VibeSnapshot)
    (s : VibeEngine.VibeSnapshot) :
    captureAll today fs (ts ++ [s]) = VibeEngine.capture today (captureAll today fs ts) s := by
  unfold captureAll
  rw [List.foldl_append]
  rfl

theorem captureAll_phase1 (today : Str) (fs0 : FS) (hemp : orEmpty fs0.activeContext = []) :
    ∀ ts : List VibeEngine.VibeSnapshot, wfList ts = true → ts ≠ [] → ts.length ≤ 10 →
    captureAll today fs0 ts = { fs0 with activeContext := .present (canonAC ts) } := by
  intro ts
  induction ts using List.reverseRecOn with
  | nil =>
    intro _ hne _
    exact absurd rfl hne
  | append_singleton ts s ih =>
    intro hwf hne hlen
    have hwfs : VibeEngine.wfVibe s = true :=
      List.all_eq_true.mp hwf s (by simp)
    have hwft : wfList ts = true := by
      apply List.all_eq_true.mpr
      intro x hx
      exact List.all_eq_true.mp hwf x (by simp [hx])
    rw [captureAll_snoc]
    cases hts : ts with
    | nil =>
      rw [hts] at *
      show VibeEngine.capture today (captureAll today fs0 []) s = _
      rw [show captureAll today fs0 [] = fs0 from rfl]
      rw [capture_start today fs0 s hwfs hemp]
      rfl
    | cons a as =>
      rw [← hts]
      have hne2 : ts ≠ [] := by rw [hts]; simp
      have hlen2 : ts.length ≤ 10 := by
        have : (ts ++ [s]).length = ts.length + 1 := by simp
        omega
      rw [ih hwft hne2 hlen2]
      have hlen3 : ts.length + 1 ≤ 10 := by
        have : (ts ++ [s]).length = ts.length + 1 := by simp
        omega
      rw [capture_canon today _ ts rfl hne2 hwft s hwfs hlen3]

theorem captureAll_twelve (today : Str) (fs0 : FS) (ss : List VibeEngine.VibeSnapshot)
    (hlen : ss.length = 12) (hwf : wfList ss = true)
    (hac : fs0.activeContext = .absent) (hdi : lookupFile fs0.diary today = .absent) :
    captureAll today fs0 ss
      = { fs0 with
          activeContext := .present
            (canonAC (((ss.take 11).drop 6).map VibeEngine.rt ++ ss.drop 11)),
          diary := setAssoc fs0.diary today (.present
            ((("# 心智日记 ".toList) ++ today ++ ("\n\n".toList)) ++
             (("\n### Archived Vibes\n\n".toList) ++ canonLines (ss.take 6) ++
              ("\n\n---\n".toList)))) } := by
  have hwfx : ∀ z ∈ ss, VibeEngine.wfVibe z = true := List.all_eq_true.mp hwf
  obtain ⟨x, y, hxy⟩ : ∃ x y, ss.drop 10 = [x, y] := by
    have h2 : (ss.drop 10).length = 2 := by
      rw [List.length_drop, hlen]
    cases hd : ss.drop 10 with
    | nil => rw [hd] at h2; simp at h2
    | cons u rest =>
      cases hr : rest with
      | nil => rw [hd, hr] at h2; simp at h2
      | cons v rest2 =>
        cases hr2 : rest2 with
        | nil => exact ⟨u, v, by simp [hd, hr, hr2]⟩
        | cons w rest3 => rw [hd, hr, hr2] at h2; simp at h2
  have hsplit : ss = ss.take 10 ++ [x] ++ [y] := by
    have hta := List.take_append_drop 10 ss
    rw [hxy] at hta
    rw [List.append_assoc]
    exact hta.symm
  have hlen10 : (ss.take 10).length = 10 := by
    rw [List.length_take, hlen]
    omega
  have hwf10 : wfList (ss.take 10) = true :=
    wfList_sub ss _ hwf (fun z hz => List.mem_of_mem_take hz)
  have hwx : VibeEngine.wfVibe x = true := by
    apply hwfx
    rw [hsplit]
    simp
  have hwy : VibeEngine.wfVibe y = true := by
    apply hwfx
    rw [hsplit]
    simp
  have hne10 : ss.take 10 ≠ [] := by
    intro he
    rw [he] at hlen10
    simp at hlen10
  have hemp : orEmpty fs0.activeContext = [] := by rw [hac]; rfl
  have h11 : ss.take 11 = ss.take 10 ++ [x] := by
    rw [show (11 : Nat) = 10 + 1 from rfl, List.take_add, hxy]
    rfl
  have hdrop11 : ss.drop 11 = [y] := by
    have : ss.drop 11 = (ss.drop 10).drop 1 := by
      rw [List.drop_drop]
    rw [this, hxy]
    rfl
  have hwf11 : wfList (ss.take 10 ++ [x]) = true := by
    rw [← h11]
    exact wfList_sub ss _ hwf (fun z hz => List.mem_of_mem_take hz)
  have hlen11 : (ss.take 10 ++ [x]).length = 11 := by
    simp [hlen10]
  -- the five snapshots kept by the archive of the 11th capture
  have hwf5 : wfList (((ss.take 10 ++ [x]).map VibeEngine.rt).drop 6) = true :=
    wfList_sub _ _ (wfList_map_rt _ hwf11) (fun z hz => List.mem_of_mem_drop hz)
  have hlen5 : (((ss.take 10 ++ [x]).map VibeEngine.rt).drop 6).length = 5 := by
    rw [List.length_drop, List.length_map, hlen11]
  have hne5 : ((ss.take 10 ++ [x]).map VibeEngine.rt).drop 6 ≠ [] := by
    intro he
    rw [he] at hlen5
    simp at hlen5
  conv_lhs => rw [hsplit]
  rw [captureAll_snoc, captureAll_snoc]
  rw [captureAll_phase1 today fs0 hemp (ss.take 10) hwf10 hne10 (by omega)]
  rw [capture_overflow today { fs0 with activeContext := .present (canonAC (ss.take 10)) }
    (ss.take 10) rfl hne10 hwf10 x hwx hlen10 hdi]
  rw [capture_canon today
    { fs0 with
        activeContext := .present (canonAC (((ss.take 10 ++ [x]).map VibeEngine.rt).drop 6)),
        diary := setAssoc fs0.diary today (.present
          ((("# 心智日记 ".toList) ++ today ++ ("

".toList)) ++
           (("
### Archived Vibes

".toList) ++
            canonLines (((ss.take 10 ++ [x]).map VibeEngine.rt).take 6) ++
            ("

---
".toList)))) }
    (((ss.take 10 ++ [x]).map VibeEngine.rt).drop 6) rfl hne5 hwf5
    y hwy (by rw [hlen5]; omega)]
  have hACeq : ((ss.take 10 ++ [x]).map VibeEngine.rt).drop 6 ++ [y]
      = ((ss.take 11).drop 6).map VibeEngine.rt ++ ss.drop 11 := by
    rw [hdrop11, h11, List.map_drop]
  have hdceq : canonLines (((ss.take 10 ++ [x]).map VibeEngine.rt).take 6)
      = canonLines (ss.take 6) := by
    rw [← List.map_take]
    rw [List.take_append_of_le_length (by rw [hlen10]; omega)]
    rw [List.take_take]
    rw [show (6 ⊓ 10) = 6 from rfl]
    exact canonLines_map_rt _ (wfList_sub ss _ hwf (fun z hz => List.mem_of_mem_take hz))
  rw [hACeq, hdceq]

theorem containsSub_at (p : Str) (hp : p ≠ []) :
    ∀ u v : Str, containsSub p (u ++ p ++ v) = true := by
  intro u
  induction u with
  | nil =>
    intro v
    unfold containsSub
    rw [List.nil_append, findSub_at_zero p v hp]
    rfl
  | cons c u ih =>
    intro v
    unfold containsSub at *
    show (findSub p (c :: (u ++ p ++ v))).isSome = true
    by_cases hpre : p.isPrefixOf (c :: (u ++ p ++ v)) = true
    · have hz : findSub p (c :: (u ++ p ++ v)) = some 0 := by
        rw [findSub.eq_def]
        simp only [hpre]
        simp
      rw [hz]
      rfl
    · simp only [Bool.not_eq_true] at hpre
      rw [findSub_cons_skip p c _ hpre]
      rcases hf : findSub p (u ++ p ++ v) with _ | i
      · have hcontra := ih v
        rw [hf] at hcontra
        simp at hcontra
      · rfl

theorem containsSub_of_infix (p s : Str) (hp : p ≠ []) (h : p <:+: s) :
    containsSub p s = true := by
  obtain ⟨u, v, rfl⟩ := h
  exact containsSub_at p hp u v

theorem fmt_infix_canonLines (p : VibeEngine.VibeSnapshot) :
    ∀ ts : List VibeEngine.VibeSnapshot, p ∈ ts →
    VibeEngine.formatVibeLine p <:+: canonLines ts := by
  intro ts
  induction ts with
  | nil =>
    intro h
    simp at h
  | cons a as ih =>
    intro hmem
    rcases List.mem_cons.mp hmem with rfl | h2
    · cases as with
      | nil =>
        rw [canonLines_single]
      | cons b bs =>
        rw [canonLines_cons_cons]
        exact ((List.prefix_append _ _).trans (List.prefix_append _ _)).isInfix
    · cases as with
      | nil => simp at h2
      | cons b bs =>
        rw [canonLines_cons_cons]
        exact (ih h2).trans (List.suffix_append _ _).isInfix

theorem jsSliceLast_all {α : Type} (l : List α) (n : Nat) (h : l.length ≤ n) (hn : n ≠ 0) :
    jsSliceLast l n = l := by
  unfold jsSliceLast
  rw [if_neg hn]
  have h0 : l.length - n = 0 := by omega
  rw [h0, List.drop_zero]

theorem drop_take_drop {α : Type} (ss : List α) :
    (ss.take 11).drop 6 ++ ss.drop 11 = ss.drop 6 := by
  rw [List.drop_take]
  rw [show (11 : Nat) = 6 + 5 from rfl, ← List.drop_drop]
  rw [show (11 - 6 : Nat) = 5 from rfl]
  exact List.take_append_drop 5 (ss.drop 6)

theorem readRecent_canon (fs : FS) (L : List VibeEngine.VibeSnapshot)
    (hac : fs.activeContext = .present (canonAC L)) (hne : L ≠ []) (hwf : wfList L = true)
    (hlen : L.length ≤ 20) :
    VibeEngine.readRecent fs { limit := some 20, filter := none } = L.map VibeEngine.rt := by
  unfold VibeEngine.readRecent
  rw [hac]
  simp only [parse_canon L hne hwf, Option.getD_some]
  rw [show optTruthy none = false from rfl]
  simp only [Bool.false_eq_true, if_false]
  exact jsSliceLast_all _ 20 (by rw [List.length_map]; exact hlen) (by decide)

theorem captureAll_eleven (today : Str) (fs0 : FS) (ss : List VibeEngine.VibeSnapshot)
    (hlen : ss.length = 12) (hwf : wfList ss = true)
    (hac : fs0.activeContext = .absent) (hdi : lookupFile fs0.diary today = .absent) :
    captureAll today fs0 (ss.take 11)
      = { fs0 with
          activeContext := .present (canonAC (((ss.take 11).drop 6).map VibeEngine.rt)),
          diary := setAssoc fs0.diary today (.present
            ((("# 心智日记 ".toList) ++ today ++ ("\n\n".toList)) ++
             (("\n### Archived Vibes\n\n".toList) ++ canonLines (ss.take 6) ++
              ("\n\n---\n".toList)))) } := by
  have hwfx : ∀ z ∈ ss, VibeEngine.wfVibe z = true := List.all_eq_true.mp hwf
  obtain ⟨x, hx⟩ : ∃ x, (ss.drop 10).take 1 = [x] := by
    have h2 : ((ss.drop 10).take 1).length = 1 := by
      rw [List.length_take, List.length_drop, hlen]
      omega
    cases hd : (ss.drop 10).take 1 with
    | nil => rw [hd] at h2; simp at h2
    | cons u rest =>
      cases hr : rest with
      | nil => exact ⟨u, by simp [hd, hr]⟩
      | cons v rest2 => rw [hd, hr] at h2; simp at h2
  have h11 : ss.take 11 = ss.take 10 ++ [x] := by
    rw [show (11 : Nat) = 10 + 1 from rfl, List.take_add, hx]
  have hlen10 : (ss.take 10).length = 10 := by
    rw [List.length_take, hlen]
    omega
  have hwf10 : wfList (ss.take 10) = true :=
    wfList_sub ss _ hwf (fun z hz => List.mem_of_mem_take hz)
  have hwx : VibeEngine.wfVibe x = true := by
    apply hwfx
    apply List.mem_of_mem_take (n := 11)
    rw [h11]
    simp
  have hne10 : ss.take 10 ≠ [] := by
    intro he
    rw [he] at hlen10
    simp at hlen10
  have hemp : orEmpty fs0.activeContext = [] := by rw [hac]; rfl
  rw [h11, captureAll_snoc]
  rw [captureAll_phase1 today fs0 hemp (ss.take 10) hwf10 hne10 (by omega)]
  rw [capture_overflow today { fs0 with activeContext := .present (canonAC (ss.take 10)) }
    (ss.take 10) rfl hne10 hwf10 x hwx hlen10 hdi]
  have hACeq : ((ss.take 10 ++ [x]).map VibeEngine.rt).drop 6
      = ((ss.take 10 ++ [x]).drop 6).map VibeEngine.rt := by
    rw [List.map_drop]
  have hdceq : canonLines (((ss.take 10 ++ [x]).map VibeEngine.rt).take 6)
      = canonLines (ss.take 6) := by
    rw [← List.map_take]
    rw [List.take_append_of_le_length (by rw [hlen10]; omega)]
    rw [List.take_take]
    rw [show (6 ⊓ 10) = 6 from rfl]
    exact canonLines_map_rt _ (wfList_sub ss _ hwf (fun z hz => List.mem_of_mem_take hz))
  rw [hACeq, hdceq]

/-- C1 (amended): starting from an empty Active Context and no Diary file for
the day, after 12 sequential captures of parse-safe snapshots (ceiling 10,
keep count 5), readRecent with limit 20 returns exactly the minute-truncated
images of the snapshots from the seventh onward — six entries, so at most 10,
with all summaries, in particular the 5 most recent, preserved in
oldest-first order; the earliest SIX (not seven) formatted vibe lines are in
the Diary file of the day verbatim; and after every capture the parsed vibe
count of the Active Context never exceeds 10. -/
theorem claim_C1 (today : Str) (fs0 : FS) (ss : List VibeEngine.VibeSnapshot)
    (hlen : ss.length = 12) (hwf : wfList ss = true)
    (hac : fs0.activeContext = .absent) (hdi : lookupFile fs0.diary today = .absent) :
    VibeEngine.readRecent (captureAll today fs0 ss) { limit := some 20, filter := none }
      = (ss.drop 6).map VibeEngine.rt ∧
    (VibeEngine.readRecent (captureAll today fs0 ss)
      { limit := some 20, filter := none }).length ≤ 10 ∧
    (VibeEngine.readRecent (captureAll today fs0 ss)
        { limit := some 20, filter := none }).map (fun v => v.summary)
      = (ss.drop 6).map (fun v => v.summary) ∧
    (∀ p ∈ ss.take 6, containsSub (VibeEngine.formatVibeLine p)
      (orEmpty (lookupFile (captureAll today fs0 ss).diary today)) = true) ∧
    (∀ k, k ≤ 12 →
      (VibeEngine.parseVibesFromContent
        (orEmpty (captureAll today fs0 (ss.take k)).activeContext)).length ≤ 10) := by
  have hemp : orEmpty fs0.activeContext = [] := by rw [hac]; rfl
  have hfinal := captureAll_twelve today fs0 ss hlen hwf hac hdi
  have hwfA : wfList ((ss.take 11).drop 6) = true :=
    wfList_sub ss _ hwf (fun z hz => List.mem_of_mem_take (List.mem_of_mem_drop hz))
  have hwfD : wfList (ss.drop 11) = true :=
    wfList_sub ss _ hwf (fun z hz => List.mem_of_mem_drop hz)
  have hLwf : wfList (((ss.take 11).drop 6).map VibeEngine.rt ++ ss.drop 11) = true := by
    apply List.all_eq_true.mpr
    intro z hz
    rcases List.mem_append.mp hz with h1 | h1
    · exact List.all_eq_true.mp (wfList_map_rt _ hwfA) z h1
    · exact List.all_eq_true.mp hwfD z h1
  have hLlen : (((ss.take 11).drop 6).map VibeEngine.rt ++ ss.drop 11).length = 6 := by
    simp only [List.length_append, List.length_map, List.length_drop, List.length_take, hlen]
    omega
  have hLne : ((ss.take 11).drop 6).map VibeEngine.rt ++ ss.drop 11 ≠ [] := by
    intro he
    rw [he] at hLlen
    simp at hLlen
  have hmaprt : ((((ss.take 11).drop 6).map VibeEngine.rt ++ ss.drop 11)).map VibeEngine.rt
      = (ss.drop 6).map VibeEngine.rt := by
    rw [List.map_append, map_rt_rt _ hwfA, ← List.map_append, drop_take_drop]
  have hmain : VibeEngine.readRecent (captureAll today fs0 ss)
      { limit := some 20, filter := none } = (ss.drop 6).map VibeEngine.rt := by
    rw [hfinal]
    rw [readRecent_canon _ (((ss.take 11).drop 6).map VibeEngine.rt ++ ss.drop 11)
      rfl hLne hLwf (by rw [hLlen]; omega)]
    exact hmaprt
  refine ⟨hmain, ?_, ?_, ?_, ?_⟩
  · rw [hmain]
    simp only [List.length_map, List.length_drop, hlen]
    omega
  · rw [hmain, List.map_map]
    rfl
  · intro p hp
    have hwp : VibeEngine.wfVibe p = true :=
      List.all_eq_true.mp hwf p (List.mem_of_mem_take hp)
    rw [hfinal]
    show containsSub (VibeEngine.formatVibeLine p)
      (orEmpty (lookupFile (setAssoc fs0.diary today (.present
        ((("# 心智日记 ".toList) ++ today ++ ("\n\n".toList)) ++
         (("\n### Archived Vibes\n\n".toList) ++ canonLines (ss.take 6) ++
          ("\n\n---\n".toList))))) today)) = true
    rw [lookup_setAssoc_self]
    apply containsSub_of_infix _ _ (fmt_line_facts p hwp).1
    exact ((fmt_infix_canonLines p _ hp).trans
      (List.infix_append _ _ _)).trans (List.suffix_append _ _).isInfix
  · intro k hk
    have hlenk : (ss.take k).length = k := by
      rw [List.length_take]
      omega
    by_cases hk0 : k = 0
    · subst hk0
      rw [show ss.take 0 = [] from rfl]
      rw [show captureAll today fs0 [] = fs0 from rfl, hac]
      rw [show orEmpty FileState.absent = [] from rfl]
      rw [show VibeEngine.parseVibesFromContent [] = [] from rfl]
      simp
    · by_cases hk10 : k ≤ 10
      · have hwfk : wfList (ss.take k) = true :=
          wfList_sub ss _ hwf (fun z hz => List.mem_of_mem_take hz)
        have hkne : ss.take k ≠ [] := by
          intro he
          rw [he] at hlenk
          simp at hlenk
          omega
        rw [captureAll_phase1 today fs0 hemp (ss.take k) hwfk hkne (by omega)]
        show (VibeEngine.parseVibesFromContent (orEmpty (.present (canonAC (ss.take k))))).length ≤ 10
        rw [show orEmpty (FileState.present (canonAC (ss.take k))) = canonAC (ss.take k) from rfl]
        rw [parse_canon (ss.take k) hkne hwfk]
        rw [List.length_map, hlenk]
        omega
      · by_cases hk11 : k = 11
        · subst hk11
          rw [captureAll_eleven today fs0 ss hlen hwf hac hdi]
          have hwfA2 : wfList (((ss.take 11).drop 6).map VibeEngine.rt) = true :=
            wfList_map_rt _ hwfA
          have hlenA : (((ss.take 11).drop 6).map VibeEngine.rt).length = 5 := by
            simp only [List.length_map, List.length_drop, List.length_take, hlen]
            omega
          have hneA : ((ss.take 11).drop 6).map VibeEngine.rt ≠ [] := by
            intro he
            rw [he] at hlenA
            simp at hlenA
          show (VibeEngine.parseVibesFromContent
            (orEmpty (.present (canonAC (((ss.take 11).drop 6).map VibeEngine.rt))))).length ≤ 10
          rw [show orEmpty (FileState.present (canonAC (((ss.take 11).drop 6).map VibeEngine.rt)))
              = canonAC (((ss.take 11).drop 6).map VibeEngine.rt) from rfl]
          rw [parse_canon _ hneA hwfA2, List.length_map, hlenA]
          omega
        · have hk12 : k = 12 := by omega
          subst hk12
          rw [List.take_of_length_le (by omega)]
          rw [hfinal]
          show (VibeEngine.parseVibesFromContent
            (orEmpty (.present (canonAC (((ss.take 11).drop 6).map VibeEngine.rt ++
              ss.drop 11))))).length ≤ 10
          rw [show orEmpty (FileState.present (canonAC (((ss.take 11).drop 6).map VibeEngine.rt ++
              ss.drop 11))) = canonAC (((ss.take 11).drop 6).map VibeEngine.rt ++ ss.drop 11)
            from rfl]
          rw [parse_canon _ hLne hLwf, List.length_map, hLlen]
          omega

/-- Counterexample to C1 as stated: with twelve concrete captures the Diary
file of the day holds the earliest six vibe lines, but not the seventh — the
archive moves vibes.length minus keep-count entries, which is six of twelve,
not seven. -/
theorem claim_C1_counterexample :
    containsSub (VibeEngine.formatVibeLine (Examples.cSnap 6))
      (orEmpty (lookupFile Examples.fsAfter12.diary Examples.dToday)) = false ∧
    containsSub (VibeEngine.formatVibeLine (Examples.cSnap 5))
      (orEmpty (lookupFile Examples.fsAfter12.diary Examples.dToday)) = true := by
  decide

/-- Witness for C1 at the twelve concrete snapshots. -/
theorem claim_C1_witness :
    Examples.cList.length = 12 ∧ wfList Examples.cList = true ∧
    VibeEngine.readRecent (captureAll Examples.dToday Examples.emptyFS Examples.cList)
      { limit := some 20, filter := none } = (Examples.cList.drop 6).map VibeEngine.rt :=
  ⟨by decide, by decide,
    (claim_C1 Examples.dToday Examples.emptyFS Examples.cList (by decide) (by decide) rfl
      (by decide)).1⟩

/-- C9 (amended): for a parse-safe snapshot (nonempty single-line
trim-invariant summary without the trigger marker, nonempty non-whitespace
vibe tag, ISO-shaped timestamp, such trigger when present), capture into an
empty Active Context followed by readRecent returns exactly one snapshot,
with the same vibe tag, summary and trigger, and with the timestamp equal to
the first 16 characters of the original with the seconds-and-milliseconds
suffix zeroed; the summary is preserved only because parse-safety makes it
trim-invariant, as the parser re-trims it. -/
theorem claim_C9 (today : Str) (fs : FS) (s : VibeEngine.VibeSnapshot)
    (hs : VibeEngine.wfVibe s = true) (hemp : orEmpty fs.activeContext = []) :
    VibeEngine.readRecent (VibeEngine.capture today fs s) { limit := none, filter := none }
      = [VibeEngine.rt s] ∧
    (VibeEngine.rt s).vibe = s.vibe ∧
    (VibeEngine.rt s).summary = s.summary ∧
    (VibeEngine.rt s).trigger = s.trigger ∧
    (VibeEngine.rt s).timestamp = s.timestamp.take 16 ++ (":00.000Z".toList) := by
  refine ⟨?_, rfl, rfl, rfl, rfl⟩
  rw [capture_start today fs s hs hemp]
  unfold VibeEngine.readRecent
  simp only [parse_canon [s] (by simp) (by simpa [wfList] using hs)]
  rw [show optTruthy none = false from rfl]
  simp only [Bool.false_eq_true, if_false, Option.getD_none]
  exact jsSliceLast_all _ 5 (by simp) (by decide)

/-- Counterexample to C9 as stated: a snapshot whose summary is the single
line hi-then-space, which contains no trigger marker, comes back with the
summary trimmed to hi — the summary is not preserved verbatim, because the
parser trims each matched line and group. -/
theorem claim_C9_counterexample :
    (VibeEngine.readRecent (VibeEngine.capture Examples.dToday Examples.emptyFS Examples.snapTrim)
        Examples.defaultVibeRead).map (fun v => v.summary) = [("hi".toList)] ∧
    Examples.snapTrim.summary = ("hi ".toList) ∧
    ("hi".toList) ≠ ("hi ".toList) := by
  decide

/-- Witness for C9 at a concrete parse-safe snapshot with a trigger. -/
theorem claim_C9_witness :
    VibeEngine.wfVibe Examples.snapGood = true ∧
    VibeEngine.readRecent (VibeEngine.capture Examples.dToday Examples.emptyFS Examples.snapGood)
      { limit := none, filter := none } = [VibeEngine.rt Examples.snapGood] :=
  ⟨by decide,
    (claim_C9 Examples.dToday Examples.emptyFS Examples.snapGood (by decide) rfl).1⟩

/-! Search lemmas. -/

theorem infix_of_containsSub (t : Str) :
    ∀ s, containsSub t s = true → t <:+: s := by
  intro s
  induction s with
  | nil =>
    intro h
    cases t with
    | nil => exact List.infix_refl _
    | cons c cs =>
      unfold containsSub findSub at h
      simp [List.isEmpty] at h
  | cons c cs ih =>
    intro h
    by_cases hpre : t.isPrefixOf (c :: cs) = true
    · exact (List.isPrefixOf_iff_prefix.mp hpre).isInfix
    · simp only [Bool.not_eq_true] at hpre
      unfold containsSub at h
      rw [findSub_cons_skip t c cs hpre] at h
      rcases hf : findSub t cs with _ | i
      · rw [hf] at h
        simp at h
      · have h2 : containsSub t cs = true := by
          unfold containsSub
          rw [hf]
          rfl
        exact (ih h2).trans (List.suffix_cons c cs).isInfix

theorem containsSub_append_nl (t p : Str) (ht : t ≠ []) (hnl : ('\n' : Char) ∉ t) :
    containsSub t (p ++ ("\n".toList)) = containsSub t p := by
  cases hcp : containsSub t p with
  | true =>
    have hinf := infix_of_containsSub t p hcp
    exact containsSub_of_infix _ _ ht (hinf.trans (List.prefix_append _ _).isInfix)
  | false =>
    cases hca : containsSub t (p ++ ("\n".toList)) with
    | false => rfl
    | true =>
      exfalso
      obtain ⟨u, v, huv⟩ := infix_of_containsSub t _ hca
      rcases List.eq_nil_or_concat v with rfl | ⟨v2, a, rfl⟩
      · rw [List.append_nil] at huv
        obtain ⟨t2, b, rfl⟩ := List.eq_nil_or_concat t |>.resolve_left ht
        simp only [List.concat_eq_append] at huv hnl
        have hlast := congrArg List.getLast? huv
        rw [← List.append_assoc] at hlast
        rw [List.getLast?_append_of_ne_nil _ (by simp)] at hlast
        rw [List.getLast?_append_of_ne_nil _ (by simp)] at hlast
        simp only [List.getLast?_singleton] at hlast
        have hb : b = '\n' := by simpa using hlast
        subst hb
        exact hnl (by simp)
      · simp only [List.concat_eq_append] at huv
        have hlast := congrArg List.getLast? huv
        rw [show u ++ t ++ (v2 ++ [a]) = (u ++ t ++ v2) ++ [a] from by simp] at hlast
        rw [List.getLast?_append_of_ne_nil _ (by simp)] at hlast
        rw [List.getLast?_append_of_ne_nil _ (by simp)] at hlast
        simp only [List.getLast?_singleton] at hlast
        have ha : a = '\n' := by simpa using hlast
        subst ha
        have hp : u ++ t ++ v2 = p := by
          have h3 : (u ++ t ++ v2) ++ [('\n' : Char)] = p ++ [('\n' : Char)] := by
            simpa [List.append_assoc] using huv
          have h4 := congrArg List.dropLast h3
          simpa using h4
        have : containsSub t p = true :=
          containsSub_of_infix t p ht ⟨u, v2, hp⟩
        rw [this] at hcp
        exact absurd hcp (by simp)

theorem jsTrim_append_nl (p : Str) (h : jsTrim p = p) (hne : p ≠ []) :
    jsTrim (p ++ ("\n".toList)) = p := by
  cases hp : p with
  | nil => exact absurd hp hne
  | cons a as =>
    rw [← hp]
    have hh : ∀ c, p.head? = some c → jsWs c = false := head_not_ws_of_trim p h
    have hl : ∀ c, p.getLast? = some c → jsWs c = false := getLast_not_ws_of_trim p h
    have ha : jsWs a = false := by
      apply hh
      rw [hp]
      rfl
    unfold jsTrim
    have h1 : List.dropWhile jsWs (p ++ ("\n".toList)) = p ++ ("\n".toList) := by
      rw [hp, List.cons_append, List.dropWhile_cons, ha]
      simp
    rw [h1, show ("\n".toList) = ['\n'] from rfl, List.reverse_append]
    rw [show (['\n'] : Str).reverse = ['\n'] from rfl, List.singleton_append]
    rw [List.dropWhile_cons]
    simp only [show jsWs '\n' = true from rfl, if_true]
    cases hr : p.reverse with
    | nil => simp at hr; exact absurd hr hne
    | cons d ds =>
      have hdl : p.getLast? = some d := by
        rw [← List.head?_reverse, hr]
        rfl
      have hdw : jsWs d = false := hl d hdl
      rw [List.dropWhile_cons, hdw]
      simp only [Bool.false_eq_true, if_false]
      rw [← hr, List.reverse_reverse]

theorem toLower_nl : Char.toLower '\n' = '\n' := by decide

theorem scoreText_append_nl (terms : List Str) (p : Str)
    (hterms : ∀ t ∈ terms, t ≠ [] ∧ ('\n' : Char) ∉ t) :
    MemoryEngine.scoreText terms (p ++ ("\n".toList)) = MemoryEngine.scoreText terms p := by
  unfold MemoryEngine.scoreText
  have hlow : toLowerStr (p ++ ("\n".toList)) = toLowerStr p ++ ("\n".toList) := by
    unfold toLowerStr
    rw [List.map_append]
    rfl
  rw [hlow]
  have hfil : terms.filter (fun t => containsSub t (toLowerStr p ++ ("\n".toList)))
      = terms.filter (fun t => containsSub t (toLowerStr p)) := by
    apply List.filter_congr
    intro t htm
    exact containsSub_append_nl t (toLowerStr p) (hterms t htm).1 (hterms t htm).2
  simp only [hfil]

theorem splitNl_blankSep : ∀ ps : List Str, ps ≠ [] → (∀ p ∈ ps, ('\n' : Char) ∉ p) →
    splitNl (List.intercalate ("\n\n".toList) ps) = blankSep ps := by
  intro ps
  induction ps with
  | nil => intro h _; exact absurd rfl h
  | cons p rest ih =>
    intro _ hnl
    cases rest with
    | nil =>
      rw [intercalate_singleton, splitNl_single p (hnl p (by simp))]
      rfl
    | cons q rest2 =>
      rw [intercalate_cons _ _ _ (by simp)]
      rw [show p ++ ("\n\n".toList) ++ List.intercalate ("\n\n".toList) (q :: rest2)
          = p ++ ('\n' :: ([] ++ ('\n' :: List.intercalate ("\n\n".toList) (q :: rest2))))
        from by simp]
      rw [splitNl_line p _ (hnl p (by simp))]
      rw [splitNl_line [] _ (by simp)]
      rw [ih (by simp) (fun x hx => hnl x (by simp [hx]))]
      rfl

theorem searchFileLoop_para (terms : List Str) (minScore : Rat) (layer : Layer) (path : Str)
    (hterms : ∀ t ∈ terms, t ≠ [] ∧ ('\n' : Char) ∉ t) :
    ∀ ps : List Str, (∀ p ∈ ps, jsTrim p = p ∧ p ≠ []) →
    ∀ i : Nat,
    MemoryEngine.searchFileLoop terms minScore layer path (blankSep ps ++ [[]]) i i []
      = specSearchFile terms minScore layer path ps i := by
  have htn : (jsTrim ([] : Str)).isEmpty = true := rfl
  intro ps
  induction ps with
  | nil =>
    intro _ i
    show MemoryEngine.searchFileLoop terms minScore layer path [[]] i i [] = []
    simp only [MemoryEngine.searchFileLoop, htn, if_true, Bool.not_true, Bool.false_eq_true,
      if_false, List.nil_append, List.append_nil]
  | cons p rest ih =>
    intro hps i
    obtain ⟨hpt, hpne⟩ := hps p (by simp)
    have hpe0 : p.isEmpty = false := by
      cases hp2 : p with
      | nil => exact absurd hp2 hpne
      | cons a l => rfl
    have hpe : (jsTrim p).isEmpty = false := by rw [hpt]; exact hpe0
    have htrim := jsTrim_append_nl p hpt hpne
    have hscore := scoreText_append_nl terms p hterms
    have hpe2 : (jsTrim (p ++ ("\n".toList))).isEmpty = false := by
      rw [htrim]
      exact hpe0
    cases rest with
    | nil =>
      show MemoryEngine.searchFileLoop terms minScore layer path (p :: [[]]) i i [] = _
      simp only [MemoryEngine.searchFileLoop, specSearchFile, List.nil_append, hpe, htn, hpe2,
        htrim, hscore, hpt, hpe0, Bool.false_eq_true, if_false, if_true, Bool.not_false,
        Bool.not_true, List.append_nil]
    | cons q rest2 =>
      show MemoryEngine.searchFileLoop terms minScore layer path
        (p :: [] :: (blankSep (q :: rest2) ++ [[]])) i i [] = _
      simp only [MemoryEngine.searchFileLoop, specSearchFile, List.nil_append, hpe, htn, hpe2,
        htrim, hscore, hpt, hpe0, Bool.false_eq_true, if_false, if_true, Bool.not_false,
        Bool.not_true]
      rw [ih (fun x hx => hps x (by simp [hx])) (i + 2)]
      simp only [specSearchFile]

theorem searchFile_paragraphs (terms : List Str) (minScore : Rat) (layer : Layer) (path : Str)
    (ps : List Str) (hterms : ∀ t ∈ terms, t ≠ [] ∧ ('\n' : Char) ∉ t)
    (hps : ∀ p ∈ ps, jsTrim p = p ∧ p ≠ [] ∧ ('\n' : Char) ∉ p) (hne : ps ≠ []) :
    MemoryEngine.searchFile terms minScore layer path
      (.present (List.intercalate ("\n\n".toList) ps))
      = specSearchFile terms minScore layer path ps 0 := by
  show MemoryEngine.searchFileLoop terms minScore layer path
    (splitNl (List.intercalate ("\n\n".toList) ps) ++ [[]]) 0 0 [] = _
  rw [splitNl_blankSep ps hne (fun p hp => (hps p hp).2.2)]
  exact searchFileLoop_para terms minScore layer path hterms ps
    (fun p hp => ⟨(hps p hp).1, (hps p hp).2.1⟩) 0

theorem mem_insertScored (x : MemoryEngine.SearchResult) :
    ∀ l a, a ∈ MemoryEngine.insertScored x l ↔ a = x ∨ a ∈ l := by
  intro l
  induction l with
  | nil =>
    intro a
    simp [MemoryEngine.insertScored]
  | cons y ys ih =>
    intro a
    unfold MemoryEngine.insertScored
    by_cases h : x.score ≤ y.score
    · rw [if_pos h]
      simp only [List.mem_cons, ih]
      tauto
    · rw [if_neg h]
      simp only [List.mem_cons]

theorem insertScored_sorted (x : MemoryEngine.SearchResult) :
    ∀ l : List MemoryEngine.SearchResult,
    l.Pairwise (fun a b => b.score ≤ a.score) →
    (MemoryEngine.insertScored x l).Pairwise (fun a b => b.score ≤ a.score) := by
  intro l
  induction l with
  | nil =>
    intro _
    simp [MemoryEngine.insertScored]
  | cons y ys ih =>
    intro h
    rw [List.pairwise_cons] at h
    obtain ⟨hy, hys⟩ := h
    unfold MemoryEngine.insertScored
    by_cases hxy : x.score ≤ y.score
    · rw [if_pos hxy, List.pairwise_cons]
      refine ⟨?_, ih hys⟩
      intro a ha
      rcases (mem_insertScored x ys a).mp ha with rfl | hmem
      · exact hxy
      · exact hy a hmem
    · rw [if_neg hxy, List.pairwise_cons]
      refine ⟨?_, List.pairwise_cons.mpr ⟨hy, hys⟩⟩
      intro a ha
      rcases List.mem_cons.mp ha with rfl | hmem
      · exact le_of_not_le hxy
      · exact (hy a hmem).trans (le_of_not_le hxy)

theorem sortScoreDesc_sorted (l : List MemoryEngine.SearchResult) :
    (MemoryEngine.sortScoreDesc l).Pairwise (fun a b => b.score ≤ a.score) := by
  unfold MemoryEngine.sortScoreDesc
  suffices h : ∀ acc : List MemoryEngine.SearchResult,
      acc.Pairwise (fun a b => b.score ≤ a.score) →
      (List.foldl (fun acc x => MemoryEngine.insertScored x acc) acc l).Pairwise
        (fun a b => b.score ≤ a.score) by
    exact h [] (by simp)
  induction l with
  | nil =>
    intro acc hacc
    exact hacc
  | cons x xs ih =>
    intro acc hacc
    exact ih _ (insertScored_sorted x acc hacc)

/-- C7 (amended): search lower-cases and whitespace-splits the query into
terms longer than one character and returns the empty list when no such term
exists; each paragraph (run of non-blank lines separated by blank lines) of
a searched file is scored as the number of query terms — counted with
multiplicity, not distinct — occurring as substrings, over the number of
terms, kept when the score reaches the minimum (default one tenth), and the
final results are sorted by score descending and hold at most maxResults
(default 10) entries; for two distinct terms a paragraph containing both
scores 1 and a paragraph containing exactly one scores one half. -/
theorem claim_C7 :
    (∀ (fs : FS) (q : Str) (opts : MemoryEngine.SearchOptions),
      ((MemoryEngine.wsSegs (toLowerStr q)).filter (fun t => 1 < t.length)).isEmpty = true →
      MemoryEngine.search fs q opts = []) ∧
    (∀ (terms : List Str) (minScore : Rat) (layer : Layer) (path : Str) (ps : List Str),
      (∀ t ∈ terms, t ≠ [] ∧ ('\n' : Char) ∉ t) →
      (∀ p ∈ ps, jsTrim p = p ∧ p ≠ [] ∧ ('\n' : Char) ∉ p) → ps ≠ [] →
      MemoryEngine.searchFile terms minScore layer path
        (.present (List.intercalate ("\n\n".toList) ps))
        = specSearchFile terms minScore layer path ps 0) ∧
    (∀ (fs : FS) (q : Str) (opts : MemoryEngine.SearchOptions),
      (MemoryEngine.search fs q opts).Pairwise (fun a b => b.score ≤ a.score) ∧
      (MemoryEngine.search fs q opts).length ≤ opts.maxResults.getD 10) ∧
    (∀ (t1 t2 : Str) (p : Str),
      (containsSub t1 (toLowerStr p) = true → containsSub t2 (toLowerStr p) = true →
        MemoryEngine.scoreText [t1, t2] p = 1) ∧
      (containsSub t1 (toLowerStr p) = true → containsSub t2 (toLowerStr p) = false →
        MemoryEngine.scoreText [t1, t2] p = 1 / 2)) := by
  refine ⟨?_, ?_, ?_, ?_⟩
  · intro fs q opts h
    unfold MemoryEngine.search
    simp only [h, if_true]
  · intro terms minScore layer path ps hterms hps hne
    exact searchFile_paragraphs terms minScore layer path ps hterms hps hne
  · intro fs q opts
    unfold MemoryEngine.search
    by_cases h : ((MemoryEngine.wsSegs (toLowerStr q)).filter (fun t => 1 < t.length)).isEmpty = true
    · simp only [h, if_true]
      exact ⟨List.Pairwise.nil, by simp⟩
    · simp only [h, Bool.false_eq_true, if_false]
      constructor
      · exact List.Pairwise.sublist (List.take_sublist _ _) (sortScoreDesc_sorted _)
      · exact List.length_take_le _ _
  · intro t1 t2 p
    constructor
    · intro h1 h2
      unfold MemoryEngine.scoreText
      simp only [List.filter, h1, h2]
      norm_num
    · intro h1 h2
      unfold MemoryEngine.scoreText
      simp only [List.filter, h1, h2]
      norm_num

/-- Counterexample to C7 as stated: the duplicate two-term query aa aa
yields the term list aa, aa, and the code scores the paragraph aa by
counting matched terms with multiplicity — two of two, score 1 — while the
claimed distinct count gives one of two, score one half. -/
theorem claim_C7_counterexample :
    ((MemoryEngine.wsSegs (toLowerStr ("aa aa".toList))).filter (fun t => 1 < t.length))
      = (("aa".toList) :: ("aa".toList) :: []) ∧
    MemoryEngine.scoreText (("aa".toList) :: ("aa".toList) :: []) ("aa".toList) = 1 ∧
    specScoreDistinct (("aa".toList) :: ("aa".toList) :: []) ("aa".toList) = 1 / 2 ∧
    ((1 : Rat) ≠ 1 / 2) := by
  refine ⟨by decide, ?_, ?_, by norm_num⟩
  · unfold MemoryEngine.scoreText
    have hm : ((("aa".toList) :: ("aa".toList) :: []).filter
        (fun t => containsSub t (toLowerStr ("aa".toList)))).length = 2 := by decide
    simp only [hm, List.length_cons, List.length_nil]
    norm_num
  · unfold specScoreDistinct
    have hd : (((("aa".toList) :: ("aa".toList) :: []).dedup).filter
        (fun t => containsSub t (toLowerStr ("aa".toList)))).length = 1 := by decide
    simp only [hd, List.length_cons, List.length_nil]
    norm_num

/-- Witness for C7: the empty-term return, the paragraph decomposition of a
two-paragraph file, and the two-term scores at concrete inputs. -/
theorem claim_C7_witness :
    ((((MemoryEngine.wsSegs (toLowerStr ("x".toList))).filter
        (fun t => 1 < t.length)).isEmpty = true) ∧
      MemoryEngine.search Examples.emptyFS ("x".toList) Examples.defaultSearch = []) ∧
    MemoryEngine.searchFile (("foo".toList) :: []) ((1 : Rat) / 10) Layer.L1 MemoryEngine.acPath
        (.present (List.intercalate ("\n\n".toList)
          (("foo bar".toList) :: ("baz qux".toList) :: [])))
      = specSearchFile (("foo".toList) :: []) ((1 : Rat) / 10) Layer.L1 MemoryEngine.acPath
          (("foo bar".toList) :: ("baz qux".toList) :: []) 0 ∧
    MemoryEngine.scoreText [("aa".toList), ("bb".toList)] ("aa bb".toList) = 1 ∧
    MemoryEngine.scoreText [("aa".toList), ("bb".toList)] ("aa cc".toList) = 1 / 2 :=
  ⟨⟨by decide, claim_C7.1 Examples.emptyFS ("x".toList) Examples.defaultSearch (by decide)⟩,
   claim_C7.2.1 (("foo".toList) :: []) ((1 : Rat) / 10) Layer.L1 MemoryEngine.acPath
     (("foo bar".toList) :: ("baz qux".toList) :: []) (by decide) (by decide) (by decide),
   (claim_C7.2.2.2 ("aa".toList) ("bb".toList) ("aa bb".toList)).1 (by decide) (by decide),
   (claim_C7.2.2.2 ("aa".toList) ("bb".toList) ("aa cc".toList)).2 (by decide) (by decide)⟩

/-! Shared-memory publish/read lemmas. -/

theorem takeWhile_all (p : Char → Bool) (s : Str) (h : ∀ c ∈ s, p c = true) :
    s.takeWhile p = s := by
  induction s with
  | nil => rfl
  | cons c cs ih =>
    rw [List.takeWhile_cons, h c (by simp)]
    simp only [if_true]
    rw [ih (fun x hx => h x (by simp [hx]))]

theorem digit_ne_dash (c : Char) (h : VibeEngine.digitChar c = true) : c ≠ '-' := by
  intro he
  subst he
  simp [VibeEngine.digitChar] at h

theorem digit_ne_T (c : Char) (h : VibeEngine.digitChar c = true) : c ≠ 'T' := by
  intro he
  subst he
  simp [VibeEngine.digitChar] at h

theorem chain_no_dash (s : Str) (h : ('-' : Char) ∉ s) :
    s.Chain' (fun a b => ¬(a = '-' ∧ b = '-')) := by
  induction s with
  | nil => exact List.chain'_nil
  | cons c cs ih =>
    rw [List.chain'_cons']
    refine ⟨?_, ih (fun hm => h (by simp [hm]))⟩
    intro y _ hy
    exact h (by simp [hy.1])

theorem findSub_dddash_none (s : Str)
    (h : s.Chain' (fun a b => ¬(a = '-' ∧ b = '-'))) :
    findSub ("---".toList) s = none := by
  induction s with
  | nil => rfl
  | cons c cs ih =>
    have hpre : (("---".toList)).isPrefixOf (c :: cs) = false := by
      by_cases hc : c = '-'
      · subst hc
        cases cs with
        | nil => rfl
        | cons d ds =>
          by_cases hd : d = '-'
          · subst hd
            rw [List.chain'_cons] at h
            exact absurd ⟨rfl, rfl⟩ h.1
          · cases hres : (("---".toList)).isPrefixOf ('-' :: d :: ds) with
            | false => rfl
            | true =>
              exfalso
              obtain ⟨w, hw⟩ := List.isPrefixOf_iff_prefix.mp hres
              have hw2 : '-' :: ('-' :: ('-' :: w)) = '-' :: d :: ds := hw
              injection hw2 with _ h2
              injection h2 with h3 _
              exact hd h3.symm
      · exact isPrefixOf_cons_ne '-' c _ cs (fun he => hc he.symm)
    rw [findSub, hpre]
    simp only [Bool.false_eq_true, if_false]
    rw [ih (List.Chain'.tail h)]
    rfl

theorem findSub_sep3_boundary (b : Str) :
    ∀ pre : Str, pre.Chain' (fun a b => ¬(a = '-' ∧ b = '-')) →
    (∀ c, pre.getLast? = some c → c ≠ '-') →
    findSub ("---".toList) (pre ++ ("---".toList) ++ b) = some pre.length := by
  intro pre
  induction pre with
  | nil =>
    intro _ _
    rw [List.nil_append]
    exact findSub_at_zero _ _ (by decide)
  | cons c pre2 ih =>
    intro hch hlast
    have hpre : (("---".toList)).isPrefixOf (c :: (pre2 ++ ("---".toList) ++ b)) = false := by
      by_cases hc : c = '-'
      · subst hc
        cases hp2 : pre2 with
        | nil =>
          exact absurd rfl (hlast '-' (by rw [hp2]; rfl))
        | cons d ds =>
          have hnd : ¬ (('-' : Char) = '-' ∧ d = '-') := by
            rw [hp2, List.chain'_cons] at hch
            exact hch.1
          have hd : d ≠ '-' := fun he => hnd ⟨rfl, he⟩
          cases hres : (("---".toList)).isPrefixOf ('-' :: ((d :: ds) ++ ("---".toList) ++ b)) with
          | false => rfl
          | true =>
            exfalso
            obtain ⟨w, hw⟩ := List.isPrefixOf_iff_prefix.mp hres
            have hw2 : '-' :: ('-' :: ('-' :: w)) = '-' :: d :: (ds ++ ("---".toList) ++ b) := hw
            injection hw2 with _ h2
            injection h2 with h3 _
            exact hd h3.symm
      · exact isPrefixOf_cons_ne '-' c _ _ (fun he => hc he.symm)
    rw [List.cons_append, List.cons_append, findSub, hpre]
    simp only [Bool.false_eq_true, if_false]
    have hlast2 : ∀ x, pre2.getLast? = some x → x ≠ '-' := by
      intro x hx
      apply hlast
      cases pre2 with
      | nil => simp at hx
      | cons d ds =>
        rw [List.getLast?_cons_cons]
        exact hx
    rw [ih (List.Chain'.tail hch) hlast2]
    rfl

theorem headerAt_none (l : Str) (h : findSub ("###".toList) l = none) :
    SharedMemory.headerAt l = none := by
  unfold SharedMemory.headerAt
  rw [findSub_none_suffix _ _ h l (List.suffix_refl _)]
  rfl

theorem headerScan_none (l : Str) (h : findSub ("###".toList) l = none) :
    SharedMemory.headerScan l = none := by
  induction l with
  | nil => rfl
  | cons c cs ih =>
    have h2 : findSub ("###".toList) cs = none := by
      rcases hf : findSub ("###".toList) cs with _ | i
      · rfl
      · have hp := findSub_none_suffix _ _ h (c :: cs) (List.suffix_refl _)
        rw [findSub, hp] at h
        simp only [Bool.false_eq_true, if_false, hf] at h
        simp at h
    unfold SharedMemory.headerScan
    rw [headerAt_none (c :: cs) h]
    exact ih h2

theorem hdrTail_clean (a : Char) (as : Str)
    (haw : jsWs a = false) (had : ∀ c ∈ (a :: as : Str), jsDot c = true) :
    SharedMemory.hdrTail (' ' :: a :: as) = some (a :: as) := by
  unfold SharedMemory.hdrTail
  have hdw : List.dropWhile jsWs (' ' :: a :: as) = List.dropWhile jsWs (a :: as) := by
    rw [List.dropWhile_cons]
    simp [jsWs]
  have hdw2 : List.dropWhile jsWs (a :: as) = a :: as := by
    rw [List.dropWhile_cons, haw]
    simp
  rw [hdw, hdw2]
  show some ((a :: as).takeWhile jsDot) = some (a :: as)
  rw [takeWhile_all jsDot (a :: as) had]

theorem hdrG1_clean (g2 : Str) :
    ∀ (time : Str) (r2 : Str) (acc : Str), time ≠ [] →
    (∀ c ∈ time, jsDot c = true ∧ c ≠ ']') →
    SharedMemory.hdrTail r2 = some g2 →
    SharedMemory.hdrG1 acc (time ++ ']' :: r2) = some (acc.reverse ++ time, g2) := by
  intro time
  induction time with
  | nil =>
    intro r2 acc hne _ _
    exact absurd rfl hne
  | cons c time2 ih =>
    intro r2 acc _ hdot htail
    have hcdot : jsDot c = true := (hdot c (by simp)).1
    cases time2 with
    | nil =>
      unfold SharedMemory.hdrG1
      simp only [List.cons_append, List.nil_append, hcdot, Bool.not_true, Bool.false_eq_true,
        if_false, htail]
      simp
    | cons d time3 =>
      have hd : d ≠ ']' := (hdot d (by simp)).2
      unfold SharedMemory.hdrG1
      simp only [List.cons_append, hcdot, Bool.not_true, Bool.false_eq_true, if_false, hd,
        if_neg hd]
      rw [show d :: (time3 ++ ']' :: r2) = (d :: time3) ++ ']' :: r2 from rfl]
      rw [ih r2 (c :: acc) (by simp) (fun x hx => hdot x (by simp [hx])) htail]
      simp

theorem headerAt_pos (time : Str) (a : Char) (as : Str)
    (htne : time ≠ []) (htd : ∀ c ∈ time, jsDot c = true ∧ c ≠ ']')
    (haw : jsWs a = false) (had : ∀ c ∈ (a :: as : Str), jsDot c = true) :
    SharedMemory.headerAt (("### [".toList) ++ time ++ (']' :: ' ' :: (a :: as)))
      = some (time, a :: as) := by
  rw [show ("### [".toList) ++ time ++ (']' :: ' ' :: (a :: as))
      = '#' :: '#' :: '#' :: (' ' :: ('[' :: (time ++ ']' :: ' ' :: (a :: as)))) from rfl]
  unfold SharedMemory.headerAt
  rw [show (("###".toList).isPrefixOf
      ('#' :: '#' :: '#' :: (' ' :: ('[' :: (time ++ ']' :: ' ' :: (a :: as)))))) = true from by
    simp [List.isPrefixOf]]
  simp only [if_true]
  rw [show (('#' :: '#' :: '#' :: (' ' :: ('[' :: (time ++ ']' :: ' ' :: (a :: as))))).drop 3)
      = ' ' :: ('[' :: (time ++ ']' :: ' ' :: (a :: as))) from rfl]
  rw [show List.dropWhile jsWs (' ' :: ('[' :: (time ++ ']' :: ' ' :: (a :: as))))
      = '[' :: (time ++ ']' :: ' ' :: (a :: as)) from by
    rw [List.dropWhile_cons]
    simp [jsWs, List.dropWhile_cons]]
  show SharedMemory.hdrG1 [] (time ++ ']' :: (' ' :: (a :: as))) = some (time, a :: as)
  rw [hdrG1_clean (a :: as) time (' ' :: (a :: as)) [] htne htd (hdrTail_clean a as haw had)]
  simp

theorem headerScan_pos (l : Str) (m : Str × Str) (h : SharedMemory.headerAt l = some m)
    (hne : l ≠ []) : SharedMemory.headerScan l = some m := by
  cases l with
  | nil => exact absurd rfl hne
  | cons c cs =>
    unfold SharedMemory.headerScan
    rw [h]

theorem jsTrim_wrap2 (x : Str) (hne : x ≠ [])
    (hh : ∀ c, x.head? = some c → jsWs c = false)
    (hl : ∀ c, x.getLast? = some c → jsWs c = false) :
    jsTrim (x ++ ("\n\n".toList)) = x := by
  cases x with
  | nil => exact absurd rfl hne
  | cons a as =>
    have ha : jsWs a = false := hh a rfl
    unfold jsTrim
    have h1 : List.dropWhile jsWs ((a :: as) ++ ("\n\n".toList)) = (a :: as) ++ ("\n\n".toList) := by
      rw [List.cons_append, List.dropWhile_cons, ha]
      simp
    rw [h1, show ("\n\n".toList) = ['\n', '\n'] from rfl, List.reverse_append]
    rw [show (['\n', '\n'] : Str).reverse = ['\n', '\n'] from rfl]
    rw [show (['\n', '\n'] : Str) ++ (a :: as).reverse = '\n' :: ('\n' :: (a :: as).reverse) from rfl]
    rw [List.dropWhile_cons]
    simp only [show jsWs '\n' = true from rfl, if_true]
    rw [List.dropWhile_cons]
    simp only [show jsWs '\n' = true from rfl, if_true]
    cases hr : (a :: as).reverse with
    | nil => simp at hr
    | cons d ds =>
      have hdl : (a :: as).getLast? = some d := by
        rw [← List.head?_reverse, hr]
        rfl
      have hdw : jsWs d = false := hl d hdl
      rw [List.dropWhile_cons, hdw]
      simp only [Bool.false_eq_true, if_false]
      rw [← hr, List.reverse_reverse]

theorem findSub_head_none (c0 : Char) (sep2 : Str) :
    ∀ s : Str, c0 ∉ s → findSub (c0 :: sep2) s = none := by
  intro s
  induction s with
  | nil => intro _; rfl
  | cons c cs ih =>
    intro h
    have hc : c ≠ c0 := fun he => h (by simp [he])
    rw [findSub, isPrefixOf_cons_ne c0 c sep2 cs (Ne.symm hc)]
    simp only [Bool.false_eq_true, if_false]
    rw [ih (fun hm => h (by simp [hm]))]
    rfl

theorem findSub_head_boundary (c0 : Char) (sep2 b : Str) :
    ∀ a : Str, c0 ∉ a →
    findSub (c0 :: sep2) (a ++ (c0 :: sep2) ++ b) = some a.length := by
  intro a
  induction a with
  | nil =>
    intro _
    rw [List.nil_append]
    exact findSub_at_zero _ _ (by simp)
  | cons c a2 ih =>
    intro h
    have hc : c ≠ c0 := fun he => h (by simp [he])
    rw [List.cons_append, List.cons_append, findSub,
      isPrefixOf_cons_ne c0 c sep2 _ (Ne.symm hc)]
    simp only [Bool.false_eq_true, if_false]
    rw [ih (fun hm => h (by simp [hm]))]
    rfl

theorem findSub_pipe_none (s : Str) (h : ('|' : Char) ∉ s) :
    findSub (" | ".toList) s = none := by
  apply findSub_none_of_suffix
  intro t ht
  cases hres : ((" | ".toList)).isPrefixOf t with
  | false => rfl
  | true =>
    exfalso
    obtain ⟨w, hw⟩ := List.isPrefixOf_iff_prefix.mp hres
    have hmem : ('|' : Char) ∈ t := by
      rw [← hw]
      show ('|' : Char) ∈ ' ' :: '|' :: ' ' :: w
      simp
    exact h (ht.subset hmem)

theorem chain_nd_append (a b : Str)
    (ha : a.Chain' (fun x y => ¬(x = '-' ∧ y = '-')))
    (hb : b.Chain' (fun x y => ¬(x = '-' ∧ y = '-')))
    (hbd : ∀ y, b.head? = some y → y ≠ '-') :
    (a ++ b).Chain' (fun x y => ¬(x = '-' ∧ y = '-')) := by
  rw [List.chain'_append]
  refine ⟨ha, hb, ?_⟩
  intro x hx y hy hxy
  exact hbd y hy hxy.2

theorem digit_facts (c : Char) (h : VibeEngine.digitChar c = true) :
    jsDot c = true ∧ c ≠ ']' ∧ c ≠ '-' ∧ c ≠ 'T' ∧ jsWs c = false ∧ c ≠ '\n' ∧ c ≠ '>' := by
  simp only [VibeEngine.digitChar, Bool.or_eq_true, decide_eq_true_eq] at h
  rcases h with ((((((((h | h) | h) | h) | h) | h) | h) | h) | h) | h <;> subst h <;>
    refine ⟨by decide, by decide, by decide, by decide, by decide, by decide, by decide⟩

theorem iso_destruct_pos (ts : Str) (h : VibeEngine.isoPrefixShape ts = true) :
    ∃ y1 y2 y3 y4 m1 m2 d1 d2 k1 k2 n1 n2 : Char,
      replaceFirst ("T".toList) (" ".toList) (ts.take 16)
        = [y1, y2, y3, y4, '-', m1, m2, '-', d1, d2, ' ', k1, k2, ':', n1, n2] ∧
      VibeEngine.digitChar y1 = true ∧ VibeEngine.digitChar y2 = true ∧
      VibeEngine.digitChar y3 = true ∧ VibeEngine.digitChar y4 = true ∧
      VibeEngine.digitChar m1 = true ∧ VibeEngine.digitChar m2 = true ∧
      VibeEngine.digitChar d1 = true ∧ VibeEngine.digitChar d2 = true ∧
      VibeEngine.digitChar k1 = true ∧ VibeEngine.digitChar k2 = true ∧
      VibeEngine.digitChar n1 = true ∧ VibeEngine.digitChar n2 = true := by
  unfold VibeEngine.isoPrefixShape at h
  split at h
  case _ y1 y2 y3 y4 s1 m1 m2 s2 d1 d2 tc k1 k2 cc n1 n2 heq =>
    simp only [Bool.and_eq_true, decide_eq_true_eq] at h
    obtain ⟨⟨⟨⟨⟨⟨⟨⟨⟨⟨⟨⟨⟨⟨⟨hy1, hy2⟩, hy3⟩, hy4⟩, hs1⟩, hm1⟩, hm2⟩, hs2⟩, hd1⟩, hd2⟩, htc⟩,
      hk1⟩, hk2⟩, hcc⟩, hn1⟩, hn2⟩ := h
    subst hs1 hs2 htc hcc
    refine ⟨y1, y2, y3, y4, m1, m2, d1, d2, k1, k2, n1, n2, ?_,
      hy1, hy2, hy3, hy4, hm1, hm2, hd1, hd2, hk1, hk2, hn1, hn2⟩
    rw [heq]
    unfold replaceFirst
    have hfind : findSub ("T".toList)
        [y1, y2, y3, y4, '-', m1, m2, '-', d1, d2, 'T', k1, k2, ':', n1, n2] = some 10 := by
      have hnot : ('T' : Char) ∉ ([y1, y2, y3, y4, '-', m1, m2, '-', d1, d2] : Str) := by
        intro hm
        simp only [List.mem_cons, List.not_mem_nil, or_false] at hm
        rcases hm with hx | hx | hx | hx | hx | hx | hx | hx | hx | hx
        · exact digit_ne_T y1 hy1 hx.symm
        · exact digit_ne_T y2 hy2 hx.symm
        · exact digit_ne_T y3 hy3 hx.symm
        · exact digit_ne_T y4 hy4 hx.symm
        · exact absurd hx (by decide)
        · exact digit_ne_T m1 hm1 hx.symm
        · exact digit_ne_T m2 hm2 hx.symm
        · exact absurd hx (by decide)
        · exact digit_ne_T d1 hd1 hx.symm
        · exact digit_ne_T d2 hd2 hx.symm
      have := findSub_single_sep 'T' [y1, y2, y3, y4, '-', m1, m2, '-', d1, d2]
        [k1, k2, ':', n1, n2] hnot
      simpa using this
    rw [hfind]
    rfl
  case _ => simp at h

theorem time_props (ts : Str) (h : VibeEngine.isoPrefixShape ts = true) :
    replaceFirst ("T".toList) (" ".toList) (ts.take 16) ≠ [] ∧
    (∀ c ∈ replaceFirst ("T".toList) (" ".toList) (ts.take 16),
      jsDot c = true ∧ c ≠ ']' ∧ c ≠ '\n') ∧
    (replaceFirst ("T".toList) (" ".toList) (ts.take 16)).Chain'
      (fun a b => ¬(a = '-' ∧ b = '-')) ∧
    (∀ c, (replaceFirst ("T".toList) (" ".toList) (ts.take 16)).head? = some c →
      jsWs c = false ∧ c ≠ '-') ∧
    (∀ c, (replaceFirst ("T".toList) (" ".toList) (ts.take 16)).getLast? = some c →
      jsWs c = false) := by
  obtain ⟨y1, y2, y3, y4, m1, m2, d1, d2, k1, k2, n1, n2, heq, hy1, hy2, hy3, hy4, hm1, hm2,
    hd1, hd2, hk1, hk2, hn1, hn2⟩ := iso_destruct_pos ts h
  rw [heq]
  refine ⟨by simp, ?_, ?_, ?_, ?_⟩
  · intro c hc
    simp only [List.mem_cons, List.not_mem_nil, or_false] at hc
    rcases hc with rfl|rfl|rfl|rfl|rfl|rfl|rfl|rfl|rfl|rfl|rfl|rfl|rfl|rfl|rfl|rfl
    · exact ⟨(digit_facts _ hy1).1, (digit_facts _ hy1).2.1, (digit_facts _ hy1).2.2.2.2.2.1⟩
    · exact ⟨(digit_facts _ hy2).1, (digit_facts _ hy2).2.1, (digit_facts _ hy2).2.2.2.2.2.1⟩
    · exact ⟨(digit_facts _ hy3).1, (digit_facts _ hy3).2.1, (digit_facts _ hy3).2.2.2.2.2.1⟩
    · exact ⟨(digit_facts _ hy4).1, (digit_facts _ hy4).2.1, (digit_facts _ hy4).2.2.2.2.2.1⟩
    · exact ⟨by decide, by decide, by decide⟩
    · exact ⟨(digit_facts _ hm1).1, (digit_facts _ hm1).2.1, (digit_facts _ hm1).2.2.2.2.2.1⟩
    · exact ⟨(digit_facts _ hm2).1, (digit_facts _ hm2).2.1, (digit_facts _ hm2).2.2.2.2.2.1⟩
    · exact ⟨by decide, by decide, by decide⟩
    · exact ⟨(digit_facts _ hd1).1, (digit_facts _ hd1).2.1, (digit_facts _ hd1).2.2.2.2.2.1⟩
    · exact ⟨(digit_facts _ hd2).1, (digit_facts _ hd2).2.1, (digit_facts _ hd2).2.2.2.2.2.1⟩
    · exact ⟨by decide, by decide, by decide⟩
    · exact ⟨(digit_facts _ hk1).1, (digit_facts _ hk1).2.1, (digit_facts _ hk1).2.2.2.2.2.1⟩
    · exact ⟨(digit_facts _ hk2).1, (digit_facts _ hk2).2.1, (digit_facts _ hk2).2.2.2.2.2.1⟩
    · exact ⟨by decide, by decide, by decide⟩
    · exact ⟨(digit_facts _ hn1).1, (digit_facts _ hn1).2.1, (digit_facts _ hn1).2.2.2.2.2.1⟩
    · exact ⟨(digit_facts _ hn2).1, (digit_facts _ hn2).2.1, (digit_facts _ hn2).2.2.2.2.2.1⟩
  · simp only [List.chain'_cons, List.chain'_singleton, and_true]
    refine ⟨fun hp => (digit_facts _ hy1).2.2.1 hp.1,
      fun hp => (digit_facts _ hy2).2.2.1 hp.1,
      fun hp => (digit_facts _ hy3).2.2.1 hp.1,
      fun hp => (digit_facts _ hy4).2.2.1 hp,
      fun hp => (digit_facts _ hm1).2.2.1 hp.2,
      fun hp => (digit_facts _ hm1).2.2.1 hp.1,
      fun hp => (digit_facts _ hm2).2.2.1 hp,
      fun hp => (digit_facts _ hd1).2.2.1 hp.2,
      fun hp => (digit_facts _ hd1).2.2.1 hp.1,
      fun hp => (digit_facts _ hd2).2.2.1 hp.1,
      fun hp => absurd hp.1 (by decide),
      fun hp => (digit_facts _ hk1).2.2.1 hp.1,
      fun hp => (digit_facts _ hk2).2.2.1 hp.1,
      fun hp => absurd hp.1 (by decide),
      fun hp => (digit_facts _ hn1).2.2.1 hp.1⟩
  · intro c hc
    have hcy : y1 = c := by simpa using hc
    subst hcy
    exact ⟨(digit_facts _ hy1).2.2.2.2.1, (digit_facts _ hy1).2.2.1⟩
  · intro c hc
    have hcn : n2 = c := by simpa using hc
    subst hcn
    exact (digit_facts _ hn2).2.2.2.2.1

theorem findSub_none_of_not_contains (p s : Str) (h : containsSub p s = false) :
    findSub p s = none := by
  unfold containsSub at h
  cases hf : findSub p s with
  | none => rfl
  | some i =>
    rw [hf] at h
    simp at h

theorem splitOn_colon_pair (k v : Str) (hk : (':' : Char) ∉ k) (hv : (':' : Char) ∉ v) :
    splitOnStr (": ".toList) (k ++ (": ".toList) ++ v) = [k, v] := by
  rw [splitOnStr_eq _ (by decide)]
  have hf : findSub (": ".toList) (k ++ (": ".toList) ++ v) = some k.length :=
    findSub_head_boundary ':' ([' ']) v k hk
  rw [hf]
  show (k ++ (": ".toList) ++ v).take k.length ::
    splitOnStr (": ".toList) ((k ++ (": ".toList) ++ v).drop (k.length + (": ".toList).length))
    = [k, v]
  have htake : (k ++ (": ".toList) ++ v).take k.length = k := by
    rw [List.append_assoc]
    exact List.take_left k _
  have hdrop : (k ++ (": ".toList) ++ v).drop (k.length + (": ".toList).length) = v := by
    exact List.drop_left' (by simp)
  rw [htake, hdrop, splitOnStr_eq _ (by decide)]
  have hfn : findSub (": ".toList) v = none := findSub_head_none ':' ([' ']) v hv
  rw [hfn]

theorem splitOn_dash_boundary (pre b : Str)
    (hch : pre.Chain' (fun x y => ¬(x = '-' ∧ y = '-')))
    (hlast : ∀ c, pre.getLast? = some c → c ≠ '-') :
    splitOnStr ("---".toList) (pre ++ ("---".toList) ++ b)
      = pre :: splitOnStr ("---".toList) b := by
  rw [splitOnStr_eq _ (by decide)]
  have hf := findSub_sep3_boundary b pre hch hlast
  simp only [hf]
  congr 1
  · rw [List.append_assoc, List.take_left]
  · rw [show ("---".toList).length = 3 from rfl]
    rw [show pre.length + 3 = (pre ++ ("---".toList)).length by simp]
    rw [List.drop_left]

theorem publishRead_noMeta (agent now topic content : Str)
    (hnow : VibeEngine.isoPrefixShape now = true)
    (ha1 : agent ≠ []) (ha2 : jsTrim agent = agent)
    (ha3 : ∀ c ∈ agent, jsDot c = true ∧ c ≠ '-')
    (ht1 : ('\n' : Char) ∉ topic) (ht2 : ('-' : Char) ∉ topic)
    (ht3 : containsSub ("###".toList) (("# ".toList) ++ topic) = false)
    (hc1 : content ≠ []) (hc2 : jsTrim content = content)
    (hc3 : ∀ c ∈ content, jsDot c = true ∧ c ≠ '-')
    (hc4 : containsSub ("###".toList) content = false)
    (hc5 : startsWithChar '>' content = false)
    (hc6 : ("# ".toList).isPrefixOf content = false) :
    SharedMemory.readTopic topic
      (.present (SharedMemory.publish agent now .absent topic content none).1)
      = [{ agent := agent, topic := topic,
           timestamp := now.take 16 ++ (":00.000Z".toList),
           content := content, metadata := none }] := by
  obtain ⟨htne, htmem, htch, hthead, htlast⟩ := time_props now hnow
  obtain ⟨a, as, haeq⟩ : ∃ a as, agent = a :: as := by
    cases hx : agent with
    | nil => exact absurd hx ha1
    | cons a as => exact ⟨a, as, rfl⟩
  have hanl : ('\n' : Char) ∉ agent := fun hm => jsDot_ne_nl _ (ha3 _ hm).1 rfl
  have hcnl : ('\n' : Char) ∉ content := fun hm => jsDot_ne_nl _ (hc3 _ hm).1 rfl
  set T := replaceFirst ("T".toList) (" ".toList) (now.take 16) with hT
  have htnl : ('\n' : Char) ∉ T := fun hm => (htmem _ hm).2.2 rfl
  set HL := ("### [".toList) ++ T ++ (']' :: ' ' :: agent) with hHL
  set L1 := ("# ".toList) ++ topic with hL1
  set core := L1 ++ '\n' :: (([] : Str) ++ '\n' :: (HL ++ '\n' :: (([] : Str) ++ '\n' :: content)))
    with hcore
  -- facts about the document head line and trailing content
  have hL1nl : ('\n' : Char) ∉ L1 := by
    rw [hL1]
    intro hm
    rcases List.mem_append.mp hm with h1 | h1
    · exact absurd h1 (by decide)
    · exact ht1 h1
  have hHLnl : ('\n' : Char) ∉ HL := by
    rw [hHL]
    intro hm
    rcases List.mem_append.mp hm with h1 | h1
    · rcases List.mem_append.mp h1 with h2 | h2
      · exact absurd h2 (by decide)
      · exact htnl h2
    · rcases List.mem_cons.mp h1 with h2 | h2
      · exact absurd h2 (by decide)
      · rcases List.mem_cons.mp h2 with h3 | h3
        · exact absurd h3 (by decide)
        · exact hanl h3
  have hcore_eq : core = (L1 ++ ("\n\n".toList) ++ HL ++ ("\n\n".toList)) ++ content := by
    rw [hcore]
    simp [List.append_assoc]
  have hcore_last : ∀ c, core.getLast? = some c → jsWs c = false := by
    intro c hc
    rw [hcore_eq, List.getLast?_append_of_ne_nil _ hc1] at hc
    exact getLast_not_ws_of_trim content hc2 c hc
  have hcore_head : core.head? = some '#' := by
    rw [hcore, hL1]
    rfl
  have hcore_ne : core ≠ [] := by
    intro he
    rw [he] at hcore_head
    simp at hcore_head
  -- document shape
  have hdoc : (SharedMemory.publish agent now .absent topic content none).1
      = (core ++ ("\n\n".toList)) ++ ("---".toList) ++ ("\n".toList) := by
    unfold SharedMemory.publish
    simp only [readFileFS]
    rw [hcore, hHL, hL1, hT]
    simp [hc2, List.append_assoc]
  -- no three consecutive dashes before the rule
  have hA1 : ('-' : Char) ∉ L1 ++ ("\n\n".toList) ++ ("### [".toList) := by
    intro hm
    rcases List.mem_append.mp hm with h1 | h1
    · rcases List.mem_append.mp h1 with h2 | h2
      · rw [hL1] at h2
        rcases List.mem_append.mp h2 with h3 | h3
        · exact absurd h3 (by decide)
        · exact ht2 h3
      · exact absurd h2 (by decide)
    · exact absurd h1 (by decide)
  have hA2 : ('-' : Char) ∉ (']' :: ' ' :: agent) ++ ('\n' :: (([] : Str) ++ '\n' :: content))
      ++ ("\n\n".toList) := by
    intro hm
    rcases List.mem_append.mp hm with h1 | h1
    · rcases List.mem_append.mp h1 with h2 | h2
      · rcases List.mem_cons.mp h2 with h3 | h3
        · exact absurd h3 (by decide)
        · rcases List.mem_cons.mp h3 with h4 | h4
          · exact absurd h4 (by decide)
          · exact (ha3 _ h4).2 rfl
      · rcases List.mem_cons.mp h2 with h3 | h3
        · exact absurd h3 (by decide)
        · rw [List.nil_append] at h3
          rcases List.mem_cons.mp h3 with h4 | h4
          · exact absurd h4 (by decide)
          · exact (hc3 _ h4).2 rfl
    · exact absurd h1 (by decide)
  have hsplit_pre : core ++ ("\n\n".toList)
      = (L1 ++ ("\n\n".toList) ++ ("### [".toList)) ++
        (T ++ ((']' :: ' ' :: agent) ++ ('\n' :: (([] : Str) ++ '\n' :: content))
          ++ ("\n\n".toList))) := by
    rw [hcore, hHL]
    simp [List.append_assoc]
  have hchain : (core ++ ("\n\n".toList)).Chain' (fun x y => ¬(x = '-' ∧ y = '-')) := by
    rw [hsplit_pre]
    apply chain_nd_append _ _ (chain_no_dash _ hA1)
    · apply chain_nd_append _ _ htch (chain_no_dash _ hA2)
      intro y hy
      have h9 : (some ']' : Option Char) = some y := hy
      rw [Option.some.injEq] at h9
      rw [← h9]
      decide
    · intro y hy
      rw [List.head?_append_of_ne_nil T htne] at hy
      exact (hthead y hy).2
  -- split of the document at the horizontal rule
  have hlast_pre : ∀ c, (core ++ ("\n\n".toList)).getLast? = some c → c ≠ '-' := by
    intro c hc
    rw [List.getLast?_append_of_ne_nil _ (by decide)] at hc
    have h2 : (some '\n' : Option Char) = some c := hc
    rw [Option.some.injEq] at h2
    rw [← h2]
    decide
  have hsplitdoc : splitOnStr ("---".toList)
      ((core ++ ("\n\n".toList)) ++ ("---".toList) ++ ("\n".toList))
      = [core ++ ("\n\n".toList), ("\n".toList)] := by
    rw [splitOn_dash_boundary (core ++ ("\n\n".toList)) ("\n".toList) hchain hlast_pre]
    rw [show splitOnStr ("---".toList) ("\n".toList) = [("\n".toList)] from by decide]
  -- the surviving block trims back to the core document
  have hhead_ws : ∀ c, core.head? = some c → jsWs c = false := by
    intro c hc
    rw [hcore_head, Option.some.injEq] at hc
    rw [← hc]
    decide
  have htrimB : jsTrim (core ++ ("\n\n".toList)) = core :=
    jsTrim_wrap2 core hcore_ne hhead_ws hcore_last
  have htrimnl : jsTrim ("\n".toList) = [] := by decide
  have hBne : core.isEmpty = false := by
    cases hx : core with
    | nil => exact absurd hx hcore_ne
    | cons x l => rfl
  -- the lines of the core document
  have hlines : splitNl core = [L1, [], HL, [], content] := by
    rw [hcore]
    rw [splitNl_line L1 _ hL1nl]
    rw [splitNl_line ([] : Str) _ (by simp)]
    rw [splitNl_line HL _ hHLnl]
    rw [splitNl_line ([] : Str) _ (by simp)]
    rw [splitNl_single content hcnl]
  -- header recognition on each line
  have hscan1 : SharedMemory.headerScan L1 = none :=
    headerScan_none L1 (findSub_none_of_not_contains _ _ ht3)
  have hscanE : SharedMemory.headerScan ([] : Str) = none := rfl
  have hscanC : SharedMemory.headerScan content = none :=
    headerScan_none content (findSub_none_of_not_contains _ _ hc4)
  have hscanH : SharedMemory.headerScan HL = some (T, agent) := by
    have had : ∀ c ∈ (a :: as : Str), jsDot c = true := by
      intro c hc
      exact (ha3 c (by rw [haeq]; exact hc)).1
    have haw : jsWs a = false := head_not_ws_of_trim agent ha2 a (by rw [haeq]; rfl)
    have htd : ∀ c ∈ T, jsDot c = true ∧ c ≠ ']' :=
      fun c hc => ⟨(htmem c hc).1, (htmem c hc).2.1⟩
    have hat : SharedMemory.headerAt (("### [".toList) ++ T ++ (']' :: ' ' :: (a :: as)))
        = some (T, a :: as) := headerAt_pos T a as htne htd haw had
    rw [hHL, haeq]
    exact headerScan_pos _ _ hat (by simp)
  have hfindline : ([L1, [], HL, [], content] : List Str).find?
      (fun l => (SharedMemory.headerScan l).isSome) = some HL := by
    simp [List.find?, hscan1, hscanE, hscanH, hscanC]
  -- no metadata lines
  have hsw1 : startsWithChar '>' L1 = false := by rw [hL1]; rfl
  have hswH : startsWithChar '>' HL = false := by rw [hHL]; rfl
  have hswE : startsWithChar '>' ([] : Str) = false := rfl
  have hmeta : ([L1, [], HL, [], content] : List Str).filter (startsWithChar '>') = [] := by
    simp [List.filter_cons, hsw1, hswE, hswH, hc5]
  -- content lines
  have hpf1 : (("# ".toList).isPrefixOf L1) = true := by
    rw [hL1]
    exact List.isPrefixOf_iff_prefix.mpr (List.prefix_append _ _)
  have hcne : content.isEmpty = false := by
    cases hx : content with
    | nil => exact absurd hx hc1
    | cons x l => rfl
  have htrimEm : jsTrim ([] : Str) = [] := rfl
  have hpf1b : (((['#', ' '] : Str)).isPrefixOf L1) = true := hpf1
  have hc6b : (((['#', ' '] : Str)).isPrefixOf content) = false := hc6
  have hcontentLines : ([L1, [], HL, [], content] : List Str).filter
      (fun l => !(SharedMemory.headerScan l).isSome && !startsWithChar '>' l &&
        !(("# ".toList).isPrefixOf l) && !(jsTrim l).isEmpty) = [content] := by
    simp [List.filter_cons, hscan1, hscanE, hscanH, hscanC, hsw1, hswE, hswH,
      hc5, hc6, hpf1, hpf1b, hc6b, hc2, hcne, htrimEm]
  -- the timestamp round trip
  have htT : jsTrim T = T := jsTrim_eq_self T (fun c hc => (hthead c hc).1) htlast
  have hTrest : replaceFirst (" ".toList) ("T".toList) T = now.take 16 := by
    rw [hT]
    exact time_restore now hnow
  -- assemble
  unfold SharedMemory.readTopic
  simp only [readFileFS]
  rw [hdoc]
  unfold SharedMemory.parseMessages
  simp only [hsplitdoc, List.filter_cons, List.filter_nil, htrimB, htrimnl, hBne,
    List.isEmpty_nil, Bool.not_false, Bool.not_true, if_true, if_false]
  simp only [List.filterMap_cons, List.filterMap_nil, htrimB, hlines, hfindline,
    hscanH, hmeta, hcontentLines, htT, hTrest, ha2, hc2]
  simp [List.intercalate, List.intersperse, hc2]

theorem publishRead_pairMeta (agent now topic content k v : Str)
    (hnow : VibeEngine.isoPrefixShape now = true)
    (ha1 : agent ≠ []) (ha2 : jsTrim agent = agent)
    (ha3 : ∀ c ∈ agent, jsDot c = true ∧ c ≠ '-')
    (ht1 : ('\n' : Char) ∉ topic) (ht2 : ('-' : Char) ∉ topic)
    (ht3 : containsSub ("###".toList) (("# ".toList) ++ topic) = false)
    (hc1 : content ≠ []) (hc2 : jsTrim content = content)
    (hc3 : ∀ c ∈ content, jsDot c = true ∧ c ≠ '-')
    (hc4 : containsSub ("###".toList) content = false)
    (hc5 : startsWithChar '>' content = false)
    (hc6 : ("# ".toList).isPrefixOf content = false)
    (hk1 : k ≠ []) (hk2 : jsTrim k = k)
    (hk3 : ∀ c ∈ k, jsDot c = true ∧ c ≠ '-')
    (hk4 : (':' : Char) ∉ k) (hk5 : ('|' : Char) ∉ k)
    (hv1 : v ≠ []) (hv2 : jsTrim v = v)
    (hv3 : ∀ c ∈ v, jsDot c = true ∧ c ≠ '-')
    (hv4 : (':' : Char) ∉ v) (hv5 : ('|' : Char) ∉ v) :
    SharedMemory.readTopic topic
      (.present (SharedMemory.publish agent now .absent topic content (some [(k, v)])).1)
      = [{ agent := agent, topic := topic,
           timestamp := now.take 16 ++ (":00.000Z".toList),
           content := content, metadata := some [(k, v)] }] := by
  obtain ⟨htne, htmem, htch, hthead, htlast⟩ := time_props now hnow
  obtain ⟨a, as, haeq⟩ : ∃ a as, agent = a :: as := by
    cases hx : agent with
    | nil => exact absurd hx ha1
    | cons a as => exact ⟨a, as, rfl⟩
  have hanl : ('\n' : Char) ∉ agent := fun hm => jsDot_ne_nl _ (ha3 _ hm).1 rfl
  have hcnl : ('\n' : Char) ∉ content := fun hm => jsDot_ne_nl _ (hc3 _ hm).1 rfl
  set T := replaceFirst ("T".toList) (" ".toList) (now.take 16) with hT
  have htnl : ('\n' : Char) ∉ T := fun hm => (htmem _ hm).2.2 rfl
  set HL := ("### [".toList) ++ T ++ (']' :: ' ' :: agent) with hHL
  set L1 := ("# ".toList) ++ topic with hL1
  set ML := ("> ".toList) ++ k ++ (": ".toList) ++ v with hML
  set core := L1 ++ '\n' :: (([] : Str) ++ '\n' ::
    (HL ++ '\n' :: (ML ++ '\n' :: (([] : Str) ++ '\n' :: content)))) with hcore
  -- facts about the document lines
  have hL1nl : ('\n' : Char) ∉ L1 := by
    rw [hL1]
    intro hm
    rcases List.mem_append.mp hm with h1 | h1
    · exact absurd h1 (by decide)
    · exact ht1 h1
  have hHLnl : ('\n' : Char) ∉ HL := by
    rw [hHL]
    intro hm
    rcases List.mem_append.mp hm with h1 | h1
    · rcases List.mem_append.mp h1 with h2 | h2
      · exact absurd h2 (by decide)
      · exact htnl h2
    · rcases List.mem_cons.mp h1 with h2 | h2
      · exact absurd h2 (by decide)
      · rcases List.mem_cons.mp h2 with h3 | h3
        · exact absurd h3 (by decide)
        · exact hanl h3
  have hMLnl : ('\n' : Char) ∉ ML := by
    rw [hML]
    intro hm
    rcases List.mem_append.mp hm with h1 | h1
    · rcases List.mem_append.mp h1 with h2 | h2
      · rcases List.mem_append.mp h2 with h3 | h3
        · exact absurd h3 (by decide)
        · exact jsDot_ne_nl _ (hk3 _ h3).1 rfl
      · exact absurd h2 (by decide)
    · exact jsDot_ne_nl _ (hv3 _ h1).1 rfl
  have hcore_eq : core
      = (L1 ++ ("\n\n".toList) ++ HL ++ ("\n".toList) ++ ML ++ ("\n\n".toList)) ++ content := by
    rw [hcore]
    simp [List.append_assoc]
  have hcore_last : ∀ c, core.getLast? = some c → jsWs c = false := by
    intro c hc
    rw [hcore_eq, List.getLast?_append_of_ne_nil _ hc1] at hc
    exact getLast_not_ws_of_trim content hc2 c hc
  have hcore_head : core.head? = some '#' := by
    rw [hcore, hL1]
    rfl
  have hcore_ne : core ≠ [] := by
    intro he
    rw [he] at hcore_head
    simp at hcore_head
  -- the metadata joint is never empty
  have hmne : (k ++ ((": ".toList) ++ v)).isEmpty = false := by
    cases hx : k with
    | nil => exact absurd hx hk1
    | cons x l => rfl
  have hmne2 : ((k ++ (": ".toList)) ++ v).isEmpty = false := by
    rw [List.append_assoc]
    exact hmne
  -- document shape
  have hdoc : (SharedMemory.publish agent now .absent topic content (some [(k, v)])).1
      = (core ++ ("\n\n".toList)) ++ ("---".toList) ++ ("\n".toList) := by
    unfold SharedMemory.publish
    simp only [readFileFS]
    rw [hcore, hHL, hL1, hT, hML]
    simp [hc2, hmne, hmne2, List.intercalate, List.intersperse, List.append_assoc]
  -- no three consecutive dashes before the rule
  have hA1 : ('-' : Char) ∉ L1 ++ ("\n\n".toList) ++ ("### [".toList) := by
    intro hm
    rcases List.mem_append.mp hm with h1 | h1
    · rcases List.mem_append.mp h1 with h2 | h2
      · rw [hL1] at h2
        rcases List.mem_append.mp h2 with h3 | h3
        · exact absurd h3 (by decide)
        · exact ht2 h3
      · exact absurd h2 (by decide)
    · exact absurd h1 (by decide)
  have hA2 : ('-' : Char) ∉ (']' :: ' ' :: agent)
      ++ ('\n' :: (ML ++ '\n' :: (([] : Str) ++ '\n' :: content)))
      ++ ("\n\n".toList) := by
    intro hm
    rcases List.mem_append.mp hm with h1 | h1
    · rcases List.mem_append.mp h1 with h2 | h2
      · rcases List.mem_cons.mp h2 with h3 | h3
        · exact absurd h3 (by decide)
        · rcases List.mem_cons.mp h3 with h4 | h4
          · exact absurd h4 (by decide)
          · exact (ha3 _ h4).2 rfl
      · rcases List.mem_cons.mp h2 with h3 | h3
        · exact absurd h3 (by decide)
        · rcases List.mem_append.mp h3 with h4 | h4
          · rw [hML] at h4
            rcases List.mem_append.mp h4 with h5 | h5
            · rcases List.mem_append.mp h5 with h6 | h6
              · rcases List.mem_append.mp h6 with h7 | h7
                · exact absurd h7 (by decide)
                · exact (hk3 _ h7).2 rfl
              · exact absurd h6 (by decide)
            · exact (hv3 _ h5).2 rfl
          · rcases List.mem_cons.mp h4 with h5 | h5
            · exact absurd h5 (by decide)
            · rw [List.nil_append] at h5
              rcases List.mem_cons.mp h5 with h6 | h6
              · exact absurd h6 (by decide)
              · exact (hc3 _ h6).2 rfl
    · exact absurd h1 (by decide)
  have hsplit_pre : core ++ ("\n\n".toList)
      = (L1 ++ ("\n\n".toList) ++ ("### [".toList)) ++
        (T ++ ((']' :: ' ' :: agent)
          ++ ('\n' :: (ML ++ '\n' :: (([] : Str) ++ '\n' :: content)))
          ++ ("\n\n".toList))) := by
    rw [hcore, hHL]
    simp [List.append_assoc]
  have hchain : (core ++ ("\n\n".toList)).Chain' (fun x y => ¬(x = '-' ∧ y = '-')) := by
    rw [hsplit_pre]
    apply chain_nd_append _ _ (chain_no_dash _ hA1)
    · apply chain_nd_append _ _ htch (chain_no_dash _ hA2)
      intro y hy
      have h9 : (some ']' : Option Char) = some y := hy
      rw [Option.some.injEq] at h9
      rw [← h9]
      decide
    · intro y hy
      rw [List.head?_append_of_ne_nil T htne] at hy
      exact (hthead y hy).2
  -- split of the document at the horizontal rule
  have hlast_pre : ∀ c, (core ++ ("\n\n".toList)).getLast? = some c → c ≠ '-' := by
    intro c hc
    rw [List.getLast?_append_of_ne_nil _ (by decide)] at hc
    have h2 : (some '\n' : Option Char) = some c := hc
    rw [Option.some.injEq] at h2
    rw [← h2]
    decide
  have hsplitdoc : splitOnStr ("---".toList)
      ((core ++ ("\n\n".toList)) ++ ("---".toList) ++ ("\n".toList))
      = [core ++ ("\n\n".toList), ("\n".toList)] := by
    rw [splitOn_dash_boundary (core ++ ("\n\n".toList)) ("\n".toList) hchain hlast_pre]
    rw [show splitOnStr ("---".toList) ("\n".toList) = [("\n".toList)] from by decide]
  -- the surviving block trims back to the core document
  have hhead_ws : ∀ c, core.head? = some c → jsWs c = false := by
    intro c hc
    rw [hcore_head, Option.some.injEq] at hc
    rw [← hc]
    decide
  have htrimB : jsTrim (core ++ ("\n\n".toList)) = core :=
    jsTrim_wrap2 core hcore_ne hhead_ws hcore_last
  have htrimnl : jsTrim ("\n".toList) = [] := by decide
  have hBne : core.isEmpty = false := by
    cases hx : core with
    | nil => exact absurd hx hcore_ne
    | cons x l => rfl
  -- the lines of the core document
  have hlines : splitNl core = [L1, [], HL, ML, [], content] := by
    rw [hcore]
    rw [splitNl_line L1 _ hL1nl]
    rw [splitNl_line ([] : Str) _ (by simp)]
    rw [splitNl_line HL _ hHLnl]
    rw [splitNl_line ML _ hMLnl]
    rw [splitNl_line ([] : Str) _ (by simp)]
    rw [splitNl_single content hcnl]
  -- header recognition on each line
  have hscan1 : SharedMemory.headerScan L1 = none :=
    headerScan_none L1 (findSub_none_of_not_contains _ _ ht3)
  have hscanE : SharedMemory.headerScan ([] : Str) = none := rfl
  have hscanC : SharedMemory.headerScan content = none :=
    headerScan_none content (findSub_none_of_not_contains _ _ hc4)
  have hscanH : SharedMemory.headerScan HL = some (T, agent) := by
    have had : ∀ c ∈ (a :: as : Str), jsDot c = true := by
      intro c hc
      exact (ha3 c (by rw [haeq]; exact hc)).1
    have haw : jsWs a = false := head_not_ws_of_trim agent ha2 a (by rw [haeq]; rfl)
    have htd : ∀ c ∈ T, jsDot c = true ∧ c ≠ ']' :=
      fun c hc => ⟨(htmem c hc).1, (htmem c hc).2.1⟩
    have hat : SharedMemory.headerAt (("### [".toList) ++ T ++ (']' :: ' ' :: (a :: as)))
        = some (T, a :: as) := headerAt_pos T a as htne htd haw had
    rw [hHL, haeq]
    exact headerScan_pos _ _ hat (by simp)
  have hfindline : ([L1, [], HL, ML, [], content] : List Str).find?
      (fun l => (SharedMemory.headerScan l).isSome) = some HL := by
    simp [List.find?, hscan1, hscanE, hscanH, hscanC]
  -- exactly one metadata line
  have hsw1 : startsWithChar '>' L1 = false := by rw [hL1]; rfl
  have hswH : startsWithChar '>' HL = false := by rw [hHL]; rfl
  have hswE : startsWithChar '>' ([] : Str) = false := rfl
  have hswM : startsWithChar '>' ML = true := by rw [hML]; rfl
  have hmeta : ([L1, [], HL, ML, [], content] : List Str).filter (startsWithChar '>')
      = [ML] := by
    simp [List.filter_cons, hsw1, hswE, hswH, hswM, hc5]
  -- content lines
  have hpf1 : (("# ".toList).isPrefixOf L1) = true := by
    rw [hL1]
    exact List.isPrefixOf_iff_prefix.mpr (List.prefix_append _ _)
  have hcne : content.isEmpty = false := by
    cases hx : content with
    | nil => exact absurd hx hc1
    | cons x l => rfl
  have htrimEm : jsTrim ([] : Str) = [] := rfl
  have hpf1b : (((['#', ' '] : Str)).isPrefixOf L1) = true := hpf1
  have hc6b : (((['#', ' '] : Str)).isPrefixOf content) = false := hc6
  have hcontentLines : ([L1, [], HL, ML, [], content] : List Str).filter
      (fun l => !(SharedMemory.headerScan l).isSome && !startsWithChar '>' l &&
        !(("# ".toList).isPrefixOf l) && !(jsTrim l).isEmpty) = [content] := by
    simp [List.filter_cons, hscan1, hscanE, hscanH, hscanC, hsw1, hswE, hswH, hswM,
      hc5, hc6, hpf1, hpf1b, hc6b, hc2, hcne, htrimEm]
  -- the single metadata pair
  have hdw : (ML.drop 1).dropWhile jsWs = k ++ (": ".toList) ++ v := by
    obtain ⟨kc, kr, hkeq⟩ : ∃ kc kr, k = kc :: kr := by
      cases hx : k with
      | nil => exact absurd hx hk1
      | cons kc kr => exact ⟨kc, kr, rfl⟩
    have hkcw : jsWs kc = false := head_not_ws_of_trim k hk2 kc (by rw [hkeq]; rfl)
    rw [hML]
    show List.dropWhile jsWs (' ' :: (k ++ (": ".toList) ++ v)) = k ++ (": ".toList) ++ v
    rw [hkeq]
    show List.dropWhile jsWs (' ' :: (kc :: (kr ++ (": ".toList) ++ v)))
        = kc :: (kr ++ (": ".toList) ++ v)
    simp [List.dropWhile_cons, hkcw, show jsWs ' ' = true from rfl]
  have hpipe : findSub (" | ".toList) (k ++ (": ".toList) ++ v) = none := by
    apply findSub_pipe_none
    intro hm
    rcases List.mem_append.mp hm with h1 | h1
    · rcases List.mem_append.mp h1 with h2 | h2
      · exact hk5 h2
      · exact absurd h2 (by decide)
    · exact hv5 h1
  have hsplitpipe : splitOnStr (" | ".toList) (k ++ (": ".toList) ++ v)
      = [k ++ (": ".toList) ++ v] := by
    rw [splitOnStr_eq _ (by decide), hpipe]
  have hpipe2 : findSub (" | ".toList) (k ++ ((": ".toList) ++ v)) = none := by
    rw [← List.append_assoc]
    exact hpipe
  have hsplitpipe2 : splitOnStr (" | ".toList) (k ++ ((": ".toList) ++ v))
      = [k ++ ((": ".toList) ++ v)] := by
    rw [splitOnStr_eq _ (by decide), hpipe2]
  have hcolon : splitOnStr (": ".toList) (k ++ (": ".toList) ++ v) = [k, v] :=
    splitOn_colon_pair k v hk4 hv4
  have hcolon2 : splitOnStr (": ".toList) (k ++ ((": ".toList) ++ v)) = [k, v] := by
    rw [← List.append_assoc]
    exact hcolon
  have hkem : k.isEmpty = false := by
    cases hx : k with
    | nil => exact absurd hx hk1
    | cons x l => rfl
  have hvem : v.isEmpty = false := by
    cases hx : v with
    | nil => exact absurd hx hv1
    | cons x l => rfl
  -- the timestamp round trip
  have htT : jsTrim T = T := jsTrim_eq_self T (fun c hc => (hthead c hc).1) htlast
  have hTrest : replaceFirst (" ".toList) ("T".toList) T = now.take 16 := by
    rw [hT]
    exact time_restore now hnow
  -- assemble
  unfold SharedMemory.readTopic
  simp only [readFileFS]
  rw [hdoc]
  unfold SharedMemory.parseMessages
  simp only [hsplitdoc, List.filter_cons, List.filter_nil, htrimB, htrimnl, hBne,
    List.isEmpty_nil, Bool.not_false, Bool.not_true, if_true, if_false]
  simp only [List.filterMap_cons, List.filterMap_nil, htrimB, hlines, hfindline,
    hscanH, hmeta, hcontentLines, htT, hTrest, ha2, hc2,
    List.map_cons, List.map_nil, hdw, hsplitpipe, hsplitpipe2, hcolon, hcolon2]
  have hcolon3 : splitOnStr ([':', ' '] : Str) (k ++ ':' :: ' ' :: v) = [k, v] := hcolon2
  simp [List.intercalate, List.intersperse, hc2, hkem, hvem, hk1, hv1, hk2, hv2, setAssoc,
    hcolon, hcolon2, hcolon3]

/-- Counterexample to C8 as stated: publishing a message whose trimmed
content begins with a greater-than sign and reading the topic back yields a
parsed message whose content is empty rather than the published content
trimmed, because the body line is captured by the metadata-line filter of the
parser and excluded from the content lines. -/
theorem claim_C8_counterexample :
    (SharedMemory.readTopic ("t".toList) (.present Examples.pubFresh.1)).map
      (fun msg => msg.content) = [([] : Str)]
    ∧ jsTrim ("> hi".toList) = ("> hi".toList)
    ∧ ("> hi".toList) ≠ ([] : Str) := by
  refine ⟨by decide, by decide, by decide⟩

/-- C8 (amended): on a fresh topic file, publish followed by read restores
the message: for every agent name (nonempty, trimmed, dot-class, dash-free),
ISO timestamp, topic (single line, dash-free, not containing a triple sharp
after the title prefix) and content (nonempty, trimmed, single line,
dot-class, dash-free, no triple sharp, not starting with a greater-than sign
or a title prefix), and metadata that is either absent or a single key-value
pair of nonempty trimmed single-line colon-free pipe-free dash-free strings,
the parsed message list is exactly one message whose agent and content equal
the published ones, whose metadata equals the published metadata, and whose
timestamp is the published timestamp truncated to minute precision with
seconds and milliseconds zeroed. -/
theorem claim_C8 (agent now topic content : Str) (m : Option (List (Str × Str)))
    (hnow : VibeEngine.isoPrefixShape now = true)
    (ha1 : agent ≠ []) (ha2 : jsTrim agent = agent)
    (ha3 : ∀ c ∈ agent, jsDot c = true ∧ c ≠ '-')
    (ht1 : ('\n' : Char) ∉ topic) (ht2 : ('-' : Char) ∉ topic)
    (ht3 : containsSub ("###".toList) (("# ".toList) ++ topic) = false)
    (hc1 : content ≠ []) (hc2 : jsTrim content = content)
    (hc3 : ∀ c ∈ content, jsDot c = true ∧ c ≠ '-')
    (hc4 : containsSub ("###".toList) content = false)
    (hc5 : startsWithChar '>' content = false)
    (hc6 : ("# ".toList).isPrefixOf content = false)
    (hm : m = none ∨ ∃ k v, m = some [(k, v)] ∧ k ≠ [] ∧ jsTrim k = k ∧
      (∀ c ∈ k, jsDot c = true ∧ c ≠ '-') ∧ (':' : Char) ∉ k ∧ ('|' : Char) ∉ k ∧
      v ≠ [] ∧ jsTrim v = v ∧ (∀ c ∈ v, jsDot c = true ∧ c ≠ '-') ∧
      (':' : Char) ∉ v ∧ ('|' : Char) ∉ v) :
    SharedMemory.readTopic topic
      (.present (SharedMemory.publish agent now .absent topic content m).1)
      = [{ agent := agent, topic := topic,
           timestamp := now.take 16 ++ (":00.000Z".toList),
           content := content, metadata := m }] := by
  rcases hm with rfl | ⟨k, v, rfl, hk1, hk2, hk3, hk4, hk5, hv1, hv2, hv3, hv4, hv5⟩
  · exact publishRead_noMeta agent now topic content hnow ha1 ha2 ha3 ht1 ht2 ht3
      hc1 hc2 hc3 hc4 hc5 hc6
  · exact publishRead_pairMeta agent now topic content k v hnow ha1 ha2 ha3 ht1 ht2 ht3
      hc1 hc2 hc3 hc4 hc5 hc6 hk1 hk2 hk3 hk4 hk5 hv1 hv2 hv3 hv4 hv5

/-- Witness for the amended C8 at a concrete input with a metadata pair. -/
theorem claim_C8_witness :
    SharedMemory.readTopic ("t".toList)
      (.present (SharedMemory.publish ("alice".toList)
        ("2024-01-02T03:04:05.678Z".toList) .absent ("t".toList) ("hello".toList)
        (some [(("k".toList), ("v".toList))])).1)
      = [{ agent := ("alice".toList), topic := ("t".toList),
           timestamp := (("2024-01-02T03:04:05.678Z".toList).take 16) ++ (":00.000Z".toList),
           content := ("hello".toList), metadata := some [(("k".toList), ("v".toList))] }] :=
  claim_C8 ("alice".toList) ("2024-01-02T03:04:05.678Z".toList) ("t".toList)
    ("hello".toList) (some [(("k".toList), ("v".toList))])
    (by decide) (by decide) (by decide) (by decide) (by decide) (by decide) (by decide)
    (by decide) (by decide) (by decide) (by decide) (by decide) (by decide)
    (Or.inr ⟨("k".toList), ("v".toList), rfl, by decide, by decide, by decide, by decide,
      by decide, by decide, by decide, by decide, by decide, by decide⟩)
